import Mathlib

/-!
# The Jamf Pro SDK's API handlers (`sdk/http_client/jamfpro_api_handler.go`)

A shallow embedding of the handler module: the selection of a handler from an
endpoint, the encoding of request bodies and the decoding of responses for the
Classic (XML), the JamfPro (JSON) and the Unknown handler.

Conventions of the embedding.
* A Go `string` is a Lean `String`; `strings.Contains` is the substring test on
  the character lists.
* A Go `error` is a `GoError`; `nil` is `none`.
* What a Go method does to the world besides returning is returned with its
  result: the value left in `out`, whether the response body was read, which
  files were opened, and the calls made on the logger.
* Library routines and declarations that live outside this file of the
  repository are parameters (`Env`): the XML and JSON codecs and
  `extractErrorMessageFromHTML`.
* A Go slice is a `Slice`: the nil slice, or a slice that is not nil with its
  elements; a Go `int` is an `Int` in the range of 64 bits.
* Where a property depends on what `encoding/json` and `encoding/xml` do, the
  library is held to models of them for the shapes `Role`, `ResponseApiRoles`
  and `Department`.
-/

set_option autoImplicit false

namespace http_client

/-! ## Go strings -/

/-- Whether the character list starts with `p` (Go `strings.HasPrefix`). -/
def hasPrefixChars : List Char → List Char → Bool
  | _, [] => true
  | [], _ :: _ => false
  | c :: cs, p :: ps => c == p && hasPrefixChars cs ps

/-- Whether `sub` occurs in the character list at some position, scanning from
the left (Go `strings.Index(s, sub) >= 0`). -/
def containsChars : List Char → List Char → Bool
  | [], sub => sub.isEmpty
  | c :: cs, sub => hasPrefixChars (c :: cs) sub || containsChars cs sub

/-- Go `strings.Contains(s, substr)`. -/
def strings.Contains (s substr : String) : Bool :=
  containsChars s.data substr.data

/-! ## Constants -/

/-- The base domain of a Jamf instance. -/
def BaseDomain : String := ".jamfcloud.com"

/-- The endpoint to obtain an OAuth token. -/
def OAuthTokenEndpoint : String := "/api/oauth/token"

/-- The endpoint to obtain a bearer token. -/
def BearerTokenEndpoint : String := "/api/v1/auth/token"

/-- The endpoint to refresh an existing token. -/
def TokenRefreshEndpoint : String := "/api/v1/auth/keep-alive"

/-- The endpoint to invalidate an active token. -/
def TokenInvalidateEndpoint : String := "/api/v1/auth/invalidate-token"

/-! ## Errors, loggers and handlers -/

/-- A Go `error` value as this module produces or passes on. -/
inductive GoError where
  /-- The value of `fmt.Errorf`: an error whose `Error()` is `msg`. -/
  | errorf (msg : String)
  /-- A pointer to an `APIError` with the two fields the module sets. -/
  | apiError (StatusCode : Int) (Message : String)
  /-- An error returned by a library call (`io.ReadAll`, `xml.Marshal`,
  `json.Marshal`) and handed back unchanged. -/
  | lib (msg : String)
  deriving DecidableEq, Repr

/-- The logger a handler holds; its level is the one `SetLevel` stored. The
level type `L` is declared outside this module. -/
structure Logger (L : Type) where
  level : L
  deriving DecidableEq, Repr

/-- The method of the logger that a call goes to. -/
inductive LogMethod where
  | Trace | Debug | Info | Warn | Error
  deriving DecidableEq, Repr

/-- A response header set: canonical key to its values. -/
abbrev Header := List (String × List String)

/-- Go `http.Header.Get`: the first value of the key, `""` when there is none. -/
def Header.Get (h : Header) (key : String) : String :=
  match h.lookup key with
  | some (v :: _) => v
  | _ => ""

/-- An argument handed to a logger call after the message. -/
inductive LogArg where
  | str (s : String)
  | int (n : Int)
  | err (e : GoError)
  | header (h : Header)
  deriving DecidableEq, Repr

/-- One call on the logger. -/
structure LogCall where
  method : LogMethod
  msg : String
  keysAndValues : List LogArg
  deriving DecidableEq, Repr

/-- The handler of the Classic API. -/
structure ClassicApiHandler (L : Type) where
  logger : Logger L
  debugMode : Bool
  deriving DecidableEq, Repr

/-- The handler of the JamfPro API. -/
structure JamfProApiHandler (L : Type) where
  logger : Logger L
  debugMode : Bool
  deriving DecidableEq, Repr

/-- The handler for unrecognised API types. -/
structure UnknownApiHandler (L : Type) where
  logger : Logger L
  debugMode : Bool
  deriving DecidableEq, Repr

/-- A value of the `APIHandler` interface: one of the three implementations. -/
inductive APIHandler (L : Type) where
  | classic (h : ClassicApiHandler L)
  | jamfPro (h : JamfProApiHandler L)
  | unknown (h : UnknownApiHandler L)
  deriving DecidableEq, Repr

/-- The dynamic type of an `APIHandler` value. -/
inductive HandlerKind where
  | Classic | JamfPro | Unknown
  deriving DecidableEq, Repr

/-- The implementation behind an interface value. -/
def APIHandler.kind {L : Type} : APIHandler L → HandlerKind
  | .classic _ => .Classic
  | .jamfPro _ => .JamfPro
  | .unknown _ => .Unknown

/-- The logger attached to a handler. -/
def APIHandler.logger {L : Type} : APIHandler L → Logger L
  | .classic h => h.logger
  | .jamfPro h => h.logger
  | .unknown h => h.logger

/-- `SetLogger` of each handler. -/
def ClassicApiHandler.SetLogger {L : Type} (h : ClassicApiHandler L) (logger : Logger L) :
    ClassicApiHandler L :=
  { h with logger := logger }

def JamfProApiHandler.SetLogger {L : Type} (h : JamfProApiHandler L) (logger : Logger L) :
    JamfProApiHandler L :=
  { h with logger := logger }

def UnknownApiHandler.SetLogger {L : Type} (h : UnknownApiHandler L) (logger : Logger L) :
    UnknownApiHandler L :=
  { h with logger := logger }

/-- `SetDebugMode` of each handler. -/
def ClassicApiHandler.SetDebugMode {L : Type} (h : ClassicApiHandler L) (debug : Bool) :
    ClassicApiHandler L :=
  { h with debugMode := debug }

def JamfProApiHandler.SetDebugMode {L : Type} (h : JamfProApiHandler L) (debug : Bool) :
    JamfProApiHandler L :=
  { h with debugMode := debug }

def UnknownApiHandler.SetDebugMode {L : Type} (h : UnknownApiHandler L) (debug : Bool) :
    UnknownApiHandler L :=
  { h with debugMode := debug }

/-- `GetAPIHandler`: the handler for an endpoint. The handler is created with
`debugMode` false and receives a fresh logger whose level is `logLevel`. -/
def GetAPIHandler {L : Type} (endpoint : String) (logLevel : L) : APIHandler L :=
  let logger : Logger L := { level := logLevel }
  if strings.Contains endpoint "/JSSResource" then
    .classic { logger := logger, debugMode := false }
  else if strings.Contains endpoint "/api" then
    .jamfPro { logger := logger, debugMode := false }
  else
    .unknown { logger := logger, debugMode := false }

/-! ## Go `fmt` with an empty operand list

`fmt.Errorf(format)` called with a format string and no operands still scans
the format for verbs. What follows is `doPrintf` of Go's `fmt` package for the
case that the operand list is empty: text is copied up to a `%`, then flags,
an argument index, a width, a precision and a verb are read, and as there is
no operand the verb is rendered as an error marker (`%%` is a percent sign).
-/

namespace fmt

def badWidthString : List Char := "%!(BADWIDTH)".data
def badPrecString : List Char := "%!(BADPREC)".data
def noVerbString : List Char := "%!(NOVERB)".data

/-- The flag characters of a verb. -/
def isFlag (c : Char) : Bool :=
  c == '#' || c == '0' || c == '+' || c == '-' || c == ' '

/-- The flag loop: skip the flags after `%`. -/
def skipFlags : List Char → List Char
  | [] => []
  | c :: cs => if isFlag c then skipFlags cs else c :: cs

/-- The loop of `parsenum`: the number read so far, whether a digit was seen,
and the text left. A number over a million ends the scan at the end of the
text, as no number. -/
def parsenumAux : Nat → Bool → List Char → Nat × Bool × List Char
  | num, isnum, [] => (num, isnum, [])
  | num, isnum, c :: cs =>
    if c.isDigit then
      if num > 1000000 then (0, false, [])
      else parsenumAux (num * 10 + (c.toNat - '0'.toNat)) true cs
    else (num, isnum, c :: cs)

/-- `parsenum` from the start of the text up to its end. -/
def parsenum (s : List Char) : Nat × Bool × List Char :=
  parsenumAux 0 false s

/-- `parseArgNumber` on a text that starts with `[`: the text after the index
and whether the index was well formed. Without a closing bracket, or with
fewer than three characters, only the `[` is consumed. -/
def parseArgNumber (format : List Char) : List Char × Bool :=
  if format.length < 3 then (format.drop 1, false)
  else
    let inner := (format.drop 1).takeWhile (fun c => c != ']')
    match (format.drop 1).dropWhile (fun c => c != ']') with
    | [] => (format.drop 1, false)
    | _ :: rest =>
      let r := parsenum inner
      (rest, r.2.1 && r.2.2.isEmpty)

/-- `argNumber` with no operands: an index in brackets is never in range, so
it clears `goodArgNum`. Gives the text left, whether an index was found, and
`goodArgNum`. -/
def argNumber (format : List Char) (goodArgNum : Bool) : List Char × Bool × Bool :=
  match format with
  | [] => ([], false, goodArgNum)
  | c :: cs =>
    if c = '[' then
      let r := parseArgNumber (c :: cs)
      (r.1, r.2, false)
    else (c :: cs, false, goodArgNum)

/-- The width of a verb: text written, text left, `afterIndex`, `goodArgNum`. -/
def width (s : List Char) (afterIndex goodArgNum : Bool) :
    List Char × List Char × Bool × Bool :=
  match s with
  | [] => ([], [], afterIndex, goodArgNum)
  | c :: cs =>
    if c = '*' then (badWidthString, cs, false, goodArgNum)
    else
      let r := parsenum (c :: cs)
      ([], r.2.2, afterIndex, goodArgNum && !(afterIndex && r.2.1))

/-- The precision of a verb: text written, text left, `afterIndex`,
`goodArgNum`. Go reads a precision only when a character follows the '.'
(`i+1 < end && format[i] == '.'`); a '.' that ends the format is left to be
the verb. -/
def precision (s : List Char) (afterIndex goodArgNum : Bool) :
    List Char × List Char × Bool × Bool :=
  match s with
  | [] => ([], [], afterIndex, goodArgNum)
  | c :: cs =>
    if cs ≠ [] ∧ c = '.' then
      let a := argNumber cs (goodArgNum && !afterIndex)
      match a.1 with
      | [] => ([], [], a.2.1, a.2.2)
      | d :: ds =>
        if d = '*' then (badPrecString, ds, false, a.2.2)
        else ([], (parsenum (d :: ds)).2.2, a.2.1, a.2.2)
    else ([], c :: cs, afterIndex, goodArgNum)

/-- One verb, from the character after `%`: the text written for it and the
format text left. -/
def verbStep (s : List Char) : List Char × List Char :=
  let a := argNumber (skipFlags s) true
  let w := width a.1 a.2.1 a.2.2
  let p := precision w.2.1 w.2.2.1 w.2.2.2
  let b := if p.2.2.1 then (p.2.1, p.2.2.1, p.2.2.2) else argNumber p.2.1 p.2.2.2
  match b.1 with
  | [] => (w.1 ++ p.1 ++ noVerbString, [])
  | verb :: rest =>
    if verb = '%' then (w.1 ++ p.1 ++ ['%'], rest)
    else if !b.2.2 then (w.1 ++ p.1 ++ ('%' :: '!' :: verb :: "(BADINDEX)".data), rest)
    else (w.1 ++ p.1 ++ ('%' :: '!' :: verb :: "(MISSING)".data), rest)

/-- The format loop, with one unit of fuel per character of the format. -/
def doPrintfAux : Nat → List Char → List Char
  | 0, _ => []
  | _ + 1, [] => []
  | n + 1, c :: cs =>
    if c = '%' then (verbStep cs).1 ++ doPrintfAux n (verbStep cs).2
    else c :: doPrintfAux n cs

/-- `fmt.Sprintf(format)` with no operands. -/
def Sprintf0 (format : String) : String :=
  ⟨doPrintfAux format.data.length format.data⟩

/-- `fmt.Errorf(format)` with no operands. -/
def Errorf0 (format : String) : GoError :=
  .errorf (Sprintf0 format)

/-- The verb `%d` applied to an `int`. -/
def verbD (n : Int) : String := toString n

end fmt

/-! ## Requests, responses and the library they are read with -/

/-- The request a response answers; the handlers look at its method only. -/
structure Request where
  Method : String
  deriving DecidableEq, Repr

/-- An `http.Response` as the handlers use it. `Body` is what `io.ReadAll`
yields when the body is read to its end: the bytes, or the reader's error. -/
structure Response where
  Request : Request
  Status : String
  StatusCode : Int
  Header : Header
  Body : Except String String

/-- The routines the handlers call that are defined outside this module, for
values of type `α` travelling as request body and as `out`.
* `xmlMarshal`, `jsonMarshal`: `xml.Marshal`, `json.Marshal`, giving the bytes
  or the library's error message;
* `xmlUnmarshal`, `jsonUnmarshal`: `xml.Unmarshal`, `json.Unmarshal` of the
  bytes into `out`, giving the value `out` holds afterwards and the library's
  error message when decoding failed;
* `extractErrorMessageFromHTML`: the text taken from an HTML error page. -/
structure Env (α : Type) where
  xmlMarshal : α → Except String String
  xmlUnmarshal : String → α → α × Option String
  jsonMarshal : α → Except String String
  jsonUnmarshal : String → α → α × Option String
  extractErrorMessageFromHTML : String → String

/-- What `MarshalRequest` returns (`data` is `none` for a nil slice) and the
logger calls it made. -/
structure MarshalResult where
  data : Option String
  err : Option GoError
  logs : List LogCall
  deriving DecidableEq, Repr

/-- What `UnmarshalResponse` returns and does: the error, the value `out`
holds afterwards, whether the response body was read, the logger calls. -/
structure UnmarshalResult (α : Type) where
  err : Option GoError
  out : α
  bodyRead : Bool
  logs : List LogCall

/-- What `MarshalMultipartRequest` returns and does: body (`none` for nil),
content type, error, and the paths handed to `os.Open`. -/
structure MultipartResult where
  body : Option String
  contentType : String
  err : Option GoError
  opened : List String
  logs : List LogCall
  deriving DecidableEq, Repr

/-! ## Content type headers -/

/-- The Classic handler always names XML. -/
def ClassicApiHandler.GetContentTypeHeader {L : Type} (_h : ClassicApiHandler L)
    (_method : String) : String :=
  "application/xml"

/-- The JamfPro handler always names JSON. -/
def JamfProApiHandler.GetContentTypeHeader {L : Type} (_h : JamfProApiHandler L)
    (_method : String) : String :=
  "application/json"

/-- The Unknown handler defaults to JSON. -/
def UnknownApiHandler.GetContentTypeHeader {L : Type} (_h : UnknownApiHandler L)
    (_method : String) : String :=
  "application/json"

/-! ## Encoding requests -/

/-- `ClassicApiHandler.MarshalRequest`: the body in XML. -/
def ClassicApiHandler.MarshalRequest {L α : Type} (env : Env α) (_h : ClassicApiHandler L)
    (body : α) (method : String) : MarshalResult :=
  match env.xmlMarshal body with
  | .error e => { data := none, err := some (.lib e), logs := [] }
  | .ok data =>
    { data := some data, err := none,
      logs :=
        if method = "POST" ∨ method = "PUT" then
          [⟨.Trace, "Full Request Body:", [.str "Body", .str data]⟩]
        else [] }

/-- `JamfProApiHandler.MarshalRequest`: the body in JSON. -/
def JamfProApiHandler.MarshalRequest {L α : Type} (env : Env α) (h : JamfProApiHandler L)
    (body : α) (method : String) : MarshalResult :=
  match env.jsonMarshal body with
  | .error e =>
    { data := none, err := some (.lib e),
      logs := [⟨.Error, "Failed marshaling request for JamfPro API",
        [.str "error", .err (.lib e)]⟩] }
  | .ok data =>
    { data := some data, err := none,
      logs :=
        if h.debugMode then
          ⟨.Debug, "Marshaling request for JamfPro API", [.str "method", .str method]⟩ ::
            (if method = "POST" ∨ method = "PUT" ∨ method = "PATCH" then
              [⟨.Debug, "Full Request Body for JamfPro API:", [.str data]⟩]
            else [])
        else [] }

/-- `UnknownApiHandler.MarshalRequest`: an error, the API type is unsupported. -/
def UnknownApiHandler.MarshalRequest {L α : Type} (_h : UnknownApiHandler L)
    (_body : α) (_method : String) : MarshalResult :=
  { data := none, err := some (.errorf "unsupported API type"),
    logs := [⟨.Warn, "Attempted to marshal request for an unsupported API type", []⟩] }

/-! ## Decoding responses -/

/-- The three logger calls both decoding handlers make once the body is read:
the raw body, the status line, the headers. -/
def readLogs (rawMsg statusMsg : String) (resp : Response) (bodyBytes : String) :
    List LogCall :=
  [⟨.Trace, rawMsg, [.str bodyBytes]⟩,
   ⟨.Debug, statusMsg, [.str "status", .str resp.Status]⟩,
   ⟨.Debug, "HTTP Response Headers:", [.header resp.Header]⟩]

/-- `ClassicApiHandler.UnmarshalResponse`: decode a response from XML. -/
def ClassicApiHandler.UnmarshalResponse {L α : Type} (env : Env α)
    (_h : ClassicApiHandler L) (resp : Response) (out : α) : UnmarshalResult α :=
  if resp.Request.Method = "DELETE" then
    if resp.StatusCode ≥ 200 ∧ resp.StatusCode < 300 then
      { err := none, out := out, bodyRead := false, logs := [] }
    else
      { err := some (.errorf ("DELETE request failed with status code: " ++
          fmt.verbD resp.StatusCode)),
        out := out, bodyRead := false, logs := [] }
  else
    match resp.Body with
    | .error e =>
      { err := some (.lib e), out := out, bodyRead := true,
        logs := [⟨.Error, "Failed reading response body", [.str "error", .err (.lib e)]⟩] }
    | .ok bodyBytes =>
      let logs := readLogs "Raw HTTP Response for Classic API:"
        "Unmarshaling response for Classic API" resp bodyBytes
      let contentType := resp.Header.Get "Content-Type"
      if strings.Contains contentType "text/html" then
        let errMsg := env.extractErrorMessageFromHTML bodyBytes
        { err := some (.apiError resp.StatusCode errMsg), out := out, bodyRead := true,
          logs := logs ++ [⟨.Warn, "Received HTML content",
            [.str "error_message", .str errMsg, .str "status_code", .int resp.StatusCode]⟩] }
      else if strings.Contains contentType "application/xml" ||
          strings.Contains contentType "text/xml;charset=UTF-8" then
        if resp.StatusCode < 200 ∨ resp.StatusCode ≥ 300 then
          { err := some (.errorf ("received non-success status code: " ++
              fmt.verbD resp.StatusCode)),
            out := out, bodyRead := true,
            logs := logs ++ [⟨.Error, "Received non-success status code",
              [.str "status_code", .int resp.StatusCode]⟩] }
        else
          match env.xmlUnmarshal bodyBytes out with
          | (out', some perr) =>
            if strings.Contains bodyBytes "<html>" then
              let errMsg := env.extractErrorMessageFromHTML bodyBytes
              { err := some (fmt.Errorf0 errMsg), out := out', bodyRead := true,
                logs := logs ++ [⟨.Warn, "Received HTML content instead of expected XML",
                  [.str "error_message", .str errMsg,
                   .str "status_code", .int resp.StatusCode]⟩] }
            else
              { err := some (.errorf ("failed to unmarshal XML response: " ++ perr)),
                out := out', bodyRead := true,
                logs := logs ++ [⟨.Error, "Failed to unmarshal XML response",
                  [.str "error", .err (.lib perr)]⟩] }
          | (out', none) => { err := none, out := out', bodyRead := true, logs := logs }
      else
        { err := some (.errorf ("unexpected content type: " ++ contentType)),
          out := out, bodyRead := true, logs := logs }

/-- `JamfProApiHandler.UnmarshalResponse`: decode a response from JSON. -/
def JamfProApiHandler.UnmarshalResponse {L α : Type} (env : Env α)
    (_h : JamfProApiHandler L) (resp : Response) (out : α) : UnmarshalResult α :=
  if resp.Request.Method = "DELETE" then
    if resp.StatusCode ≥ 200 ∧ resp.StatusCode < 300 then
      { err := none, out := out, bodyRead := false, logs := [] }
    else
      { err := some (.errorf ("DELETE request failed with status code: " ++
          fmt.verbD resp.StatusCode)),
        out := out, bodyRead := false, logs := [] }
  else
    match resp.Body with
    | .error e =>
      { err := some (.lib e), out := out, bodyRead := true,
        logs := [⟨.Error, "Failed reading response body for JamfPro API",
          [.str "error", .err (.lib e)]⟩] }
    | .ok bodyBytes =>
      let logs := readLogs "Raw HTTP Response for Jamf Pro API:"
        "Unmarshaling response for Jamf Pro API" resp bodyBytes
      let contentType := resp.Header.Get "Content-Type"
      if strings.Contains contentType "text/html" then
        let errMsg := env.extractErrorMessageFromHTML bodyBytes
        { err := some (.apiError resp.StatusCode errMsg), out := out, bodyRead := true,
          logs := logs ++ [⟨.Warn, "Received HTML content",
            [.str "error_message", .str errMsg, .str "status_code", .int resp.StatusCode]⟩] }
      else if strings.Contains contentType "application/json" then
        if resp.StatusCode < 200 ∨ resp.StatusCode ≥ 300 then
          { err := some (.errorf ("received non-success status code: " ++
              fmt.verbD resp.StatusCode)),
            out := out, bodyRead := true,
            logs := logs ++ [⟨.Error, "Received non-success status code",
              [.str "status_code", .int resp.StatusCode]⟩] }
        else
          match env.jsonUnmarshal bodyBytes out with
          | (out', some perr) =>
            if strings.Contains bodyBytes "<html>" then
              let errMsg := env.extractErrorMessageFromHTML bodyBytes
              { err := some (fmt.Errorf0 errMsg), out := out', bodyRead := true,
                logs := logs ++ [⟨.Warn, "Received HTML content instead of expected JSON",
                  [.str "error_message", .str errMsg,
                   .str "status_code", .int resp.StatusCode]⟩] }
            else
              { err := some (.errorf ("failed to unmarshal JSON response: " ++ perr)),
                out := out', bodyRead := true,
                logs := logs ++ [⟨.Error, "Failed to unmarshal JSON response",
                  [.str "error", .err (.lib perr)]⟩] }
          | (out', none) => { err := none, out := out', bodyRead := true, logs := logs }
      else
        { err := some (.errorf ("unexpected content type: " ++ contentType)),
          out := out, bodyRead := true, logs := logs }

/-- `UnknownApiHandler.UnmarshalResponse`: an error, the API type is
unsupported. -/
def UnknownApiHandler.UnmarshalResponse {L α : Type} (_h : UnknownApiHandler L)
    (resp : Response) (out : α) : UnmarshalResult α :=
  { err := some (.errorf "unsupported API type"), out := out, bodyRead := false,
    logs := [⟨.Warn, "Attempted to unmarshal response for an unsupported API type",
      [.str "status", .str resp.Status]⟩] }

/-! ## Multipart requests -/

/-- `ClassicApiHandler.MarshalMultipartRequest`: not supported by the Classic
API. The maps are lists of key and value. -/
def ClassicApiHandler.MarshalMultipartRequest {L : Type} (_h : ClassicApiHandler L)
    (_fields _files : List (String × String)) : MultipartResult :=
  { body := none, contentType := "",
    err := some (.errorf "multipart request not supported by the Classic API"),
    opened := [], logs := [] }

/-- `UnknownApiHandler.MarshalMultipartRequest`: not supported for an unknown
API type. -/
def UnknownApiHandler.MarshalMultipartRequest {L : Type} (_h : UnknownApiHandler L)
    (_fields _files : List (String × String)) : MultipartResult :=
  { body := none, contentType := "",
    err := some (.errorf "multipart request not supported for an unknown API type"),
    opened := [], logs := [] }

/-! ## Calls through the interface -/

/-- `handler.MarshalRequest(body, method)` on an interface value. -/
def APIHandler.MarshalRequest {L α : Type} (env : Env α) (handler : APIHandler L)
    (body : α) (method : String) : MarshalResult :=
  match handler with
  | .classic h => h.MarshalRequest env body method
  | .jamfPro h => h.MarshalRequest env body method
  | .unknown h => h.MarshalRequest body method

/-- `handler.UnmarshalResponse(resp, out)` on an interface value. -/
def APIHandler.UnmarshalResponse {L α : Type} (env : Env α) (handler : APIHandler L)
    (resp : Response) (out : α) : UnmarshalResult α :=
  match handler with
  | .classic h => h.UnmarshalResponse env resp out
  | .jamfPro h => h.UnmarshalResponse env resp out
  | .unknown h => h.UnmarshalResponse resp out

/-- `handler.GetContentTypeHeader(method)` on an interface value. -/
def APIHandler.GetContentTypeHeader {L : Type} (handler : APIHandler L)
    (method : String) : String :=
  match handler with
  | .classic h => h.GetContentTypeHeader method
  | .jamfPro h => h.GetContentTypeHeader method
  | .unknown h => h.GetContentTypeHeader method

/-! ## Accept headers -/

/-- The endpoints of the JamfPro API that are asked for an image. -/
def imageEndpoints : List String :=
  ["/api/v1/branding-images/download/", "/api/v1/icon/download/"]

/-- The loop of `JamfProApiHandler.GetAcceptHeader` over the image endpoints
that are left: the first one the url contains ends it with "image/*". -/
def acceptHeaderLoop (url : String) : List String → String
  | [] => "application/json"
  | endpoint :: rest =>
    if strings.Contains url endpoint then "image/*" else acceptHeaderLoop url rest

/-- `JamfProApiHandler.GetAcceptHeader`: "image/*" for the image download
endpoints, "application/json" for all others. -/
def JamfProApiHandler.GetAcceptHeader {L : Type} (_h : JamfProApiHandler L)
    (url : String) : String :=
  acceptHeaderLoop url imageEndpoints

/-- `ClassicApiHandler.GetAcceptHeader`: the handler's content type. -/
def ClassicApiHandler.GetAcceptHeader {L : Type} (h : ClassicApiHandler L)
    (_url : String) : String :=
  h.GetContentTypeHeader ""

/-- `UnknownApiHandler.GetAcceptHeader`: the handler's content type. -/
def UnknownApiHandler.GetAcceptHeader {L : Type} (h : UnknownApiHandler L)
    (_url : String) : String :=
  h.GetContentTypeHeader ""

/-- `handler.GetAcceptHeader(url)` on an interface value. -/
def APIHandler.GetAcceptHeader {L : Type} (handler : APIHandler L) (url : String) : String :=
  match handler with
  | .classic h => h.GetAcceptHeader url
  | .jamfPro h => h.GetAcceptHeader url
  | .unknown h => h.GetAcceptHeader url

/-! ## Endpoint construction -/

/-- The part of the HTTP client that the endpoint constructors use: the name
of the instance and the logger. -/
structure Client (L : Type) where
  InstanceName : String
  logger : Logger L
  deriving DecidableEq, Repr

/-- `fmt.Sprintf("https://%s%s%s", a, b, c)`. -/
def fmt.httpsURL (a b c : String) : String :=
  "https://" ++ a ++ b ++ c

/-- `Client.ConstructAPIResourceEndpoint`: the URL of a resource endpoint and
the logger call made. -/
def Client.ConstructAPIResourceEndpoint {L : Type} (c : Client L) (endpointPath : String) :
    String × List LogCall :=
  let url := fmt.httpsURL c.InstanceName BaseDomain endpointPath
  (url, [⟨.Info, "Request will be made to API Resource URL:", [.str "URL", .str url]⟩])

/-- `Client.ConstructAPIAuthEndpoint`: the URL of an auth endpoint and the
logger call made. -/
def Client.ConstructAPIAuthEndpoint {L : Type} (c : Client L) (endpointPath : String) :
    String × List LogCall :=
  let url := fmt.httpsURL c.InstanceName BaseDomain endpointPath
  (url, [⟨.Info, "Request will be made to API authentication URL:", [.str "URL", .str url]⟩])

/-! ## The shapes that travel: API roles and departments -/

/-- A Go slice as far as its value goes: `none` is the nil slice, `some l` a
slice that is not nil and holds the elements `l`. -/
abbrev Slice (α : Type) := Option (List α)

/-- `len(s)`. -/
def Slice.len {α : Type} : Slice α → Nat
  | none => 0
  | some l => l.length

/-- The elements a `range` over the slice visits, in order. -/
def Slice.elems {α : Type} : Slice α → List α
  | none => []
  | some l => l

namespace jamfpro

/-- The URI of the API roles. -/
def uriApiRoles : String := "/api/v1/api-roles"

/-- `Role`: an API role. The JSON names are "id", "displayName" and
"privileges", each with `omitempty`. -/
structure Role where
  ID : String
  DisplayName : String
  Privileges : Slice String
  deriving DecidableEq, Repr

/-- `ResponseApiRoles`: the answer to a listing of API roles. The JSON names
are "totalCount" and "results". -/
structure ResponseApiRoles where
  TotalCount : Int
  Results : Slice Role
  deriving DecidableEq, Repr

/-- The zero value of `Role`. -/
def Role.zero : Role := { ID := "", DisplayName := "", Privileges := none }

/-- The zero value of `ResponseApiRoles`. -/
def ResponseApiRoles.zero : ResponseApiRoles := { TotalCount := 0, Results := none }

end jamfpro

/-! ## Go `encoding/json`, on the shapes above

`json.Marshal` of a `Role` is modelled in full. `json.Unmarshal` is modelled
where it succeeds: the functions below yield `some v` only when the library
returns no error and leaves `v` in the output, and `none` both where the
library fails and where the model does not follow it (escaped surrogates,
object keys outside ASCII that are not a field's exact name, `null` inside an
array, decoding objects into the elements of a slice that is not nil). -/

namespace json

/-- The digits of `hex` in Go: "0123456789abcdef". -/
def hexDigit (n : Nat) : Char :=
  if n < 10 then Char.ofNat (48 + n) else Char.ofNat (87 + n)

/-- One character of a string as `appendString` writes it with HTML escaping
on. `short` says whether backspace and form feed are written `\b` and `\f`
(Go 1.22 and later) or as `\u0008` and `\u000c` (before). -/
def escapeChar (short : Bool) (c : Char) : List Char :=
  if c = '\\' then ['\\', '\\']
  else if c = '"' then ['\\', '"']
  else if c = '\n' then ['\\', 'n']
  else if c = '\r' then ['\\', 'r']
  else if c = '\t' then ['\\', 't']
  else if short && c.toNat = 8 then ['\\', 'b']
  else if short && c.toNat = 12 then ['\\', 'f']
  else if c.toNat < 32 ∨ c = '<' ∨ c = '>' ∨ c = '&' then
    ['\\', 'u', '0', '0', hexDigit (c.toNat / 16), hexDigit (c.toNat % 16)]
  else if c.toNat = 0x2028 ∨ c.toNat = 0x2029 then
    ['\\', 'u', '2', '0', '2', hexDigit (c.toNat % 16)]
  else [c]

/-- The characters of a string, escaped. -/
def escape (short : Bool) : List Char → List Char
  | [] => []
  | c :: cs => escapeChar short c ++ escape short cs

/-- A string as a JSON string: quoted and escaped. -/
def quote (short : Bool) (s : String) : List Char :=
  '"' :: (escape short s.data ++ ['"'])

/-- The elements of a string array after the first, each behind a comma. -/
def quoteRest (short : Bool) : List String → List Char
  | [] => []
  | s :: rest => ',' :: (quote short s ++ quoteRest short rest)

/-- A `[]string` as JSON: `null` for the nil slice, else the bracketed
elements. -/
def marshalStrings (short : Bool) : Slice String → List Char
  | none => "null".data
  | some [] => "[]".data
  | some (s :: rest) => '[' :: (quote short s ++ quoteRest short rest ++ [']'])

/-- The members of a `Role` that are written: `omitempty` drops a string of
length 0 and a slice of length 0. -/
def roleMembers (short : Bool) (r : jamfpro.Role) : List (List Char) :=
  (if r.ID.data.length = 0 then [] else ["\"id\":".data ++ quote short r.ID]) ++
  (if r.DisplayName.data.length = 0 then []
    else ["\"displayName\":".data ++ quote short r.DisplayName]) ++
  (if r.Privileges.len = 0 then []
    else ["\"privileges\":".data ++ marshalStrings short r.Privileges])

/-- Members joined by commas. -/
def joinMembers : List (List Char) → List Char
  | [] => []
  | [m] => m
  | m :: rest => m ++ ',' :: joinMembers rest

/-- `json.Marshal` of a `Role`; it never fails. -/
def MarshalRole (short : Bool) (r : jamfpro.Role) : String :=
  ⟨'\x7b' :: (joinMembers (roleMembers short r) ++ ['\x7d'])⟩

/-- A JSON value as the decoder reads it. A number keeps its text. -/
inductive Value where
  | null
  | bool (b : Bool)
  | number (text : List Char)
  | string (s : List Char)
  | array (elems : List Value)
  | object (members : List (List Char × Value))

/-- The white space of JSON. -/
def isSpace (c : Char) : Bool :=
  c == ' ' || c == '\t' || c == '\r' || c == '\n'

/-- Skip white space. -/
def skipSpace : List Char → List Char
  | [] => []
  | c :: cs => if isSpace c then skipSpace cs else c :: cs

/-- The value of a hexadecimal digit. -/
def hexVal (c : Char) : Option Nat :=
  if 48 ≤ c.toNat ∧ c.toNat ≤ 57 then some (c.toNat - 48)
  else if 97 ≤ c.toNat ∧ c.toNat ≤ 102 then some (c.toNat - 87)
  else if 65 ≤ c.toNat ∧ c.toNat ≤ 70 then some (c.toNat - 55)
  else none

/-- Where the reader of a string literal stands: in plain text, behind a
backslash, or inside `\u` with `k` digits read and value `acc` so far. -/
inductive StrState where
  | plain
  | esc
  | hex (k acc : Nat)

/-- Put a character in front of what the rest of the string decodes to. -/
def consChar (c : Char) : Option (List Char × List Char) → Option (List Char × List Char)
  | none => none
  | some r => some (c :: r.1, r.2)

/-- Read a string literal from behind its opening quote: the text it stands
for and the input after its closing quote. Control characters are refused, as
are unknown escapes; an escaped surrogate is outside the model. -/
def readString : StrState → List Char → Option (List Char × List Char)
  | _, [] => none
  | .plain, c :: cs =>
    if c = '"' then some ([], cs)
    else if c = '\\' then readString .esc cs
    else if c.toNat < 32 then none
    else consChar c (readString .plain cs)
  | .esc, c :: cs =>
    if c = 'u' then readString (.hex 0 0) cs
    else if c = '"' ∨ c = '\\' ∨ c = '/' then consChar c (readString .plain cs)
    else if c = 'b' then consChar (Char.ofNat 8) (readString .plain cs)
    else if c = 'f' then consChar (Char.ofNat 12) (readString .plain cs)
    else if c = 'n' then consChar '\n' (readString .plain cs)
    else if c = 'r' then consChar '\r' (readString .plain cs)
    else if c = 't' then consChar '\t' (readString .plain cs)
    else none
  | .hex k acc, c :: cs =>
    match hexVal c with
    | none => none
    | some d =>
      if k < 3 then readString (.hex (k + 1) (acc * 16 + d)) cs
      else if 0xD800 ≤ acc * 16 + d ∧ acc * 16 + d ≤ 0xDFFF then none
      else consChar (Char.ofNat (acc * 16 + d)) (readString .plain cs)

/-- Where the scanner of a number stands. -/
inductive NumState where
  | neg | zero | int | dot | frac | e | esign | exp
  deriving DecidableEq

/-- Whether a number may end in this state. -/
def NumState.final : NumState → Bool
  | .zero | .int | .frac | .exp => true
  | _ => false

/-- The state after one more character of a number, if the character
continues the number. -/
def NumState.next (s : NumState) (c : Char) : Option NumState :=
  let digit := 48 ≤ c.toNat ∧ c.toNat ≤ 57
  match s with
  | .neg => if c = '0' then some .zero else if digit then some .int else none
  | .zero => if c = '.' then some .dot else if c = 'e' ∨ c = 'E' then some .e else none
  | .int =>
    if digit then some .int else if c = '.' then some .dot
    else if c = 'e' ∨ c = 'E' then some .e else none
  | .dot => if digit then some .frac else none
  | .frac => if digit then some .frac else if c = 'e' ∨ c = 'E' then some .e else none
  | .e => if c = '+' ∨ c = '-' then some .esign else if digit then some .exp else none
  | .esign => if digit then some .exp else none
  | .exp => if digit then some .exp else none

/-- Scan the rest of a number: its text and the input after it. -/
def scanNumber : NumState → List Char → Option (List Char × List Char)
  | s, [] => if s.final then some ([], []) else none
  | s, c :: cs =>
    match s.next c with
    | some s' => consChar c (scanNumber s' cs)
    | none => if s.final then some ([], c :: cs) else none

/-- The deepest nesting of arrays and objects the scanner accepts. -/
def maxNestingDepth : Nat := 10000

mutual

/-- Read one value, white space before it skipped: the value and the input
after it. `depth` counts the arrays and objects the value lies in. -/
def parseValue : Nat → Nat → List Char → Option (Value × List Char)
  | 0, _, _ => none
  | fuel + 1, depth, input =>
    match skipSpace input with
    | [] => none
    | c :: cs =>
      if c = '\x7b' then
        if depth ≥ maxNestingDepth then none
        else
          match skipSpace cs with
          | [] => none
          | d :: ds =>
            if d = '\x7d' then some (.object [], ds)
            else
              match parseMembers fuel (depth + 1) (d :: ds) with
              | none => none
              | some r => some (.object r.1, r.2)
      else if c = '[' then
        if depth ≥ maxNestingDepth then none
        else
          match skipSpace cs with
          | [] => none
          | d :: ds =>
            if d = ']' then some (.array [], ds)
            else
              match parseElems fuel (depth + 1) (d :: ds) with
              | none => none
              | some r => some (.array r.1, r.2)
      else if c = '"' then
        match readString .plain cs with
        | none => none
        | some r => some (.string r.1, r.2)
      else if c = 't' then
        if hasPrefixChars cs "rue".data then some (.bool true, cs.drop 3) else none
      else if c = 'f' then
        if hasPrefixChars cs "alse".data then some (.bool false, cs.drop 4) else none
      else if c = 'n' then
        if hasPrefixChars cs "ull".data then some (.null, cs.drop 3) else none
      else if c = '-' then
        match scanNumber .neg cs with
        | none => none
        | some r => some (.number (c :: r.1), r.2)
      else if c = '0' then
        match scanNumber .zero cs with
        | none => none
        | some r => some (.number (c :: r.1), r.2)
      else if 49 ≤ c.toNat ∧ c.toNat ≤ 57 then
        match scanNumber .int cs with
        | none => none
        | some r => some (.number (c :: r.1), r.2)
      else none

/-- Read the elements of an array that is not empty, up to its bracket. -/
def parseElems : Nat → Nat → List Char → Option (List Value × List Char)
  | 0, _, _ => none
  | fuel + 1, depth, input =>
    match parseValue fuel depth input with
    | none => none
    | some v =>
      match skipSpace v.2 with
      | [] => none
      | c :: cs =>
        if c = ',' then
          match parseElems fuel depth cs with
          | none => none
          | some r => some (v.1 :: r.1, r.2)
        else if c = ']' then some ([v.1], cs)
        else none

/-- Read the members of an object that is not empty, up to its brace. -/
def parseMembers : Nat → Nat → List Char → Option (List (List Char × Value) × List Char)
  | 0, _, _ => none
  | fuel + 1, depth, input =>
    match skipSpace input with
    | [] => none
    | q :: qs =>
      if q = '"' then
        match readString .plain qs with
        | none => none
        | some k =>
          match skipSpace k.2 with
          | [] => none
          | colon :: afterColon =>
            if colon = ':' then
              match parseValue fuel depth afterColon with
              | none => none
              | some v =>
                match skipSpace v.2 with
                | [] => none
                | c :: cs =>
                  if c = ',' then
                    match parseMembers fuel depth cs with
                    | none => none
                    | some r => some ((k.1, v.1) :: r.1, r.2)
                  else if c = '\x7d' then some ([(k.1, v.1)], cs)
                  else none
            else none
      else none

end

/-- Read a whole text as one value: nothing but white space may follow. -/
def parse (data : String) : Option Value :=
  match parseValue (2 * data.data.length + 2) 0 data.data with
  | none => none
  | some r => if (skipSpace r.2).isEmpty then some r.1 else none


/-- The upper-case form of an ASCII letter; other characters are left. -/
def upper (c : Char) : Char :=
  if 97 ≤ c.toNat ∧ c.toNat ≤ 122 then Char.ofNat (c.toNat - 32) else c

/-- The index of the first name that satisfies `p`. -/
def indexWhere (p : List Char → Bool) : List String → Option Nat
  | [] => none
  | n :: rest =>
    if p n.data then some 0
    else
      match indexWhere p rest with
      | none => none
      | some i => some (i + 1)

/-- The field an object key names, among fields whose names are ASCII
letters: the field of exactly that name, else the first field equal to the key
up to the case of letters. `some none` says the key names no field; `none`
says the model does not follow the library (a key with a character outside
ASCII). -/
def fieldOf (names : List String) (key : List Char) : Option (Option Nat) :=
  match indexWhere (fun n => n == key) names with
  | some i => some (some i)
  | none =>
    if key.all (fun c => c.toNat < 128) then
      some (indexWhere (fun n => n.map upper == key.map upper) names)
    else none

/-- A JSON value stored into a `string`: a string is stored, `null` leaves
the string as it is, anything else is an error. -/
def decodeString (cur : String) : Value → Option String
  | .string s => some ⟨s⟩
  | .null => some cur
  | _ => none

/-- The elements of an array stored into a `[]string`, where all are
strings. -/
def decodeStringElems : List Value → Option (List String)
  | [] => some []
  | .string s :: rest =>
    match decodeStringElems rest with
    | none => none
    | some l => some (⟨s⟩ :: l)
  | _ :: _ => none

/-- A JSON value stored into a `[]string`: `null` makes the slice nil, an
array replaces it. -/
def decodeStrings : Value → Option (Slice String)
  | .null => some none
  | .array elems =>
    match decodeStringElems elems with
    | none => none
    | some l => some (some l)
  | _ => none

/-- The value of a text of decimal digits, one digit at least. -/
def digitsValue : Nat → List Char → Option Nat
  | _, [] => none
  | acc, [c] =>
    if 48 ≤ c.toNat ∧ c.toNat ≤ 57 then some (acc * 10 + (c.toNat - 48)) else none
  | acc, c :: d :: rest =>
    if 48 ≤ c.toNat ∧ c.toNat ≤ 57 then digitsValue (acc * 10 + (c.toNat - 48)) (d :: rest)
    else none

/-- A JSON value stored into an `int` of 64 bits: a number written as an
integer in range is stored, `null` leaves the value as it is, anything else is
an error. -/
def decodeInt (cur : Int) : Value → Option Int
  | .null => some cur
  | .number text =>
    match text with
    | '-' :: ds =>
      match digitsValue 0 ds with
      | none => none
      | some n => if n ≤ 2 ^ 63 then some (-(n : Int)) else none
    | ds =>
      match digitsValue 0 ds with
      | none => none
      | some n => if n < 2 ^ 63 then some (n : Int) else none
  | _ => none

/-- The names of the fields of `Role`, in order. -/
def roleFields : List String := ["id", "displayName", "privileges"]

/-- One member of an object stored into a `Role`. -/
def decodeRoleMember (r : jamfpro.Role) (key : List Char) (v : Value) : Option jamfpro.Role :=
  match fieldOf roleFields key with
  | none => none
  | some none => some r
  | some (some 0) =>
    match decodeString r.ID v with
    | none => none
    | some s => some { r with ID := s }
  | some (some 1) =>
    match decodeString r.DisplayName v with
    | none => none
    | some s => some { r with DisplayName := s }
  | some (some _) =>
    match decodeStrings v with
    | none => none
    | some p => some { r with Privileges := p }

/-- The members of an object stored into a `Role`, in the order they are
written. -/
def decodeRoleMembers (r : jamfpro.Role) : List (List Char × Value) → Option jamfpro.Role
  | [] => some r
  | m :: rest =>
    match decodeRoleMember r m.1 m.2 with
    | none => none
    | some r' => decodeRoleMembers r' rest

/-- A JSON value stored into a `Role`: an object is stored member by member,
`null` leaves the role as it is, anything else is an error. -/
def decodeRole (cur : jamfpro.Role) : Value → Option jamfpro.Role
  | .null => some cur
  | .object members => decodeRoleMembers cur members
  | _ => none

/-- The elements of an array stored into a `[]Role` that was nil: every
element starts from the zero `Role`. -/
def decodeRoleElems : List Value → Option (List jamfpro.Role)
  | [] => some []
  | .object members :: rest =>
    match decodeRoleMembers jamfpro.Role.zero members, decodeRoleElems rest with
    | some r, some l => some (r :: l)
    | _, _ => none
  | _ :: _ => none

/-- A JSON value stored into a `[]Role`: `null` makes the slice nil, an empty
array makes it empty, an array of objects fills a slice that was nil. -/
def decodeRoles (cur : Slice jamfpro.Role) : Value → Option (Slice jamfpro.Role)
  | .null => some none
  | .array [] => some (some [])
  | .array (e :: es) =>
    match cur with
    | some _ => none
    | none =>
      match decodeRoleElems (e :: es) with
      | none => none
      | some l => some (some l)
  | _ => none

/-- The names of the fields of `ResponseApiRoles`, in order. -/
def responseApiRolesFields : List String := ["totalCount", "results"]

/-- One member of an object stored into a `ResponseApiRoles`. -/
def decodeResponseApiRolesMember (r : jamfpro.ResponseApiRoles) (key : List Char)
    (v : Value) : Option jamfpro.ResponseApiRoles :=
  match fieldOf responseApiRolesFields key with
  | none => none
  | some none => some r
  | some (some 0) =>
    match decodeInt r.TotalCount v with
    | none => none
    | some n => some { r with TotalCount := n }
  | some (some _) =>
    match decodeRoles r.Results v with
    | none => none
    | some l => some { r with Results := l }

/-- The members of an object stored into a `ResponseApiRoles`. -/
def decodeResponseApiRolesMembers (r : jamfpro.ResponseApiRoles) :
    List (List Char × Value) → Option jamfpro.ResponseApiRoles
  | [] => some r
  | m :: rest =>
    match decodeResponseApiRolesMember r m.1 m.2 with
    | none => none
    | some r' => decodeResponseApiRolesMembers r' rest

/-- `json.Unmarshal(data, &out)` for a `Role`, where it succeeds: the value
left in `out`. -/
def UnmarshalRole (data : String) (out : jamfpro.Role) : Option jamfpro.Role :=
  match parse data with
  | none => none
  | some v => decodeRole out v

/-- `json.Unmarshal(data, &out)` for a `ResponseApiRoles`, where it succeeds:
the value left in `out`. -/
def UnmarshalResponseApiRoles (data : String) (out : jamfpro.ResponseApiRoles) :
    Option jamfpro.ResponseApiRoles :=
  match parse data with
  | none => none
  | some (.object members) => decodeResponseApiRolesMembers out members
  | some .null => some out
  | some _ => none

end json

namespace jamfpro

/-- The URI of the departments. -/
def uriDepartments : String := "/JSSResource/departments"

/-- `Department`. The XML names are "id", "name" and "href", the last with
`omitempty`. `Id` is a Go `int`, taken to have 64 bits. -/
structure Department where
  Id : Int
  Name : String
  Href : String
  deriving DecidableEq, Repr

/-- The zero value of `Department`. -/
def Department.zero : Department := { Id := 0, Name := "", Href := "" }

/-- Whether an integer is a value of a Go `int` of 64 bits. -/
def isInt64 (n : Int) : Prop := -(2 : Int) ^ 63 ≤ n ∧ n < (2 : Int) ^ 63

instance (n : Int) : Decidable (isInt64 n) :=
  inferInstanceAs (Decidable (-(2 : Int) ^ 63 ≤ n ∧ n < (2 : Int) ^ 63))

end jamfpro

/-! ## Go `encoding/xml`, on `Department`

`xml.Marshal` of a `Department` is modelled in full. `xml.Unmarshal` is
modelled where it succeeds, on documents of the kind `xml.Marshal` writes and
the Classic API sends for a department: one root element, right at the start
of the text and with nothing after it, that holds character data and the
elements `id`, `name` and `href`, written without attributes. The functions
yield `some v` only when the library returns no error and leaves `v` in the
output, and `none` both where the library fails and where the model does not
follow it. -/

namespace xml

/-- `isInCharacterRange`: the characters XML allows. -/
def isInCharacterRange (c : Char) : Bool :=
  c.toNat == 0x09 || c.toNat == 0x0A || c.toNat == 0x0D ||
  (0x20 ≤ c.toNat && c.toNat ≤ 0xD7FF) ||
  (0xE000 ≤ c.toNat && c.toNat ≤ 0xFFFD) ||
  (0x10000 ≤ c.toNat && c.toNat ≤ 0x10FFFF)

/-- One character as `EscapeText` writes it. -/
def escapeChar (c : Char) : List Char :=
  if c = '"' then "&#34;".data
  else if c = '\'' then "&#39;".data
  else if c = '&' then "&amp;".data
  else if c = '<' then "&lt;".data
  else if c = '>' then "&gt;".data
  else if c = '\t' then "&#x9;".data
  else if c = '\n' then "&#xA;".data
  else if c = '\r' then "&#xD;".data
  else if isInCharacterRange c then [c]
  else [Char.ofNat 0xFFFD]

/-- `EscapeText`. -/
def escapeText : List Char → List Char
  | [] => []
  | c :: cs => escapeChar c ++ escapeText cs

/-- `strconv.FormatInt(n, 10)`. -/
def FormatInt (n : Int) : String := toString n

/-- `xml.Marshal` of a `Department`; it never fails. An empty `Href` is left
out. -/
def MarshalDepartment (d : jamfpro.Department) : String :=
  ⟨"<Department><id>".data ++ (FormatInt d.Id).data ++ "</id><name>".data ++
    escapeText d.Name.data ++ "</name>".data ++
    (if d.Href.data.length = 0 then []
      else "<href>".data ++ escapeText d.Href.data ++ "</href>".data) ++
    "</Department>".data⟩

/-- The value of a hexadecimal digit. -/
def hexVal (c : Char) : Option Nat :=
  if 48 ≤ c.toNat ∧ c.toNat ≤ 57 then some (c.toNat - 48)
  else if 97 ≤ c.toNat ∧ c.toNat ≤ 102 then some (c.toNat - 87)
  else if 65 ≤ c.toNat ∧ c.toNat ≤ 70 then some (c.toNat - 55)
  else none

/-- The value of a text of digits in the given base, one digit at least. -/
def digitsValue (base : Nat) (l : List Char) : Option Nat :=
  if l.isEmpty then none
  else
    l.foldl (fun acc c =>
      match acc, hexVal c with
      | some a, some d => if d < base then some (a * base + d) else none
      | _, _ => none) (some 0)

/-- The character a reference stands for, from the text between `&` and `;`:
one of the five named entities, or a character of XML by its number. -/
def resolveEntity (name : List Char) : Option Char :=
  if name = "lt".data then some '<'
  else if name = "gt".data then some '>'
  else if name = "amp".data then some '&'
  else if name = "apos".data then some '\''
  else if name = "quot".data then some '"'
  else
    match name with
    | '#' :: 'x' :: digits =>
      match digitsValue 16 digits with
      | some n =>
        if n ≤ 0x10FFFF ∧ isInCharacterRange (Char.ofNat n) then some (Char.ofNat n) else none
      | none => none
    | '#' :: digits =>
      match digitsValue 10 digits with
      | some n =>
        if n ≤ 0x10FFFF ∧ isInCharacterRange (Char.ofNat n) then some (Char.ofNat n) else none
      | none => none
    | _ => none

/-- Put a character in front of the text read. -/
def consChar (c : Char) : Option (List Char × List Char) → Option (List Char × List Char)
  | none => none
  | some r => some (c :: r.1, r.2)

/-- Read character data up to the next `<`: the text it stands for and the
input from that `<` on. `ent` holds the reference being read, if one is. A
character XML does not allow is an error; a raw `>` or carriage return is
outside the model. -/
def readText : Option (List Char) → List Char → Option (List Char × List Char)
  | none, [] => some ([], [])
  | some _, [] => none
  | none, c :: cs =>
    if c = '<' then some ([], c :: cs)
    else if c = '&' then readText (some []) cs
    else if c = '>' ∨ c = '\r' then none
    else if isInCharacterRange c then consChar c (readText none cs)
    else none
  | some ent, c :: cs =>
    if c = ';' then
      match resolveEntity ent.reverse with
      | none => none
      | some r => consChar r (readText none cs)
    else if c = '#' ∨ (hexVal c).isSome ∨ (97 ≤ c.toNat ∧ c.toNat ≤ 122) then
      readText (some (c :: ent)) cs
    else none

/-- Whether a character may stand in an element name of the model: an ASCII
letter, a digit, `_`, `-` or `.`. -/
def isNameChar (c : Char) : Bool :=
  (97 ≤ c.toNat && c.toNat ≤ 122) || (65 ≤ c.toNat && c.toNat ≤ 90) ||
  (48 ≤ c.toNat && c.toNat ≤ 57) || c == '_' || c == '-' || c == '.'

/-- Whether a character may start an element name of the model. -/
def isNameStart (c : Char) : Bool :=
  (97 ≤ c.toNat && c.toNat ≤ 122) || (65 ≤ c.toNat && c.toNat ≤ 90) || c == '_'

/-- Read a name up to `>`: the name and the input after the `>`. -/
def readName : List Char → Option (List Char × List Char)
  | [] => none
  | c :: cs =>
    if c = '>' then some ([], cs)
    else if isNameChar c then consChar c (readName cs)
    else none

/-- Read a start tag `<name>`: the name and the input after the tag. -/
def readStartTag : List Char → Option (List Char × List Char)
  | '<' :: c :: cs => if isNameStart c then readName (c :: cs) else none
  | _ => none

/-- Read the end tag `</name>` of the element `name`: the input after it. -/
def readEndTag (name : List Char) : List Char → Option (List Char)
  | '<' :: '/' :: cs =>
    if hasPrefixChars cs (name ++ ['>']) then some (cs.drop (name.length + 1)) else none
  | _ => none

/-- Read an element that holds character data only, from behind its start
tag: the text and the input after its end tag. -/
def readLeaf (name : List Char) (input : List Char) : Option (List Char × List Char) :=
  match readText none input with
  | none => none
  | some t =>
    match readEndTag name t.2 with
    | none => none
    | some rest => some (t.1, rest)

/-- `strconv.ParseInt(s, 10, 64)` on a text of digits with or without a minus
sign in front; an empty text stands for 0, as `copyValue` has it. -/
def parseIntText (text : List Char) : Option Int :=
  match text with
  | [] => some 0
  | '-' :: ds =>
    match digitsValue 10 ds with
    | some n => if n ≤ 2 ^ 63 then some (-(n : Int)) else none
    | none => none
  | ds =>
    match digitsValue 10 ds with
    | some n => if n < 2 ^ 63 then some (n : Int) else none
    | none => none

/-- A child element of the root stored into a `Department`. An element other
than `id`, `name` and `href` is outside the model. -/
def storeChild (d : jamfpro.Department) (name text : List Char) : Option jamfpro.Department :=
  if name = "id".data then
    match parseIntText text with
    | none => none
    | some n => some { d with Id := n }
  else if name = "name".data then some { d with Name := ⟨text⟩ }
  else if name = "href".data then some { d with Href := ⟨text⟩ }
  else none

/-- Read what the root element `root` holds, from behind its start tag:
character data, which a `Department` has no place for, and child elements,
up to the end tag of the root. Gives the value and the input left. -/
def readChildren (root : List Char) : Nat → jamfpro.Department → List Char →
    Option (jamfpro.Department × List Char)
  | 0, _, _ => none
  | fuel + 1, d, input =>
    match readText none input with
    | none => none
    | some t =>
      match readEndTag root t.2 with
      | some rest => some (d, rest)
      | none =>
        match readStartTag t.2 with
        | none => none
        | some tag =>
          match readLeaf tag.1 tag.2 with
          | none => none
          | some leaf =>
            match storeChild d tag.1 leaf.1 with
            | none => none
            | some d' => readChildren root fuel d' leaf.2

/-- `xml.Unmarshal(data, &out)` for a `Department`, where it succeeds: the
value left in `out`. -/
def UnmarshalDepartment (data : String) (out : jamfpro.Department) :
    Option jamfpro.Department :=
  match readStartTag data.data with
  | none => none
  | some tag =>
    match readChildren tag.1 (data.data.length + 1) out tag.2 with
    | none => none
    | some r => if r.2.isEmpty then some r.1 else none

end xml

/-! ## A stand-in library for worked examples

The theorems below hold for every `Env`. To run the handlers on concrete
responses an `Env` is needed; this one decodes into a `String`. It is not Go's
`encoding/xml` or `encoding/json`: it is used only on inputs on which it
accepts or rejects as they do. -/

/-- The text after the first occurrence of `tag`, `none` when there is none. -/
def afterTag (tag : List Char) : List Char → Option (List Char)
  | [] => if tag.isEmpty then some [] else none
  | c :: cs =>
    if hasPrefixChars (c :: cs) tag then some ((c :: cs).drop tag.length)
    else afterTag tag cs

/-- The text before the first occurrence of `tag` (all of it when there is
none). -/
def beforeTag (tag : List Char) : List Char → List Char
  | [] => []
  | c :: cs => if hasPrefixChars (c :: cs) tag then [] else c :: beforeTag tag cs

/-- An error-page reader: the text of the first paragraph of the page, and a
fixed text when the page has no paragraph. -/
def sampleExtract (html : String) : String :=
  match afterTag "<p>".data html.data with
  | some rest => ⟨beforeTag "</p>".data rest⟩
  | none => "Unable to parse HTML content"

/-- The stand-in library. Its XML decoder accepts a text that starts with
`<department>`, its JSON decoder one that starts with a brace; both store the
text in `out` on success and leave `out` alone on failure. On the empty input
both fail with the text Go gives ("EOF", "unexpected end of JSON input"), and
the JSON decoder names the first character as Go does for a character that
cannot begin a value. On any other text the XML decoder gives a verdict and a
text of its own: Go's decoder takes every well-formed document whose root
element the target does not name. -/
def sampleEnv : Env String where
  xmlMarshal := fun v => .ok v
  xmlUnmarshal := fun data out =>
    if hasPrefixChars data.data "<department>".data then (data, none)
    else if data = "" then (out, some "EOF")
    else (out, some "expected element type <department>")
  jsonMarshal := fun v => .ok v
  jsonUnmarshal := fun data out =>
    match data.data with
    | [] => (out, some "unexpected end of JSON input")
    | c :: _ =>
      if c = '\x7b' then (data, none)
      else (out, some ("invalid character '" ++ String.singleton c ++
        "' looking for beginning of value"))
  extractErrorMessageFromHTML := sampleExtract

/-- A response to a request of the given method. -/
def sampleResponse (method : String) (statusCode : Int) (header : Header)
    (body : String) : Response where
  Request := { Method := method }
  Status := ""
  StatusCode := statusCode
  Header := header
  Body := .ok body

/-- A response whose body cannot be read to its end: `io.ReadAll` returns the
error `err`. -/
def sampleUnreadResponse (method : String) (statusCode : Int) (header : Header)
    (err : String) : Response where
  Request := { Method := method }
  Status := ""
  StatusCode := statusCode
  Header := header
  Body := .error err

/-- A Classic handler as `GetAPIHandler` makes it. -/
def sampleClassic : ClassicApiHandler Nat := { logger := { level := 0 }, debugMode := false }

/-- A JamfPro handler as `GetAPIHandler` makes it. -/
def sampleJamfPro : JamfProApiHandler Nat := { logger := { level := 0 }, debugMode := false }

/-- An Unknown handler as `GetAPIHandler` makes it. -/
def sampleUnknown : UnknownApiHandler Nat := { logger := { level := 0 }, debugMode := false }

/-! ## The library and its models

The handlers are stated for every library (`Env`). Where a claim depends on
what `encoding/json` or `encoding/xml` does, the library is asked to behave as
the models above say: to write what the model of `Marshal` writes, and to
decode to `v` without error wherever the model of `Unmarshal` yields `v`. -/

/-- The JSON routines of the library behave on `Role` as the model says. -/
def JsonRoleLibrary (short : Bool) (env : Env jamfpro.Role) : Prop :=
  (∀ r, env.jsonMarshal r = .ok (json.MarshalRole short r)) ∧
  (∀ data out v, json.UnmarshalRole data out = some v →
    env.jsonUnmarshal data out = (v, none))

/-- The JSON decoder of the library behaves on `ResponseApiRoles` as the model
says. -/
def JsonResponseApiRolesLibrary (env : Env jamfpro.ResponseApiRoles) : Prop :=
  ∀ data out v, json.UnmarshalResponseApiRoles data out = some v →
    env.jsonUnmarshal data out = (v, none)

/-- The XML routines of the library behave on `Department` as the model
says. -/
def XmlDepartmentLibrary (env : Env jamfpro.Department) : Prop :=
  (∀ d, env.xmlMarshal d = .ok (xml.MarshalDepartment d)) ∧
  (∀ data out v, xml.UnmarshalDepartment data out = some v →
    env.xmlUnmarshal data out = (v, none))

/-- A library for worked examples made from a model of the JSON routines.
Where the model of the decoder yields nothing, this one reports an error and
leaves `out`; its XML routines report an error, as the examples do not send
the shape through the Classic handler. -/
def jsonModelEnv {α : Type} (marshal : α → Except String String)
    (unmarshal : String → α → Option α) : Env α where
  xmlMarshal := fun _ => .error "xml: no model for this shape"
  xmlUnmarshal := fun _ out => (out, some "xml: no model for this shape")
  jsonMarshal := marshal
  jsonUnmarshal := fun data out =>
    match unmarshal data out with
    | some v => (v, none)
    | none => (out, some "json: not decoded by the model")
  extractErrorMessageFromHTML := sampleExtract

/-- A library for worked examples made from a model of the XML routines, in
the same way. -/
def xmlModelEnv {α : Type} (marshal : α → String) (unmarshal : String → α → Option α) :
    Env α where
  xmlMarshal := fun v => .ok (marshal v)
  xmlUnmarshal := fun data out =>
    match unmarshal data out with
    | some v => (v, none)
    | none => (out, some "xml: not decoded by the model")
  jsonMarshal := fun _ => .error "json: no model for this shape"
  jsonUnmarshal := fun _ out => (out, some "json: no model for this shape")
  extractErrorMessageFromHTML := sampleExtract

/-- The example library for roles (backspace and form feed written long). -/
def roleEnv : Env jamfpro.Role :=
  jsonModelEnv (fun r => .ok (json.MarshalRole false r)) json.UnmarshalRole

/-- The example library for role listings; there is no model of the encoder
for them, so encoding reports an error. -/
def responseApiRolesEnv : Env jamfpro.ResponseApiRoles :=
  jsonModelEnv (fun _ => .error "json: no model of Marshal for this shape")
    json.UnmarshalResponseApiRoles

/-- The example library for departments. -/
def departmentEnv : Env jamfpro.Department :=
  xmlModelEnv xml.MarshalDepartment xml.UnmarshalDepartment

/-! ## Credentials of the client

The client and its credentials are declared outside the files at hand; the
test `TestOAuthCredentialsSetting` shows how they are used. -/

/-- Modelled from the spec: `OAuthCredentials` is missing; the spec's
"ClientCredentials{id, secret}", with the field names the test uses. -/
structure OAuthCredentials where
  ClientID : String
  ClientSecret : String
  deriving DecidableEq, Repr

/-- Modelled from the spec: the credential type is missing; the spec's
"tagged union {ClientCredentials{id, secret}, PasswordCredentials{username,
password}}", of which exactly one variant is active per client. -/
inductive Credential where
  | ClientCredentials (c : OAuthCredentials)
  | PasswordCredentials (username password : String)
  deriving DecidableEq, Repr

/-- Modelled from the spec: the token type is missing; the spec's "value
string, issued-at, expires-at", times counted in seconds. -/
structure Token where
  value : String
  issuedAt : Int
  expiresAt : Int
  deriving DecidableEq, Repr

/-- Modelled from the spec: the credential state of the HTTP client is
missing; it holds the credential in use and the state of the token manager,
which owns the current token, if there is one. -/
structure AuthClient where
  credential : Credential
  token : Option Token
  deriving DecidableEq, Repr

/-- Modelled from the spec: `GetOAuthCredentials` is missing (the test assumes
"a method or field to get the current OAuth credentials"); it gives the client
credentials in use, and the zero value when the client uses a password. -/
def AuthClient.GetOAuthCredentials (c : AuthClient) : OAuthCredentials :=
  match c.credential with
  | .ClientCredentials creds => creds
  | .PasswordCredentials _ _ => { ClientID := "", ClientSecret := "" }

namespace jamfpro

/-- Modelled from the spec: `Config` is missing; the fields are those the
test sets, durations counted in nanoseconds, the logger left out. -/
structure Config where
  InstanceName : String
  DebugMode : Bool
  MaxConcurrentRequests : Int
  TokenLifespan : Int
  BufferPeriod : Int
  ClientID : String
  ClientSecret : String
  deriving DecidableEq, Repr

/-- Modelled from the spec: the API client is missing; it wraps the HTTP
client, reached as `client.HTTP` in the test. -/
structure Client where
  HTTP : AuthClient
  deriving DecidableEq, Repr

/-- Modelled from the spec: `NewClient` is missing; the identity input is
"consumed once at client construction", and no token is held yet. -/
def NewClient (config : Config) : Client :=
  { HTTP :=
      { credential := .ClientCredentials
          { ClientID := config.ClientID, ClientSecret := config.ClientSecret },
        token := none } }

/-- Modelled from the spec: `SetClientOAuthCredentials` is missing; one of the
"explicit credential-update calls that reset TokenManager state". -/
def Client.SetClientOAuthCredentials (c : Client) (creds : OAuthCredentials) : Client :=
  { c with HTTP := { credential := .ClientCredentials creds, token := none } }

end jamfpro

/-! ## The resource operations of the client

The operations of package `jamfpro` go through `c.HTTP.DoRequest`, which is
declared outside the sources at hand. What a call of it yields is taken as
given, and the calls an operation makes are returned with its result. -/

namespace fmt

/-- `fmt.Sprintf("%s/id/%d", uri, id)`. -/
def idEndpoint (uri : String) (id : Int) : String := uri ++ "/id/" ++ verbD id

/-- `fmt.Sprintf("%s/name/%s", uri, name)`: both texts go in as they are. -/
def nameEndpoint (uri name : String) : String := uri ++ "/name/" ++ name

/-- `fmt.Sprintf("%s/id/0", uri)`. -/
def createEndpoint (uri : String) : String := uri ++ "/id/0"

end fmt

namespace jamfpro

/-- The URI of the computer groups. -/
def uriComputerGroups : String := "/JSSResource/computergroups"

/-- The URI of the user extension attributes. -/
def uriUserExtensionAttributes : String := "/JSSResource/userextensionattributes"

/-- The URI of the SSO failover settings. -/
def uriSSOFailover : String := "/api/v1/sso/failover"

/-- The endpoint of `UpdateFailoverUrl`: `uriSSOFailover + "/generate"`. -/
def UpdateFailoverUrl.endpoint : String := uriSSOFailover ++ "/generate"

/-- The endpoint of `GetJamfApiRolesByID`, `UpdateJamfApiRoleByID` and
`DeleteJamfApiRoleByID`: `fmt.Sprintf(uriApiRoles+"/%s", id)`. The format is
the constant followed by "/%s", the one operand is `id`. -/
def roleEndpoint (id : String) : String := uriApiRoles ++ "/" ++ id

/-- `ResponseDepartments`: the answer to a listing of departments. -/
structure ResponseDepartments where
  TotalCount : Int
  Results : Slice Department
  deriving DecidableEq, Repr

/-- A call of `c.HTTP.DoRequest`, by its method and its endpoint. -/
structure DoRequestCall where
  method : String
  endpoint : String
  deriving DecidableEq, Repr

/-- What `c.HTTP.DoRequest(method, endpoint, body, out)` yields, for each kind
of `out` the operations below pass: the value `out` holds afterwards, or the
error.
* `roles`: `out` is a `*ResponseApiRoles`, the body is nil;
* `role`: `out` is a `*Role`, the body is nil or a `*Role`;
* `noOut`: `out` and the body are nil;
* `departments`: `out` is a `*ResponseDepartments`, the body is nil;
* `errorText`: `err.Error()`, the text `%v` prints for an error. -/
structure Transport where
  roles : String → String → Except GoError ResponseApiRoles
  role : String → String → Option Role → Except GoError Role
  noOut : String → String → Option GoError
  departments : String → String → Except GoError ResponseDepartments
  errorText : GoError → String

/-- What an operation returns and does: the value behind the pointer (`none`
for nil), the error, the calls of `DoRequest` in order, and the lines written
by `fmt.Printf`. -/
structure Outcome (α : Type) where
  value : Option α
  err : Option GoError
  calls : List DoRequestCall
  stdout : List String
  deriving DecidableEq, Repr

/-- `GetJamfAPIRoles`: all API roles. -/
def GetJamfAPIRoles (t : Transport) : Outcome ResponseApiRoles :=
  match t.roles "GET" uriApiRoles with
  | .error err =>
    { value := none,
      err := some (.errorf ("failed to fetch Jamf API roles: " ++ t.errorText err)),
      calls := [⟨"GET", uriApiRoles⟩], stdout := [] }
  | .ok rolesList =>
    { value := some rolesList, err := none, calls := [⟨"GET", uriApiRoles⟩], stdout := [] }

/-- `GetJamfApiRolesByID`: one API role. -/
def GetJamfApiRolesByID (t : Transport) (id : String) : Outcome Role :=
  match t.role "GET" (roleEndpoint id) none with
  | .error err =>
    { value := none,
      err := some (.errorf ("failed to fetch Jamf Api ID " ++ id ++ ": " ++ t.errorText err)),
      calls := [⟨"GET", roleEndpoint id⟩], stdout := [] }
  | .ok profile =>
    { value := some profile, err := none, calls := [⟨"GET", roleEndpoint id⟩], stdout := [] }

/-- `UpdateJamfApiRoleByID`: writes one API role. -/
def UpdateJamfApiRoleByID (t : Transport) (id : String) (roleUpdate : Role) : Outcome Role :=
  match t.role "PUT" (roleEndpoint id) (some roleUpdate) with
  | .error err =>
    { value := none,
      err := some (.errorf
        ("failed to update Jamf Api Role with ID " ++ id ++ ": " ++ t.errorText err)),
      calls := [⟨"PUT", roleEndpoint id⟩], stdout := [] }
  | .ok updatedRole =>
    { value := some updatedRole, err := none, calls := [⟨"PUT", roleEndpoint id⟩],
      stdout := [] }

/-- `DeleteJamfApiRoleByID`: deletes one API role. There is no value. -/
def DeleteJamfApiRoleByID (t : Transport) (id : String) : Outcome Unit :=
  match t.noOut "DELETE" (roleEndpoint id) with
  | some err =>
    { value := none,
      err := some (.errorf
        ("failed to delete Jamf Api Role with ID " ++ id ++ ": " ++ t.errorText err)),
      calls := [⟨"DELETE", roleEndpoint id⟩], stdout := [] }
  | none => { value := none, err := none, calls := [⟨"DELETE", roleEndpoint id⟩], stdout := [] }

/-- The loop of `GetJamfApiRolesNameById` over the roles still to visit, and
the return after it. -/
def GetJamfApiRolesNameById.loop (t : Transport) (name : String) : List Role → Outcome Role
  | [] =>
    { value := none,
      err := some (.errorf ("no Jamf API role found with the name " ++ name)),
      calls := [], stdout := [] }
  | role :: rest =>
    let line := "Comparing desired name '" ++ name ++ "' with role name '" ++
      role.DisplayName ++ "'\n"
    let r := if role.DisplayName = name then GetJamfApiRolesByID t role.ID
      else GetJamfApiRolesNameById.loop t name rest
    { r with stdout := line :: r.stdout }

/-- `GetJamfApiRolesNameById`: the role of a display name, through its ID. -/
def GetJamfApiRolesNameById (t : Transport) (name : String) : Outcome Role :=
  let l := GetJamfAPIRoles t
  match l.err, l.value with
  | some err, _ =>
    { value := none,
      err := some (.errorf ("failed to fetch all Jamf API roles: " ++ t.errorText err)),
      calls := l.calls, stdout := [] }
  | none, rolesList =>
    let r := GetJamfApiRolesNameById.loop t name
      (match rolesList with | some v => v.Results.elems | none => [])
    { r with calls := l.calls ++ r.calls }

/-- The loop of `UpdateJamfApiRoleByName`, and the return after it. -/
def UpdateJamfApiRoleByName.loop (t : Transport) (name : String) (updatedRole : Role) :
    List Role → Outcome Role
  | [] =>
    { value := none,
      err := some (.errorf ("no Jamf API role found with the name " ++ name)),
      calls := [], stdout := [] }
  | role :: rest =>
    if role.DisplayName = name then UpdateJamfApiRoleByID t role.ID updatedRole
    else UpdateJamfApiRoleByName.loop t name updatedRole rest

/-- `UpdateJamfApiRoleByName`: writes the role of a display name. -/
def UpdateJamfApiRoleByName (t : Transport) (name : String) (updatedRole : Role) :
    Outcome Role :=
  let l := GetJamfAPIRoles t
  match l.err, l.value with
  | some err, _ =>
    { value := none,
      err := some (.errorf ("failed to fetch all Jamf API roles: " ++ t.errorText err)),
      calls := l.calls, stdout := [] }
  | none, rolesList =>
    let r := UpdateJamfApiRoleByName.loop t name updatedRole
      (match rolesList with | some v => v.Results.elems | none => [])
    { r with calls := l.calls ++ r.calls }

/-- The loop of `DeleteJamfApiRoleByName`, and the return after it. -/
def DeleteJamfApiRoleByName.loop (t : Transport) (name : String) : List Role → Outcome Unit
  | [] =>
    { value := none,
      err := some (.errorf ("no Jamf API role found with the name " ++ name)),
      calls := [], stdout := [] }
  | role :: rest =>
    if role.DisplayName = name then DeleteJamfApiRoleByID t role.ID
    else DeleteJamfApiRoleByName.loop t name rest

/-- `DeleteJamfApiRoleByName`: deletes the role of a display name. -/
def DeleteJamfApiRoleByName (t : Transport) (name : String) : Outcome Unit :=
  let l := GetJamfAPIRoles t
  match l.err, l.value with
  | some err, _ =>
    { value := none,
      err := some (.errorf ("failed to fetch all Jamf API roles: " ++ t.errorText err)),
      calls := l.calls, stdout := [] }
  | none, rolesList =>
    let r := DeleteJamfApiRoleByName.loop t name
      (match rolesList with | some v => v.Results.elems | none => [])
    { r with calls := l.calls ++ r.calls }

/-- `GetDepartments`: all departments. -/
def GetDepartments (t : Transport) : Outcome ResponseDepartments :=
  match t.departments "GET" uriDepartments with
  | .error err =>
    { value := none,
      err := some (.errorf ("failed to fetch departments: " ++ t.errorText err)),
      calls := [⟨"GET", uriDepartments⟩], stdout := [] }
  | .ok departmentsList =>
    { value := some departmentsList, err := none, calls := [⟨"GET", uriDepartments⟩],
      stdout := [] }

/-- The loop of `GetDepartmentIdByName` over the departments still to visit,
and the return after it: the pair `(int, error)`. -/
def GetDepartmentIdByName.loop (name : String) : List Department → Int × Option GoError
  | [] => (0, some (.errorf ("department with name " ++ name ++ " not found")))
  | dept :: rest =>
    if dept.Name = name then (dept.Id, none) else GetDepartmentIdByName.loop name rest

/-- `GetDepartmentIdByName`: the pair `(int, error)` it returns. -/
def GetDepartmentIdByName (t : Transport) (name : String) : Int × Option GoError :=
  let l := GetDepartments t
  match l.err, l.value with
  | some err, _ => (0, some err)
  | none, departmentsList =>
    GetDepartmentIdByName.loop name
      (match departmentsList with | some v => v.Results.elems | none => [])

end jamfpro

/-! ## Computer groups and the default site -/

namespace jamfpro

/-- `SharedResourceSite` is declared outside the sources at hand. The
operations on computer groups read and write its fields `ID` (an `int`) and
`Name` (a `string`); whatever else it holds is `rest`. -/
structure SharedResourceSite (S : Type) where
  ID : Int
  Name : String
  rest : S
  deriving DecidableEq, Repr

/-- `ComputerGroupSubsetComputer`: a computer of a group. -/
structure ComputerGroupSubsetComputer where
  ID : Int
  Name : String
  SerialNumber : String
  MacAddress : String
  AltMacAddress : String
  deriving DecidableEq, Repr

/-- `ResourceComputerGroup`: a computer group. `SharedContainerCriteria` is
declared outside the sources at hand and is the type `C`. -/
structure ResourceComputerGroup (S C : Type) where
  ID : Int
  Name : String
  IsSmart : Bool
  Site : SharedResourceSite S
  Criteria : C
  Computers : Slice ComputerGroupSubsetComputer
  deriving DecidableEq, Repr

/-- What an operation on a computer group returns and does: the value behind
the returned pointer, the error, the group the caller holds afterwards (the
operation writes through the pointer it was given), and the calls of
`DoRequest` with the group each one sent. -/
structure GroupOutcome (S C : Type) where
  value : Option (ResourceComputerGroup S C)
  err : Option GoError
  group : ResourceComputerGroup S C
  calls : List (DoRequestCall × ResourceComputerGroup S C)

/-- The statement each of the three operations below opens with:
`if group.Site.ID == 0 && group.Site.Name == "" { group.Site.ID = -1;
group.Site.Name = "none" }`, as the group held afterwards. -/
def defaultSite {S C : Type} (group : ResourceComputerGroup S C) : ResourceComputerGroup S C :=
  if group.Site.ID = 0 ∧ group.Site.Name = "" then
    { group with Site := { group.Site with ID := -1, Name := "none" } }
  else group

/-- `CreateComputerGroup`. `DoRequest method endpoint body` is what the call
of `c.HTTP.DoRequest` yields for `out`, or its error; `errorText` is
`err.Error()`. -/
def CreateComputerGroup {S C : Type}
    (DoRequest : String → String → ResourceComputerGroup S C →
      Except GoError (ResourceComputerGroup S C))
    (errorText : GoError → String) (group : ResourceComputerGroup S C) : GroupOutcome S C :=
  let endpoint := fmt.createEndpoint uriComputerGroups
  let group := defaultSite group
  match DoRequest "POST" endpoint group with
  | .error err =>
    { value := none,
      err := some (.errorf ("failed to create Computer Group: " ++ errorText err)),
      group := group, calls := [(⟨"POST", endpoint⟩, group)] }
  | .ok createdGroup =>
    { value := some createdGroup, err := none, group := group,
      calls := [(⟨"POST", endpoint⟩, group)] }

/-- `UpdateComputerGroupByID`. -/
def UpdateComputerGroupByID {S C : Type}
    (DoRequest : String → String → ResourceComputerGroup S C →
      Except GoError (ResourceComputerGroup S C))
    (errorText : GoError → String) (id : Int) (group : ResourceComputerGroup S C) :
    GroupOutcome S C :=
  let endpoint := fmt.idEndpoint uriComputerGroups id
  let group := defaultSite group
  match DoRequest "PUT" endpoint group with
  | .error err =>
    { value := none,
      err := some (.errorf ("failed to update Computer Group by ID: " ++ errorText err)),
      group := group, calls := [(⟨"PUT", endpoint⟩, group)] }
  | .ok updatedGroup =>
    { value := some updatedGroup, err := none, group := group,
      calls := [(⟨"PUT", endpoint⟩, group)] }

/-- `UpdateComputerGroupByName`. -/
def UpdateComputerGroupByName {S C : Type}
    (DoRequest : String → String → ResourceComputerGroup S C →
      Except GoError (ResourceComputerGroup S C))
    (errorText : GoError → String) (name : String) (group : ResourceComputerGroup S C) :
    GroupOutcome S C :=
  let endpoint := fmt.nameEndpoint uriComputerGroups name
  let group := defaultSite group
  match DoRequest "PUT" endpoint group with
  | .error err =>
    { value := none,
      err := some (.errorf ("failed to update Computer Group by name: " ++ errorText err)),
      group := group, calls := [(⟨"PUT", endpoint⟩, group)] }
  | .ok updatedGroup =>
    { value := some updatedGroup, err := none, group := group,
      calls := [(⟨"PUT", endpoint⟩, group)] }

end jamfpro

/-- A stand-in for `DoRequest` on worked examples: a listing of three roles,
two of which share a display name, and a listing of two departments; a role
read by its ID comes back with the endpoint as its ID. -/
def sampleTransport : jamfpro.Transport where
  roles := fun _ _ =>
    .ok { TotalCount := 3,
          Results := some [⟨"7", "Admin", none⟩, ⟨"8", "Ops", none⟩, ⟨"9", "Admin", none⟩] }
  role := fun _ endpoint body =>
    match body with
    | some r => .ok r
    | none => .ok { ID := endpoint, DisplayName := "", Privileges := none }
  noOut := fun _ _ => none
  departments := fun _ _ =>
    .ok { TotalCount := 2, Results := some [⟨1, "Sales", ""⟩, ⟨2, "IT", ""⟩] }
  errorText := fun err =>
    match err with
    | .errorf msg => msg
    | .apiError _ msg => msg
    | .lib msg => msg

/-! ## Multipart requests of the JamfPro handler

`MarshalMultipartFormData` writes through Go `mime/multipart` into a
`bytes.Buffer` and reads the files with `os.Open` and `io.Copy`. The boundary
the writer draws, the header lines it renders for a part, and the files behind
the paths are taken as given; the framing of the parts is written out. A Go map
is the list of its entries in the order `range` visits them. -/

namespace multipart

/-- What `mime/multipart` is given from outside the program text:
* `boundary`: the text `randomBoundary()` draws in `NewWriter`;
* `formFieldHeader fieldname`: the header lines of `CreateFormField`, each ended
  by "\r\n";
* `formFileHeader fieldname filename`: the header lines of `CreateFormFile`. -/
structure Lib where
  boundary : String
  formFieldHeader : String → String
  formFileHeader : String → String → String

/-- A `multipart.Writer` over a `bytes.Buffer`: the boundary, the bytes written
so far, and whether a part has been started (`lastpart != nil`). -/
structure Writer where
  boundary : String
  buf : String
  lastpart : Bool
  deriving DecidableEq, Repr

/-- `multipart.NewWriter` over an empty buffer. -/
def NewWriter (lib : Lib) : Writer :=
  { boundary := lib.boundary, buf := "", lastpart := false }

/-- `Writer.CreatePart`: the delimiter line, the header lines, an empty line.
Writing into a `bytes.Buffer` returns no error. -/
def Writer.CreatePart (w : Writer) (header : String) : Writer :=
  { w with
    buf := w.buf ++
      (if w.lastpart then "\r\n--" ++ w.boundary ++ "\r\n" else "--" ++ w.boundary ++ "\r\n") ++
      header ++ "\r\n",
    lastpart := true }

/-- `Write` on the part last created. -/
def Writer.Write (w : Writer) (bytes : String) : Writer :=
  { w with buf := w.buf ++ bytes }

/-- `Writer.WriteField`: `CreateFormField`, then the value. -/
def Writer.WriteField (lib : Lib) (w : Writer) (fieldname value : String) : Writer :=
  (w.CreatePart (lib.formFieldHeader fieldname)).Write value

/-- `Writer.CreateFormFile`. -/
def Writer.CreateFormFile (lib : Lib) (w : Writer) (fieldname filename : String) : Writer :=
  w.CreatePart (lib.formFileHeader fieldname filename)

/-- The characters for which `FormDataContentType` quotes the boundary. -/
def tspecials : List Char :=
  ['(', ')', '<', '>', '@', ',', ';', ':', '\\', '"', '/', '[', ']', '?', '=', ' ']

/-- `Writer.FormDataContentType`. -/
def Writer.FormDataContentType (w : Writer) : String :=
  let b := w.boundary
  let b := if b.data.any (fun c => tspecials.contains c) then "\"" ++ b ++ "\"" else b
  "multipart/form-data; boundary=" ++ b

/-- `Writer.Close`: the closing delimiter. -/
def Writer.Close (w : Writer) : Writer :=
  { w with buf := w.buf ++ "\r\n--" ++ w.boundary ++ "--\r\n", lastpart := false }

/-- A lower-case hexadecimal digit. -/
def isLowerHex (c : Char) : Bool :=
  ('0' ≤ c ∧ c ≤ '9') ∨ ('a' ≤ c ∧ c ≤ 'f')

/-- The shape of what `randomBoundary()` returns: thirty bytes printed with
"%x", sixty lower-case hexadecimal digits. -/
def isRandomBoundary (b : String) : Bool :=
  b.data.length == 60 && b.data.all isLowerHex

end multipart

/-- What is behind a path when `MarshalMultipartFormData` comes to it:
`os.Open` fails, or it succeeds and `io.Copy` from the file fails, or the file
is read to its end. -/
inductive File where
  | openFails (err : String)
  | readFails (err : String)
  | content (bytes : String)
  deriving DecidableEq, Repr

/-- The first loop of `MarshalMultipartFormData`: `WriteField` for each field.
The error branch is not there: a `bytes.Buffer` takes every write. -/
def MarshalMultipartFormData.fields (lib : multipart.Lib) :
    multipart.Writer → List (String × String) → multipart.Writer
  | w, [] => w
  | w, (field, value) :: rest =>
    MarshalMultipartFormData.fields lib (w.WriteField lib field value) rest

/-- The second loop of `MarshalMultipartFormData`, with the paths opened so
far: the writer after the last file, or the error returned from the loop. -/
def MarshalMultipartFormData.files (lib : multipart.Lib) (fs : String → File) :
    multipart.Writer → List String → List (String × String) →
      Except GoError multipart.Writer × List String
  | w, opened, [] => (.ok w, opened)
  | w, opened, (formField, filepath) :: rest =>
    match fs filepath with
    | .openFails err => (.error (.lib err), opened ++ [filepath])
    | .readFails err => (.error (.lib err), opened ++ [filepath])
    | .content bytes =>
      MarshalMultipartFormData.files lib fs
        ((w.CreateFormFile lib formField filepath).Write bytes) (opened ++ [filepath]) rest

/-- `MarshalMultipartFormData`: the fields and the files as one multipart
body. -/
def MarshalMultipartFormData (lib : multipart.Lib) (fs : String → File)
    (fields files : List (String × String)) : MultipartResult :=
  let writer := multipart.NewWriter lib
  let writer := MarshalMultipartFormData.fields lib writer fields
  match MarshalMultipartFormData.files lib fs writer [] files with
  | (.error err, opened) =>
    { body := none, contentType := "", err := some err, opened := opened, logs := [] }
  | (.ok writer, opened) =>
    let contentType := writer.FormDataContentType
    let writer := writer.Close
    { body := some writer.buf, contentType := contentType, err := none, opened := opened,
      logs := [] }

/-- `JamfProApiHandler.MarshalMultipartRequest`: a line in the log, then
`MarshalMultipartFormData`. -/
def JamfProApiHandler.MarshalMultipartRequest {L : Type} (_h : JamfProApiHandler L)
    (lib : multipart.Lib) (fs : String → File) (fields files : List (String × String)) :
    MultipartResult :=
  let r := MarshalMultipartFormData lib fs fields files
  { r with logs := ⟨.Debug, "Marshaling multipart request for JamfPro API", []⟩ :: r.logs }

/-- The body the words "one part per entry, each delimited by the boundary,
followed by the closing delimiter" describe, for parts given as header lines
and content: each part is the delimiter line "--B", its header lines, an empty
line and its content; parts are set apart by a line break; the closing
delimiter is "--B--" on a line of its own. -/
def multipartBody (boundary : String) (parts : List (String × String)) : String :=
  "\r\n".intercalate
      (parts.map (fun p => "--" ++ boundary ++ "\r\n" ++ p.1 ++ "\r\n" ++ p.2)) ++
    "\r\n--" ++ boundary ++ "--\r\n"

/-- The parts the words of the claim ask for: one per field with its value,
then one per file with the bytes of the file. -/
def multipartParts (lib : multipart.Lib) (fs : String → File)
    (fields files : List (String × String)) : List (String × String) :=
  fields.map (fun f => (lib.formFieldHeader f.1, f.2)) ++
    files.map (fun f => (lib.formFileHeader f.1 f.2,
      match fs f.2 with
      | .content bytes => bytes
      | _ => ""))

/-- A stand-in for the library on worked examples, with the header lines Go
renders when the names need no escaping. -/
def sampleLib : multipart.Lib :=
  { boundary := "0123456789abcdef0123456789abcdef0123456789abcdef0123456789ab",
    formFieldHeader := fun n => "Content-Disposition: form-data; name=\"" ++ n ++ "\"\r\n",
    formFileHeader := fun n f =>
      "Content-Disposition: form-data; name=\"" ++ n ++ "\"; filename=\"" ++ f ++
        "\"\r\nContent-Type: application/octet-stream\r\n" }

/-- A stand-in for the files on worked examples. -/
def sampleFiles : String → File
  | "/tmp/icon.png" => .content "PNG"
  | "/tmp" => .readFails "read /tmp: is a directory"
  | p => .openFails ("open " ++ p ++ ": no such file or directory")

/-! ## The concurrency gate of the dispatcher -/

/-- Modelled from the spec: the gate is not in the sources at hand. "Bounded
counting semaphore sized by MaxConcurrentRequests"; `inUse` is the "slot count
in use". -/
structure ConcurrencyGate where
  MaxConcurrentRequests : Nat
  inUse : Nat
  deriving DecidableEq, Repr

/-- Modelled from the spec: "acquire() -> permit (blocks the calling path until
a slot is free)"; `none` while no slot is free. -/
def ConcurrencyGate.acquire (g : ConcurrencyGate) : Option ConcurrencyGate :=
  if g.inUse < g.MaxConcurrentRequests then some { g with inUse := g.inUse + 1 } else none

/-- Modelled from the spec: "release(permit)". -/
def ConcurrencyGate.release (g : ConcurrencyGate) : ConcurrencyGate :=
  { g with inUse := g.inUse - 1 }

/-- Modelled from the spec: the steps of a dispatched request that holds a
permit, "call TokenManager.ensureValid", "encode body via handler", "execute
the HTTP exchange", "hand the response to the handler's decode routine". -/
inductive DispatchStage where
  | ensureValid | encode | exchange | decode
  deriving DecidableEq, Repr

/-- The stage after a stage that went well; `none` after the last. -/
def DispatchStage.next : DispatchStage → Option DispatchStage
  | .ensureValid => some .encode
  | .encode => some .exchange
  | .exchange => some .decode
  | .decode => none

/-- Modelled from the spec: where a request is. It waits for a permit, or
holds one at a stage, or has returned: with the result, or with the failure of
a stage. -/
inductive DispatchPhase where
  | waiting
  | holding (stage : DispatchStage)
  | returned (failedAt : Option DispatchStage)
  deriving DecidableEq, Repr

/-- Whether a request holds a permit. -/
def DispatchPhase.holds : DispatchPhase → Bool
  | .holding _ => true
  | _ => false

/-- Modelled from the spec: the dispatcher with its gate and the requests on
their call paths. -/
structure RequestDispatcher where
  gate : ConcurrencyGate
  requests : List DispatchPhase
  deriving DecidableEq, Repr

/-- Modelled from the spec: request `i` takes its next step, and `fails` tells
whether the stage it is at fails. A waiting request acquires a permit when a
slot is free and stays waiting otherwise; a request at a stage moves on, or
returns when the stage fails or was the last, and each return releases the
permit ("deferred release guaranteed on every return path"). -/
def RequestDispatcher.step (d : RequestDispatcher) (i : Nat) (fails : Bool) :
    RequestDispatcher :=
  match d.requests[i]? with
  | none => d
  | some .waiting =>
    match d.gate.acquire with
    | none => d
    | some g => { gate := g, requests := d.requests.set i (.holding .ensureValid) }
  | some (.holding stage) =>
    if fails then
      { gate := d.gate.release, requests := d.requests.set i (.returned (some stage)) }
    else
      match stage.next with
      | some stage' => { d with requests := d.requests.set i (.holding stage') }
      | none => { gate := d.gate.release, requests := d.requests.set i (.returned none) }
  | some (.returned _) => d

/-- Modelled from the spec: a client with limit `N` and `n` requests, none of
which has started. -/
def RequestDispatcher.start (N n : Nat) : RequestDispatcher :=
  { gate := { MaxConcurrentRequests := N, inUse := 0 },
    requests := List.replicate n .waiting }

/-- The state after a schedule: which request steps next, and whether its
stage fails. -/
def RequestDispatcher.run (d : RequestDispatcher) : List (Nat × Bool) → RequestDispatcher
  | [] => d
  | (i, fails) :: rest => (d.step i fails).run rest

/-! ## The token manager -/

/-- Modelled from the spec: the token manager is not in the sources at hand.
What a refresh call ends with: "the single resulting token or the single
resulting error". -/
inductive RefreshResult where
  | token (t : Token)
  | error (msg : String)
  deriving DecidableEq, Repr

/-- Modelled from the spec: where a caller of `ensureValid` is. It has not
called yet, or it waits for the refresh in flight, or it has returned with what
it received. -/
inductive CallerPhase where
  | idle
  | waiting
  | returned (r : RefreshResult)
  deriving DecidableEq, Repr

/-- Modelled from the spec: the token manager "holds token state behind a
mutual-exclusion lock": the current token, the buffer period, whether a refresh
is in flight, the number of refresh network calls made so far, and the callers
on their call paths. -/
structure TokenManager where
  token : Token
  bufferPeriod : Int
  inFlight : Bool
  refreshCalls : Nat
  callers : List CallerPhase
  deriving DecidableEq, Repr

/-- Modelled from the spec: "`ensureValid` checks whether
`now >= expires-at − bufferPeriod`". -/
def TokenManager.expiring (m : TokenManager) (now : Int) : Bool :=
  decide (now ≥ m.token.expiresAt - m.bufferPeriod)

/-- What happens under the lock: a caller enters `ensureValid` at the time
`now`, or the refresh in flight ends with a result. -/
inductive TokenEvent where
  | ensureValid (caller : Nat) (now : Int)
  | refreshDone (r : RefreshResult)
  deriving DecidableEq, Repr

/-- What a waiting caller receives when the refresh in flight ends. -/
def CallerPhase.receive (r : RefreshResult) : CallerPhase → CallerPhase
  | .waiting => .returned r
  | c => c

/-- Modelled from the spec: one event under the lock. A caller that finds the
token not expiring "returns the current token unchanged". One that finds it
expiring "performs a network refresh call" when none is in flight and waits for
the one in flight otherwise ("collapse concurrent refresh attempts into one
in-flight refresh"). When the refresh ends, a resulting token "atomically
replaces the token", with "all waiters receiving the single resulting token or
the single resulting error". -/
def TokenManager.step (m : TokenManager) : TokenEvent → TokenManager
  | .ensureValid i now =>
    match m.callers[i]? with
    | some .idle =>
      if m.expiring now then
        if m.inFlight then { m with callers := m.callers.set i .waiting }
        else
          { m with inFlight := true, refreshCalls := m.refreshCalls + 1,
                   callers := m.callers.set i .waiting }
      else { m with callers := m.callers.set i (.returned (.token m.token)) }
    | _ => m
  | .refreshDone r =>
    if m.inFlight then
      { m with
        token := (match r with
          | .token t => t
          | .error _ => m.token),
        inFlight := false,
        callers := m.callers.map (CallerPhase.receive r) }
    else m

/-- Modelled from the spec: a manager that holds `token`, with `n` callers none
of which has called, no refresh in flight and no refresh call made. -/
def TokenManager.start (token : Token) (bufferPeriod : Int) (n : Nat) : TokenManager :=
  { token := token, bufferPeriod := bufferPeriod, inFlight := false, refreshCalls := 0,
    callers := List.replicate n .idle }

/-- The state after a sequence of events. -/
def TokenManager.run (m : TokenManager) : List TokenEvent → TokenManager
  | [] => m
  | e :: rest => (m.step e).run rest

/-- The events of callers that enter `ensureValid` one after the other while a
refresh is awaited, followed by the end of that refresh. -/
def TokenManager.concurrentCalls (calls : List (Nat × Int)) (r : RefreshResult) :
    List TokenEvent :=
  calls.map (fun c => TokenEvent.ensureValid c.1 c.2) ++ [.refreshDone r]

/-! ## What "contains" means -/

/-- The text `sub` occurs in `s`: `s` is some text, then `sub`, then some
text. This is the meaning of "contains the substring", against which
`strings.Contains` is checked below. -/
def Occurs (sub s : String) : Prop :=
  ∃ pre post : String, s = pre ++ sub ++ post

/-! ## Lemmas on strings -/

theorem hasPrefixChars_iff (l p : List Char) : hasPrefixChars l p = true ↔ p <+: l := by
  induction p generalizing l with
  | nil => simp [hasPrefixChars]
  | cons a p ih =>
    cases l with
    | nil => simp [hasPrefixChars]
    | cons c cs =>
      simp only [hasPrefixChars, Bool.and_eq_true, beq_iff_eq, ih, List.cons_prefix_cons]
      constructor
      · rintro ⟨h1, h2⟩; exact ⟨h1.symm, h2⟩
      · rintro ⟨h1, h2⟩; exact ⟨h1.symm, h2⟩

theorem containsChars_iff (l sub : List Char) : containsChars l sub = true ↔ sub <:+: l := by
  induction l with
  | nil =>
    cases sub <;> simp [containsChars]
  | cons c cs ih =>
    simp only [containsChars, Bool.or_eq_true, hasPrefixChars_iff, ih, List.infix_cons_iff]

theorem occurs_iff_data (sub s : String) : Occurs sub s ↔ sub.data <:+: s.data := by
  constructor
  · rintro ⟨pre, post, rfl⟩
    exact ⟨pre.data, post.data, by simp [String.data_append]⟩
  · rintro ⟨pre, post, h⟩
    refine ⟨⟨pre⟩, ⟨post⟩, ?_⟩
    apply String.ext
    simp [String.data_append, h]

/-- The substring test of the model decides `Occurs`. -/
theorem strings_Contains_iff (s sub : String) : strings.Contains s sub = true ↔ Occurs sub s := by
  rw [occurs_iff_data]
  exact containsChars_iff s.data sub.data

theorem strings_Contains_eq_false_iff (s sub : String) :
    strings.Contains s sub = false ↔ ¬ Occurs sub s := by
  rw [← strings_Contains_iff]
  simp

/-! ## Lemmas on the format loop: it never runs out of fuel -/

theorem skipFlags_length (s : List Char) : (fmt.skipFlags s).length ≤ s.length := by
  induction s with
  | nil => simp [fmt.skipFlags]
  | cons c cs ih =>
    simp only [fmt.skipFlags]
    split
    · exact Nat.le_succ_of_le ih
    · exact le_refl _

theorem parsenumAux_length (s : List Char) (n : Nat) (b : Bool) :
    (fmt.parsenumAux n b s).2.2.length ≤ s.length := by
  induction s generalizing n b with
  | nil => simp [fmt.parsenumAux]
  | cons c cs ih =>
    simp only [fmt.parsenumAux]
    split
    · split
      · simp
      · exact Nat.le_succ_of_le (ih _ _)
    · exact le_refl _

theorem parseArgNumber_length (s : List Char) :
    (fmt.parseArgNumber s).1.length ≤ s.length := by
  unfold fmt.parseArgNumber
  split
  · simp
  · split
    · simp
    · rename_i rest h
      have h1 := (List.dropWhile_suffix (fun c => c != ']') (l := s.drop 1)).length_le
      rw [h] at h1
      simp only [List.length_cons, List.length_drop] at h1
      simp only
      omega

theorem argNumber_length (s : List Char) (g : Bool) :
    (fmt.argNumber s g).1.length ≤ s.length := by
  unfold fmt.argNumber
  split
  · simp
  · split
    · exact parseArgNumber_length _
    · exact le_refl _

theorem width_length (s : List Char) (a g : Bool) :
    (fmt.width s a g).2.1.length ≤ s.length := by
  unfold fmt.width
  split
  · simp
  · split
    · simp
    · exact parsenumAux_length _ _ _

theorem precision_length (s : List Char) (a g : Bool) :
    (fmt.precision s a g).2.1.length ≤ s.length := by
  unfold fmt.precision
  split
  · simp
  · rename_i c cs
    split
    · have h := argNumber_length cs (g && !a)
      generalize fmt.argNumber cs (g && !a) = r at h
      simp only
      rcases hr : r.1 with _ | ⟨d, ds⟩
      · simp
      · rw [hr] at h
        simp only [List.length_cons] at h ⊢
        split
        · simp only; omega
        · have h2 := parsenumAux_length (d :: ds) 0 false
          simp only [fmt.parsenum, List.length_cons] at h2 ⊢
          omega
    · exact le_refl _

theorem verbStep_length (s : List Char) : (fmt.verbStep s).2.length ≤ s.length := by
  have h1 := skipFlags_length s
  have h2 := argNumber_length (fmt.skipFlags s) true
  have h3 := width_length (fmt.argNumber (fmt.skipFlags s) true).1
    (fmt.argNumber (fmt.skipFlags s) true).2.1 (fmt.argNumber (fmt.skipFlags s) true).2.2
  generalize hw : fmt.width (fmt.argNumber (fmt.skipFlags s) true).1
    (fmt.argNumber (fmt.skipFlags s) true).2.1 (fmt.argNumber (fmt.skipFlags s) true).2.2 = w
    at h3
  have h4 := precision_length w.2.1 w.2.2.1 w.2.2.2
  generalize hp : fmt.precision w.2.1 w.2.2.1 w.2.2.2 = p at h4
  have h5 := argNumber_length p.2.1 p.2.2.2
  have hb : ((if p.2.2.1 then (p.2.1, p.2.2.1, p.2.2.2)
      else fmt.argNumber p.2.1 p.2.2.2) : List Char × Bool × Bool).1.length ≤ p.2.1.length := by
    split
    · exact le_refl _
    · exact h5
  unfold fmt.verbStep
  simp only [hw, hp]
  generalize ((if p.2.2.1 then (p.2.1, p.2.2.1, p.2.2.2)
      else fmt.argNumber p.2.1 p.2.2.2) : List Char × Bool × Bool) = b at hb
  rcases hb1 : b.1 with _ | ⟨verb, rest⟩
  · simp
  · rw [hb1] at hb
    simp only [List.length_cons] at hb
    simp only
    split
    · simp only; omega
    · split <;> (simp only; omega)

/-- Fuel beyond the length of the format does not change the result. -/
theorem doPrintfAux_fuel (k : Nat) : ∀ (s : List Char) (n m : Nat), s.length ≤ k →
    s.length ≤ n → s.length ≤ m → fmt.doPrintfAux n s = fmt.doPrintfAux m s := by
  induction k with
  | zero =>
    intro s n m hk _ _
    have : s = [] := List.length_eq_zero.mp (Nat.le_zero.mp hk)
    subst this
    cases n <;> cases m <;> rfl
  | succ k ih =>
    intro s n m hk hn hm
    cases s with
    | nil => cases n <;> cases m <;> rfl
    | cons c cs =>
      cases n with
      | zero => simp at hn
      | succ n =>
        cases m with
        | zero => simp at hm
        | succ m =>
          simp only [List.length_cons, Nat.add_le_add_iff_right] at hk hn hm
          simp only [fmt.doPrintfAux]
          have hv := verbStep_length cs
          split
          · rw [ih (fmt.verbStep cs).2 n m (by omega) (by omega) (by omega)]
          · rw [ih cs n m hk hn hm]

/-! ## C1, C2: the choice of a handler -/

/-- C1. For every endpoint and every log level, `GetAPIHandler` returns a
Classic handler when the endpoint contains "/JSSResource", a JamfPro handler
when it contains "/api" but not "/JSSResource", and an Unknown handler when it
contains neither; the handler carries a logger of the level given. -/
theorem GetAPIHandler_selects {L : Type} (endpoint : String) (logLevel : L) :
    (Occurs "/JSSResource" endpoint →
      GetAPIHandler endpoint logLevel = .classic ⟨⟨logLevel⟩, false⟩) ∧
    (Occurs "/api" endpoint ∧ ¬ Occurs "/JSSResource" endpoint →
      GetAPIHandler endpoint logLevel = .jamfPro ⟨⟨logLevel⟩, false⟩) ∧
    (¬ Occurs "/JSSResource" endpoint ∧ ¬ Occurs "/api" endpoint →
      GetAPIHandler endpoint logLevel = .unknown ⟨⟨logLevel⟩, false⟩) := by
  simp only [← strings_Contains_iff, GetAPIHandler]
  refine ⟨?_, ?_, ?_⟩
  · intro h; simp [h]
  · rintro ⟨h1, h2⟩; simp [h1, h2]
  · rintro ⟨h1, h2⟩; simp [h1, h2]

/-- C1 at three endpoints: one of each kind. -/
theorem GetAPIHandler_selects_witness :
    GetAPIHandler "/JSSResource/departments/id/3" (2 : Nat) = .classic ⟨⟨2⟩, false⟩ ∧
    GetAPIHandler "/api/v1/api-roles" (2 : Nat) = .jamfPro ⟨⟨2⟩, false⟩ ∧
    GetAPIHandler "/uapi/roles" (2 : Nat) = .unknown ⟨⟨2⟩, false⟩ :=
  ⟨(GetAPIHandler_selects "/JSSResource/departments/id/3" 2).1
      ((strings_Contains_iff _ _).1 (by decide)),
   (GetAPIHandler_selects "/api/v1/api-roles" 2).2.1
      ⟨(strings_Contains_iff _ _).1 (by decide),
       (strings_Contains_eq_false_iff _ _).1 (by decide)⟩,
   (GetAPIHandler_selects "/uapi/roles" 2).2.2
      ⟨(strings_Contains_eq_false_iff _ _).1 (by decide),
       (strings_Contains_eq_false_iff _ _).1 (by decide)⟩⟩

/-- C2. An endpoint that contains both "/JSSResource" and "/api" gets the
Classic handler, whichever marker comes first; and for every endpoint the
variant chosen is the same for any two log levels. -/
theorem GetAPIHandler_classic_precedence (endpoint : String) :
    (Occurs "/JSSResource" endpoint → Occurs "/api" endpoint →
      ∀ (L : Type) (logLevel : L), (GetAPIHandler endpoint logLevel).kind = .Classic) ∧
    (∀ (L₁ L₂ : Type) (l₁ : L₁) (l₂ : L₂),
      (GetAPIHandler endpoint l₁).kind = (GetAPIHandler endpoint l₂).kind) := by
  constructor
  · intro h _ L logLevel
    have hc := (strings_Contains_iff endpoint "/JSSResource").2 h
    simp [GetAPIHandler, hc, APIHandler.kind]
  · intro L₁ L₂ l₁ l₂
    simp only [GetAPIHandler]
    split
    · rfl
    · split <;> rfl

/-- C2 with the markers in either order. -/
theorem GetAPIHandler_classic_precedence_witness :
    (GetAPIHandler "/api/v1/JSSResource/x" (0 : Nat)).kind = .Classic ∧
    (GetAPIHandler "/JSSResource/api/x" (0 : Nat)).kind = .Classic :=
  ⟨(GetAPIHandler_classic_precedence "/api/v1/JSSResource/x").1
      ((strings_Contains_iff _ _).1 (by decide)) ((strings_Contains_iff _ _).1 (by decide))
      Nat 0,
   (GetAPIHandler_classic_precedence "/JSSResource/api/x").1
      ((strings_Contains_iff _ _).1 (by decide)) ((strings_Contains_iff _ _).1 (by decide))
      Nat 0⟩

/-! ## C3 to C7: decoding with the Classic and the JamfPro handler -/

/-- C3. For the Classic and the JamfPro handler, `UnmarshalResponse` of a
response to a DELETE request returns no error if and only if
200 <= status code < 300; the body is not read and `out` is not written, and
the result is the same whatever the body, the headers and the library are. -/
theorem UnmarshalResponse_delete {L α : Type} (env : Env α) (hc : ClassicApiHandler L)
    (hj : JamfProApiHandler L) (resp : Response) (out : α)
    (hm : resp.Request.Method = "DELETE") :
    ((hc.UnmarshalResponse env resp out).err = none ↔
        200 ≤ resp.StatusCode ∧ resp.StatusCode < 300) ∧
      (hc.UnmarshalResponse env resp out).bodyRead = false ∧
      (hc.UnmarshalResponse env resp out).out = out ∧
    ((hj.UnmarshalResponse env resp out).err = none ↔
        200 ≤ resp.StatusCode ∧ resp.StatusCode < 300) ∧
      (hj.UnmarshalResponse env resp out).bodyRead = false ∧
      (hj.UnmarshalResponse env resp out).out = out ∧
    (∀ (env' : Env α) (body' : Except String String) (header' : Header),
      hc.UnmarshalResponse env' { resp with Body := body', Header := header' } out =
        hc.UnmarshalResponse env resp out ∧
      hj.UnmarshalResponse env' { resp with Body := body', Header := header' } out =
        hj.UnmarshalResponse env resp out) := by
  by_cases hs : resp.StatusCode ≥ 200 ∧ resp.StatusCode < 300
  · simp [ClassicApiHandler.UnmarshalResponse, JamfProApiHandler.UnmarshalResponse, hm, hs]
  · simp [ClassicApiHandler.UnmarshalResponse, JamfProApiHandler.UnmarshalResponse, hm, hs]

/-- C3 on a DELETE answered with 204 and an HTML body. -/
theorem UnmarshalResponse_delete_witness :
    (sampleClassic.UnmarshalResponse sampleEnv
      (sampleResponse "DELETE" 204 [("Content-Type", ["text/html"])] "<html></html>") "x").err
      = none ∧
    (sampleJamfPro.UnmarshalResponse sampleEnv
      (sampleResponse "DELETE" 204 [("Content-Type", ["text/html"])] "<html></html>") "x").out
      = "x" :=
  have h := UnmarshalResponse_delete sampleEnv sampleClassic sampleJamfPro
    (sampleResponse "DELETE" 204 [("Content-Type", ["text/html"])] "<html></html>") "x" rfl
  ⟨h.1.2 (by decide), h.2.2.2.2.2.1⟩

/-- The handlers read the body before they look at the headers: when
`io.ReadAll` fails with `e`, both return that error and do not write `out`. -/
theorem UnmarshalResponse_read_error {L α : Type} (env : Env α) (hc : ClassicApiHandler L)
    (hj : JamfProApiHandler L) (resp : Response) (out : α) (e : String)
    (hm : resp.Request.Method ≠ "DELETE") (hb : resp.Body = .error e) :
    ((hc.UnmarshalResponse env resp out).err = some (.lib e) ∧
      (hc.UnmarshalResponse env resp out).out = out) ∧
    ((hj.UnmarshalResponse env resp out).err = some (.lib e) ∧
      (hj.UnmarshalResponse env resp out).out = out) := by
  simp [ClassicApiHandler.UnmarshalResponse, JamfProApiHandler.UnmarshalResponse, hm, hb]

/-- C4 as stated fails. A GET answered with status 500 and Content-Type
"text/html" whose body cannot be read to its end: both handlers return the
error of the read, "unexpected EOF", and no `APIError`. -/
theorem UnmarshalResponse_html_read_error :
    (sampleClassic.UnmarshalResponse sampleEnv
      (sampleUnreadResponse "GET" 500 [("Content-Type", ["text/html"])] "unexpected EOF")
      "x").err = some (.lib "unexpected EOF") ∧
    (sampleJamfPro.UnmarshalResponse sampleEnv
      (sampleUnreadResponse "GET" 500 [("Content-Type", ["text/html"])] "unexpected EOF")
      "x").err = some (.lib "unexpected EOF") := by
  constructor <;> decide

/-- C4, amended. For the Classic and the JamfPro handler and every response to
a request other than DELETE whose Content-Type header contains "text/html":
when the body is read, as `body`, `UnmarshalResponse` returns an `APIError`
whose `StatusCode` is the status code of the response and whose `Message` is
the text `extractErrorMessageFromHTML` gives for `body`, whatever the status
code; when reading the body fails, it returns the error of the read; in both
cases `out` is not written. -/
theorem UnmarshalResponse_html {L α : Type} (env : Env α) (hc : ClassicApiHandler L)
    (hj : JamfProApiHandler L) (resp : Response) (out : α)
    (hm : resp.Request.Method ≠ "DELETE")
    (hct : Occurs "text/html" (resp.Header.Get "Content-Type")) :
    (∀ body, resp.Body = .ok body →
      (hc.UnmarshalResponse env resp out).err =
          some (.apiError resp.StatusCode (env.extractErrorMessageFromHTML body)) ∧
        (hc.UnmarshalResponse env resp out).out = out ∧
      (hj.UnmarshalResponse env resp out).err =
          some (.apiError resp.StatusCode (env.extractErrorMessageFromHTML body)) ∧
        (hj.UnmarshalResponse env resp out).out = out) ∧
    (∀ e, resp.Body = .error e →
      ((hc.UnmarshalResponse env resp out).err = some (.lib e) ∧
        (hc.UnmarshalResponse env resp out).out = out) ∧
      ((hj.UnmarshalResponse env resp out).err = some (.lib e) ∧
        (hj.UnmarshalResponse env resp out).out = out)) := by
  have hct' := (strings_Contains_iff _ _).2 hct
  constructor
  · intro body hb
    simp [ClassicApiHandler.UnmarshalResponse, JamfProApiHandler.UnmarshalResponse, hm, hb,
      hct']
  · intro e hb
    exact UnmarshalResponse_read_error env hc hj resp out e hm hb

/-- C4, amended, on an HTML page sent with status 200 and with status 500. -/
theorem UnmarshalResponse_html_witness :
    (sampleJamfPro.UnmarshalResponse sampleEnv
      (sampleResponse "GET" 200 [("Content-Type", ["text/html;charset=UTF-8"])]
        "<html><p>Access denied</p></html>") "x").err
      = some (.apiError 200 "Access denied") ∧
    (sampleClassic.UnmarshalResponse sampleEnv
      (sampleResponse "PUT" 500 [("Content-Type", ["text/html"])]
        "<html><p>Access denied</p></html>") "x").err
      = some (.apiError 500 "Access denied") :=
  ⟨((UnmarshalResponse_html sampleEnv sampleClassic sampleJamfPro
      (sampleResponse "GET" 200 [("Content-Type", ["text/html;charset=UTF-8"])]
        "<html><p>Access denied</p></html>") "x"
      (by decide) ((strings_Contains_iff _ _).1 (by decide))).1
      "<html><p>Access denied</p></html>" rfl).2.2.1,
   ((UnmarshalResponse_html sampleEnv sampleClassic sampleJamfPro
      (sampleResponse "PUT" 500 [("Content-Type", ["text/html"])]
        "<html><p>Access denied</p></html>") "x"
      (by decide) ((strings_Contains_iff _ _).1 (by decide))).1
      "<html><p>Access denied</p></html>" rfl).1⟩

/-- C5 as stated fails. A GET answered with status 404 and the handler's
Content-Type whose body cannot be read to its end: both handlers return the
error of the read, and not "received non-success status code: 404". -/
theorem UnmarshalResponse_non_success_read_error :
    (sampleClassic.UnmarshalResponse sampleEnv
      (sampleUnreadResponse "GET" 404 [("Content-Type", ["application/xml"])] "unexpected EOF")
      "x").err = some (.lib "unexpected EOF") ∧
    (sampleJamfPro.UnmarshalResponse sampleEnv
      (sampleUnreadResponse "GET" 404 [("Content-Type", ["application/json"])] "unexpected EOF")
      "x").err = some (.lib "unexpected EOF") := by
  constructor <;> decide

/-- C5, amended. For every response to a request other than DELETE whose
Content-Type does not contain "text/html" and whose status code is outside
200..299: when the body is read, as `body`, the Classic handler, for a
Content-Type that contains "application/xml" or "text/xml;charset=UTF-8", and
the JamfPro handler, for one that contains "application/json", return the error
"received non-success status code: <status>", and `out` is unchanged whatever
the decoder would make of the body; when reading the body fails, both return
the error of the read and `out` is unchanged. -/
theorem UnmarshalResponse_non_success {L α : Type} (env : Env α) (hc : ClassicApiHandler L)
    (hj : JamfProApiHandler L) (resp : Response) (out : α)
    (hm : resp.Request.Method ≠ "DELETE")
    (hhtml : ¬ Occurs "text/html" (resp.Header.Get "Content-Type"))
    (hs : resp.StatusCode < 200 ∨ 300 ≤ resp.StatusCode) :
    (∀ body, resp.Body = .ok body →
      (Occurs "application/xml" (resp.Header.Get "Content-Type") ∨
          Occurs "text/xml;charset=UTF-8" (resp.Header.Get "Content-Type") →
        (hc.UnmarshalResponse env resp out).err =
            some (.errorf ("received non-success status code: " ++
              toString resp.StatusCode)) ∧
          (hc.UnmarshalResponse env resp out).out = out) ∧
      (Occurs "application/json" (resp.Header.Get "Content-Type") →
        (hj.UnmarshalResponse env resp out).err =
            some (.errorf ("received non-success status code: " ++
              toString resp.StatusCode)) ∧
          (hj.UnmarshalResponse env resp out).out = out)) ∧
    (∀ e, resp.Body = .error e →
      ((hc.UnmarshalResponse env resp out).err = some (.lib e) ∧
        (hc.UnmarshalResponse env resp out).out = out) ∧
      ((hj.UnmarshalResponse env resp out).err = some (.lib e) ∧
        (hj.UnmarshalResponse env resp out).out = out)) := by
  have hhtml' := (strings_Contains_eq_false_iff _ _).2 hhtml
  have hs' : resp.StatusCode < 200 ∨ resp.StatusCode ≥ 300 := hs
  refine ⟨fun body hb => ⟨?_, ?_⟩, fun e hb => UnmarshalResponse_read_error env hc hj resp out e hm hb⟩
  · intro hx
    have hx' : (strings.Contains (resp.Header.Get "Content-Type") "application/xml" ||
        strings.Contains (resp.Header.Get "Content-Type") "text/xml;charset=UTF-8") = true := by
      rcases hx with h | h
      · simp [(strings_Contains_iff _ _).2 h]
      · simp [(strings_Contains_iff _ _).2 h]
    simp only [ClassicApiHandler.UnmarshalResponse, if_neg hm, hb, hhtml', hx', if_pos hs',
      fmt.verbD]
    simp
  · intro hx
    have hx' := (strings_Contains_iff _ _).2 hx
    simp only [JamfProApiHandler.UnmarshalResponse, if_neg hm, hb, hhtml', hx', if_pos hs',
      fmt.verbD]
    simp

/-- C5, amended, on a well-formed document sent with status 404 (Classic) and
500 (JamfPro): the decoder of the stand-in library would store the body in
`out`, the handler leaves `out` as it was. -/
theorem UnmarshalResponse_non_success_witness :
    ((sampleClassic.UnmarshalResponse sampleEnv
        (sampleResponse "GET" 404 [("Content-Type", ["application/xml"])]
          "<department><id>1</id></department>") "x").err
        = some (.errorf "received non-success status code: 404") ∧
      (sampleClassic.UnmarshalResponse sampleEnv
        (sampleResponse "GET" 404 [("Content-Type", ["application/xml"])]
          "<department><id>1</id></department>") "x").out = "x") ∧
    ((sampleJamfPro.UnmarshalResponse sampleEnv
        (sampleResponse "POST" 500 [("Content-Type", ["application/json"])]
          "\x7b\x7d") "x").err
        = some (.errorf "received non-success status code: 500") ∧
      (sampleJamfPro.UnmarshalResponse sampleEnv
        (sampleResponse "POST" 500 [("Content-Type", ["application/json"])]
          "\x7b\x7d") "x").out = "x") :=
  ⟨((UnmarshalResponse_non_success sampleEnv sampleClassic sampleJamfPro
      (sampleResponse "GET" 404 [("Content-Type", ["application/xml"])]
        "<department><id>1</id></department>") "x"
      (by decide) ((strings_Contains_eq_false_iff _ _).1 (by decide))
      (Or.inr (by decide))).1 "<department><id>1</id></department>" rfl).1
      (Or.inl ((strings_Contains_iff _ _).1 (by decide))),
   ((UnmarshalResponse_non_success sampleEnv sampleClassic sampleJamfPro
      (sampleResponse "POST" 500 [("Content-Type", ["application/json"])]
        "\x7b\x7d") "x"
      (by decide) ((strings_Contains_eq_false_iff _ _).1 (by decide))
      (Or.inr (by decide))).1 "\x7b\x7d" rfl).2 ((strings_Contains_iff _ _).1 (by decide))⟩

/-- What the fallback branch returns, for both handlers: when a 2xx response
with the handler's Content-Type has a body that the decoder rejects and that
contains "<html>", the error is `fmt.Errorf` applied to the extracted text as
its format string; the decoder's own error is not returned. -/
theorem UnmarshalResponse_html_fallback {L α : Type} (env : Env α) (hc : ClassicApiHandler L)
    (hj : JamfProApiHandler L) (resp : Response) (out : α) (body : String)
    (hm : resp.Request.Method ≠ "DELETE") (hb : resp.Body = .ok body)
    (hhtml : ¬ Occurs "text/html" (resp.Header.Get "Content-Type"))
    (hs : 200 ≤ resp.StatusCode ∧ resp.StatusCode < 300)
    (hdoc : Occurs "<html>" body) :
    (Occurs "application/xml" (resp.Header.Get "Content-Type") ∨
        Occurs "text/xml;charset=UTF-8" (resp.Header.Get "Content-Type") →
      (env.xmlUnmarshal body out).2 ≠ none →
      (hc.UnmarshalResponse env resp out).err =
        some (.errorf (fmt.Sprintf0 (env.extractErrorMessageFromHTML body)))) ∧
    (Occurs "application/json" (resp.Header.Get "Content-Type") →
      (env.jsonUnmarshal body out).2 ≠ none →
      (hj.UnmarshalResponse env resp out).err =
        some (.errorf (fmt.Sprintf0 (env.extractErrorMessageFromHTML body)))) := by
  have hhtml' := (strings_Contains_eq_false_iff _ _).2 hhtml
  have hdoc' := (strings_Contains_iff _ _).2 hdoc
  have hs' : ¬ (resp.StatusCode < 200 ∨ resp.StatusCode ≥ 300) := by omega
  constructor
  · intro hx hp
    have hx' : (strings.Contains (resp.Header.Get "Content-Type") "application/xml" ||
        strings.Contains (resp.Header.Get "Content-Type") "text/xml;charset=UTF-8") = true := by
      rcases hx with h | h
      · simp [(strings_Contains_iff _ _).2 h]
      · simp [(strings_Contains_iff _ _).2 h]
    simp only [ClassicApiHandler.UnmarshalResponse, if_neg hm, hb, hhtml', hx', if_neg hs']
    rcases hu : env.xmlUnmarshal body out with ⟨o, _ | perr⟩
    · rw [hu] at hp; exact absurd rfl hp
    · simp [hdoc', fmt.Errorf0]
  · intro hx hp
    have hx' := (strings_Contains_iff _ _).2 hx
    simp only [JamfProApiHandler.UnmarshalResponse, if_neg hm, hb, hhtml', hx', if_neg hs']
    rcases hu : env.jsonUnmarshal body out with ⟨o, _ | perr⟩
    · rw [hu] at hp; exact absurd rfl hp
    · simp [hdoc', fmt.Errorf0]

/-- The format loop copies a text without a percent sign. -/
theorem doPrintfAux_of_no_percent (s : List Char) (n : Nat) (hn : s.length ≤ n)
    (hs : '%' ∉ s) : fmt.doPrintfAux n s = s := by
  induction s generalizing n with
  | nil => cases n <;> rfl
  | cons c cs ih =>
    cases n with
    | zero => simp at hn
    | succ n =>
      have hc : c ≠ '%' := fun h => hs (by simp [h])
      have hcs : '%' ∉ cs := fun h => hs (List.mem_cons_of_mem _ h)
      simp only [fmt.doPrintfAux, if_neg hc]
      rw [ih n (by simpa using hn) hcs]

/-- `fmt.Sprintf` without operands returns a text without a percent sign as
it is. -/
theorem Sprintf0_of_no_percent (t : String) (ht : '%' ∉ t.data) : fmt.Sprintf0 t = t := by
  unfold fmt.Sprintf0
  rw [doPrintfAux_of_no_percent t.data t.data.length (le_refl _) ht]

/-- C6 at a failing input. For every response to a request other than DELETE
whose body reads as `body`, with a status code in 200..299 and the handler's
Content-Type (and not "text/html"), whose body contains "<html>" and is
rejected by the decoder, and for which `extractErrorMessageFromHTML` gives the
text "Disk 100% full": the error returned carries the message
"Disk 100%!f(MISSING)ull", which is not the extracted text. -/
theorem UnmarshalResponse_html_fallback_percent {L α : Type} (env : Env α)
    (hc : ClassicApiHandler L) (hj : JamfProApiHandler L) (resp : Response) (out : α)
    (body : String)
    (hm : resp.Request.Method ≠ "DELETE") (hb : resp.Body = .ok body)
    (hhtml : ¬ Occurs "text/html" (resp.Header.Get "Content-Type"))
    (hs : 200 ≤ resp.StatusCode ∧ resp.StatusCode < 300)
    (hdoc : Occurs "<html>" body)
    (htext : env.extractErrorMessageFromHTML body = "Disk 100% full") :
    (Occurs "application/xml" (resp.Header.Get "Content-Type") ∨
        Occurs "text/xml;charset=UTF-8" (resp.Header.Get "Content-Type") →
      (env.xmlUnmarshal body out).2 ≠ none →
      (hc.UnmarshalResponse env resp out).err = some (.errorf "Disk 100%!f(MISSING)ull") ∧
        (hc.UnmarshalResponse env resp out).err ≠
          some (.errorf (env.extractErrorMessageFromHTML body))) ∧
    (Occurs "application/json" (resp.Header.Get "Content-Type") →
      (env.jsonUnmarshal body out).2 ≠ none →
      (hj.UnmarshalResponse env resp out).err = some (.errorf "Disk 100%!f(MISSING)ull") ∧
        (hj.UnmarshalResponse env resp out).err ≠
          some (.errorf (env.extractErrorMessageFromHTML body))) := by
  have h := UnmarshalResponse_html_fallback env hc hj resp out body hm hb hhtml hs hdoc
  have hf : fmt.Sprintf0 "Disk 100% full" = "Disk 100%!f(MISSING)ull" := by decide
  rw [htext, hf] at h
  constructor
  · intro hx hp
    rw [h.1 hx hp, htext]
    exact ⟨rfl, by decide⟩
  · intro hx hp
    rw [h.2 hx hp, htext]
    exact ⟨rfl, by decide⟩

/-- C6 at the JamfPro handler: a GET answered with status 200, Content-Type
"application/json" and an HTML page whose paragraph reads "Disk 100% full". The
page is no JSON ("invalid character '<' looking for beginning of value"), the
extracted text is "Disk 100% full", the message of the error is not. -/
theorem UnmarshalResponse_html_fallback_percent_witness :
    sampleEnv.extractErrorMessageFromHTML "<html><body><p>Disk 100% full</p></body></html>"
      = "Disk 100% full" ∧
    (sampleEnv.jsonUnmarshal "<html><body><p>Disk 100% full</p></body></html>" "").2 =
      some "invalid character '<' looking for beginning of value" ∧
    (sampleJamfPro.UnmarshalResponse sampleEnv
      (sampleResponse "GET" 200 [("Content-Type", ["application/json"])]
        "<html><body><p>Disk 100% full</p></body></html>") "").err
      = some (.errorf "Disk 100%!f(MISSING)ull") :=
  ⟨by decide, by decide,
   ((UnmarshalResponse_html_fallback_percent sampleEnv sampleClassic sampleJamfPro
      (sampleResponse "GET" 200 [("Content-Type", ["application/json"])]
        "<html><body><p>Disk 100% full</p></body></html>") ""
      "<html><body><p>Disk 100% full</p></body></html>"
      (by decide) rfl ((strings_Contains_eq_false_iff _ _).1 (by decide)) (by decide)
      ((strings_Contains_iff _ _).1 (by decide)) (by decide)).2
      ((strings_Contains_iff _ _).1 (by decide)) (by decide)).1⟩

/-- C7 as stated fails. A GET answered with status 200 and Content-Type
"text/plain" whose body cannot be read to its end: both handlers return the
error of the read, and not "unexpected content type: text/plain". -/
theorem UnmarshalResponse_unexpected_content_type_read_error :
    (sampleClassic.UnmarshalResponse sampleEnv
      (sampleUnreadResponse "GET" 200 [("Content-Type", ["text/plain"])] "unexpected EOF")
      "x").err = some (.lib "unexpected EOF") ∧
    (sampleJamfPro.UnmarshalResponse sampleEnv
      (sampleUnreadResponse "GET" 200 [("Content-Type", ["text/plain"])] "unexpected EOF")
      "x").err = some (.lib "unexpected EOF") := by
  constructor <;> decide

/-- C7, amended. For every response to a request other than DELETE whose
Content-Type header does not contain "text/html": when the body is read, as
`body`, the Classic handler, for a header that contains neither
"application/xml" nor "text/xml;charset=UTF-8", and the JamfPro handler, for a
header that does not contain "application/json", return the error "unexpected
content type: <header value>", whatever the status code and the body, an empty
or missing header included; when reading the body fails, both return the error
of the read; in both cases `out` is not written. -/
theorem UnmarshalResponse_unexpected_content_type {L α : Type} (env : Env α)
    (hc : ClassicApiHandler L) (hj : JamfProApiHandler L) (resp : Response) (out : α)
    (hm : resp.Request.Method ≠ "DELETE")
    (hhtml : ¬ Occurs "text/html" (resp.Header.Get "Content-Type")) :
    (∀ body, resp.Body = .ok body →
      (¬ Occurs "application/xml" (resp.Header.Get "Content-Type") ∧
          ¬ Occurs "text/xml;charset=UTF-8" (resp.Header.Get "Content-Type") →
        (hc.UnmarshalResponse env resp out).err =
            some (.errorf ("unexpected content type: " ++ resp.Header.Get "Content-Type")) ∧
          (hc.UnmarshalResponse env resp out).out = out) ∧
      (¬ Occurs "application/json" (resp.Header.Get "Content-Type") →
        (hj.UnmarshalResponse env resp out).err =
            some (.errorf ("unexpected content type: " ++ resp.Header.Get "Content-Type")) ∧
          (hj.UnmarshalResponse env resp out).out = out)) ∧
    (∀ e, resp.Body = .error e →
      ((hc.UnmarshalResponse env resp out).err = some (.lib e) ∧
        (hc.UnmarshalResponse env resp out).out = out) ∧
      ((hj.UnmarshalResponse env resp out).err = some (.lib e) ∧
        (hj.UnmarshalResponse env resp out).out = out)) := by
  have hhtml' := (strings_Contains_eq_false_iff _ _).2 hhtml
  refine ⟨fun body hb => ⟨?_, ?_⟩, fun e hb => UnmarshalResponse_read_error env hc hj resp out e hm hb⟩
  · rintro ⟨h1, h2⟩
    have h1' := (strings_Contains_eq_false_iff _ _).2 h1
    have h2' := (strings_Contains_eq_false_iff _ _).2 h2
    simp [ClassicApiHandler.UnmarshalResponse, hm, hb, hhtml', h1', h2']
  · intro h1
    have h1' := (strings_Contains_eq_false_iff _ _).2 h1
    simp [JamfProApiHandler.UnmarshalResponse, hm, hb, hhtml', h1']

/-- C7, amended, on a response without a Content-Type header (Classic, status
200, a well-formed body) and on one that says "text/plain" (JamfPro, status
500). -/
theorem UnmarshalResponse_unexpected_content_type_witness :
    ((sampleClassic.UnmarshalResponse sampleEnv
        (sampleResponse "GET" 200 [] "<department></department>") "x").err
        = some (.errorf "unexpected content type: ") ∧
      (sampleClassic.UnmarshalResponse sampleEnv
        (sampleResponse "GET" 200 [] "<department></department>") "x").out = "x") ∧
    ((sampleJamfPro.UnmarshalResponse sampleEnv
        (sampleResponse "GET" 500 [("Content-Type", ["text/plain"])] "\x7b\x7d") "x").err
        = some (.errorf "unexpected content type: text/plain") ∧
      (sampleJamfPro.UnmarshalResponse sampleEnv
        (sampleResponse "GET" 500 [("Content-Type", ["text/plain"])] "\x7b\x7d") "x").out = "x") :=
  ⟨((UnmarshalResponse_unexpected_content_type sampleEnv sampleClassic sampleJamfPro
      (sampleResponse "GET" 200 [] "<department></department>") "x"
      (by decide) ((strings_Contains_eq_false_iff _ _).1 (by decide))).1
      "<department></department>" rfl).1
      ⟨(strings_Contains_eq_false_iff _ _).1 (by decide),
       (strings_Contains_eq_false_iff _ _).1 (by decide)⟩,
   ((UnmarshalResponse_unexpected_content_type sampleEnv sampleClassic sampleJamfPro
      (sampleResponse "GET" 500 [("Content-Type", ["text/plain"])] "\x7b\x7d") "x"
      (by decide) ((strings_Contains_eq_false_iff _ _).1 (by decide))).1
      "\x7b\x7d" rfl).2
      ((strings_Contains_eq_false_iff _ _).1 (by decide))⟩

/-! ## C8: DELETE answered with 404 -/

/-- C8 as stated fails. For a DELETE answered with 404 no handler returns an
`APIError` with `StatusCode` 404: the Classic and the JamfPro handler return a
plain `fmt.Errorf` error, the Unknown handler the error "unsupported API
type". -/
theorem UnmarshalResponse_delete_404_no_APIError :
    (¬ ∃ msg, (sampleClassic.UnmarshalResponse sampleEnv
        (sampleResponse "DELETE" 404 [] "") "").err = some (.apiError 404 msg)) ∧
    (¬ ∃ msg, (sampleJamfPro.UnmarshalResponse sampleEnv
        (sampleResponse "DELETE" 404 [] "") "").err = some (.apiError 404 msg)) ∧
    (¬ ∃ msg, (sampleUnknown.UnmarshalResponse
        (sampleResponse "DELETE" 404 [] "") "").err = some (.apiError 404 msg)) ∧
    (sampleUnknown.UnmarshalResponse (sampleResponse "DELETE" 404 [] "") "").err
      = some (.errorf "unsupported API type") := by
  have h1 : (sampleClassic.UnmarshalResponse sampleEnv
      (sampleResponse "DELETE" 404 [] "") "").err
      = some (.errorf "DELETE request failed with status code: 404") := by decide
  have h2 : (sampleJamfPro.UnmarshalResponse sampleEnv
      (sampleResponse "DELETE" 404 [] "") "").err
      = some (.errorf "DELETE request failed with status code: 404") := by decide
  have h3 : (sampleUnknown.UnmarshalResponse (sampleResponse "DELETE" 404 [] "") "").err
      = some (.errorf "unsupported API type") := rfl
  refine ⟨?_, ?_, ?_, h3⟩
  · rintro ⟨msg, h⟩; rw [h1] at h; cases h
  · rintro ⟨msg, h⟩; rw [h2] at h; cases h
  · rintro ⟨msg, h⟩; rw [h3] at h; cases h

/-- C8, amended. For a response to a DELETE request with status 404 the
Classic and the JamfPro handler return the plain error "DELETE request failed
with status code: 404", and the Unknown handler returns the error "unsupported
API type"; none of the three reads the body or writes `out`. -/
theorem UnmarshalResponse_delete_404 {L α : Type} (env : Env α) (hc : ClassicApiHandler L)
    (hj : JamfProApiHandler L) (hu : UnknownApiHandler L) (resp : Response) (out : α)
    (hm : resp.Request.Method = "DELETE") (hs : resp.StatusCode = 404) :
    (hc.UnmarshalResponse env resp out).err =
        some (.errorf "DELETE request failed with status code: 404") ∧
      (hc.UnmarshalResponse env resp out).bodyRead = false ∧
      (hc.UnmarshalResponse env resp out).out = out ∧
    (hj.UnmarshalResponse env resp out).err =
        some (.errorf "DELETE request failed with status code: 404") ∧
      (hj.UnmarshalResponse env resp out).bodyRead = false ∧
      (hj.UnmarshalResponse env resp out).out = out ∧
    (hu.UnmarshalResponse resp out).err = some (.errorf "unsupported API type") ∧
      (hu.UnmarshalResponse resp out).bodyRead = false ∧
      (hu.UnmarshalResponse resp out).out = out := by
  have hd : fmt.verbD 404 = "404" := by decide
  simp [ClassicApiHandler.UnmarshalResponse, JamfProApiHandler.UnmarshalResponse,
    UnknownApiHandler.UnmarshalResponse, hm, hs, hd]

/-- C8, amended, on a DELETE answered with 404 and a body. -/
theorem UnmarshalResponse_delete_404_witness :
    (sampleClassic.UnmarshalResponse sampleEnv
        (sampleResponse "DELETE" 404 [("Content-Type", ["application/xml"])]
          "<department></department>") "x").err
      = some (.errorf "DELETE request failed with status code: 404") ∧
    (sampleClassic.UnmarshalResponse sampleEnv
        (sampleResponse "DELETE" 404 [("Content-Type", ["application/xml"])]
          "<department></department>") "x").bodyRead = false :=
  have h := UnmarshalResponse_delete_404 sampleEnv sampleClassic sampleJamfPro sampleUnknown
    (sampleResponse "DELETE" 404 [("Content-Type", ["application/xml"])]
      "<department></department>") "x" rfl rfl
  ⟨h.1, h.2.1⟩

/-! ## C9, C10: what the handlers do not support -/

/-- C9. The Unknown handler's `MarshalRequest` returns a nil slice and the
error "unsupported API type" for every body and method, and its
`UnmarshalResponse` returns the error "unsupported API type" for every
response, without reading the body or writing `out`. -/
theorem UnknownApiHandler_unsupported {L α : Type} (h : UnknownApiHandler L) (body : α)
    (method : String) (resp : Response) (out : α) :
    (h.MarshalRequest body method).data = none ∧
    (h.MarshalRequest body method).err = some (.errorf "unsupported API type") ∧
    (h.UnmarshalResponse resp out).err = some (.errorf "unsupported API type") ∧
    (h.UnmarshalResponse resp out).out = out ∧
    (h.UnmarshalResponse resp out).bodyRead = false :=
  ⟨rfl, rfl, rfl, rfl, rfl⟩

/-- C10. For every fields map and files map, `MarshalMultipartRequest` of the
Classic and of the Unknown handler returns a nil body, an empty content type
and an error, and opens no file. -/
theorem MarshalMultipartRequest_unsupported {L : Type} (hc : ClassicApiHandler L)
    (hu : UnknownApiHandler L) (fields files : List (String × String)) :
    ((hc.MarshalMultipartRequest fields files).body = none ∧
      (hc.MarshalMultipartRequest fields files).contentType = "" ∧
      (hc.MarshalMultipartRequest fields files).err =
        some (.errorf "multipart request not supported by the Classic API") ∧
      (hc.MarshalMultipartRequest fields files).err ≠ none ∧
      (hc.MarshalMultipartRequest fields files).opened = []) ∧
    ((hu.MarshalMultipartRequest fields files).body = none ∧
      (hu.MarshalMultipartRequest fields files).contentType = "" ∧
      (hu.MarshalMultipartRequest fields files).err =
        some (.errorf "multipart request not supported for an unknown API type") ∧
      (hu.MarshalMultipartRequest fields files).err ≠ none ∧
      (hu.MarshalMultipartRequest fields files).opened = []) := by
  refine ⟨⟨rfl, rfl, rfl, ?_, rfl⟩, ⟨rfl, rfl, rfl, ?_, rfl⟩⟩ <;>
    simp [ClassicApiHandler.MarshalMultipartRequest, UnknownApiHandler.MarshalMultipartRequest]

/-! ## C11 to C13: the headers -/

/-- C11. For every url, `JamfProApiHandler.GetAcceptHeader` returns "image/*"
if the url contains "/api/v1/branding-images/download/" or
"/api/v1/icon/download/", and "application/json" otherwise. -/
theorem JamfProApiHandler_GetAcceptHeader {L : Type} (h : JamfProApiHandler L) (url : String) :
    (Occurs "/api/v1/branding-images/download/" url ∨ Occurs "/api/v1/icon/download/" url →
      h.GetAcceptHeader url = "image/*") ∧
    (¬ (Occurs "/api/v1/branding-images/download/" url ∨
        Occurs "/api/v1/icon/download/" url) →
      h.GetAcceptHeader url = "application/json") := by
  simp only [← strings_Contains_iff, JamfProApiHandler.GetAcceptHeader, imageEndpoints,
    acceptHeaderLoop]
  constructor
  · rintro (h1 | h1)
    · simp [h1]
    · simp [h1]
  · intro h1
    simp only [not_or, Bool.not_eq_true] at h1
    simp [h1.1, h1.2]

/-- C11 on an icon download, a branding image download and a role listing. -/
theorem JamfProApiHandler_GetAcceptHeader_witness :
    sampleJamfPro.GetAcceptHeader "https://x.jamfcloud.com/api/v1/icon/download/7" = "image/*" ∧
    sampleJamfPro.GetAcceptHeader "/api/v1/branding-images/download/2" = "image/*" ∧
    sampleJamfPro.GetAcceptHeader "https://x.jamfcloud.com/api/v1/api-roles"
      = "application/json" :=
  ⟨(JamfProApiHandler_GetAcceptHeader sampleJamfPro _).1
      (Or.inr ((strings_Contains_iff _ _).1 (by decide))),
   (JamfProApiHandler_GetAcceptHeader sampleJamfPro _).1
      (Or.inl ((strings_Contains_iff _ _).1 (by decide))),
   (JamfProApiHandler_GetAcceptHeader sampleJamfPro _).2
      (fun h => h.elim ((strings_Contains_eq_false_iff _ _).1 (by decide))
        ((strings_Contains_eq_false_iff _ _).1 (by decide)))⟩

/-- C12. For the Classic handler, `GetContentTypeHeader` returns
"application/xml" for every method and `GetAcceptHeader` returns
"application/xml" for every url, so the two are always equal. -/
theorem ClassicApiHandler_headers {L : Type} (h : ClassicApiHandler L) (method url : String) :
    h.GetContentTypeHeader method = "application/xml" ∧
    h.GetAcceptHeader url = "application/xml" ∧
    h.GetAcceptHeader url = h.GetContentTypeHeader method :=
  ⟨rfl, rfl, rfl⟩

/-- C13. `GetContentTypeHeader` returns "application/json" for every method
on the JamfPro handler and on the Unknown handler, and the Unknown handler's
`GetAcceptHeader` returns "application/json" for every url. -/
theorem JamfPro_Unknown_headers {L : Type} (hj : JamfProApiHandler L)
    (hu : UnknownApiHandler L) (method url : String) :
    hj.GetContentTypeHeader method = "application/json" ∧
    hu.GetContentTypeHeader method = "application/json" ∧
    hu.GetAcceptHeader url = "application/json" :=
  ⟨rfl, rfl, rfl⟩

/-! ## C18: endpoint construction -/

/-- C18. For every instance name and endpoint path,
`ConstructAPIResourceEndpoint` and `ConstructAPIAuthEndpoint` both return
"https://" ++ InstanceName ++ ".jamfcloud.com" ++ endpointPath; the two agree
on every input, and the result ends with the endpoint path unchanged. -/
theorem ConstructAPIEndpoint_eq {L : Type} (c : Client L) (endpointPath : String) :
    (c.ConstructAPIResourceEndpoint endpointPath).1 =
      "https://" ++ c.InstanceName ++ ".jamfcloud.com" ++ endpointPath ∧
    (c.ConstructAPIAuthEndpoint endpointPath).1 =
      "https://" ++ c.InstanceName ++ ".jamfcloud.com" ++ endpointPath ∧
    (c.ConstructAPIResourceEndpoint endpointPath).1 =
      (c.ConstructAPIAuthEndpoint endpointPath).1 ∧
    endpointPath.data <:+ (c.ConstructAPIResourceEndpoint endpointPath).1.data ∧
    endpointPath.data <:+ (c.ConstructAPIAuthEndpoint endpointPath).1.data := by
  refine ⟨rfl, rfl, rfl, ?_, ?_⟩ <;>
    exact ⟨("https://" ++ c.InstanceName ++ BaseDomain).data, by
      simp [Client.ConstructAPIResourceEndpoint, Client.ConstructAPIAuthEndpoint,
        fmt.httpsURL, String.data_append]⟩

/-! ## Lemmas on the JSON model -/

theorem hexVal_hexDigit : ∀ n, n < 16 → json.hexVal (json.hexDigit n) = some n := by
  decide

theorem char_eq_ofNat_of_toNat (c : Char) (n : Nat) (h : c.toNat = n) : c = Char.ofNat n := by
  rw [← h, Char.ofNat_toNat]

theorem readString_u00 (c : Char) (hc : c.toNat < 128) (tail : List Char) :
    json.readString .plain
      ('\\' :: 'u' :: '0' :: '0' :: json.hexDigit (c.toNat / 16) ::
        json.hexDigit (c.toNat % 16) :: tail)
      = json.consChar c (json.readString .plain tail) := by
  have h1 := hexVal_hexDigit (c.toNat / 16) (by omega)
  have h2 := hexVal_hexDigit (c.toNat % 16) (by omega)
  have h0 : json.hexVal '0' = some 0 := by decide
  have hv : (0 * 16 + 0) * 16 + c.toNat / 16 = c.toNat / 16 := by omega
  have hs : ¬ (0xD800 ≤ c.toNat / 16 * 16 + c.toNat % 16 ∧
      c.toNat / 16 * 16 + c.toNat % 16 ≤ 0xDFFF) := by omega
  have hc' : c.toNat / 16 * 16 + c.toNat % 16 = c.toNat := by omega
  simp only [json.readString, if_neg (show ¬ ('\\' : Char) = '"' by decide), if_true,
    h0, h1, h2, hv, Nat.lt_irrefl, if_false, hs]
  simp [hc', Char.ofNat_toNat]

theorem readString_escapeChar (short : Bool) (c : Char) (tail : List Char) :
    json.readString .plain (json.escapeChar short c ++ tail)
      = json.consChar c (json.readString .plain tail) := by
  unfold json.escapeChar
  split
  · subst_vars; simp [json.readString]
  split
  · subst_vars; simp [json.readString]
  split
  · subst_vars; simp [json.readString]
  split
  · subst_vars; simp [json.readString]
  split
  · subst_vars; simp [json.readString]
  split
  · rename_i h
    simp only [Bool.and_eq_true, decide_eq_true_eq] at h
    rw [char_eq_ofNat_of_toNat c 8 h.2]
    simp [json.readString]
  split
  · rename_i h
    simp only [Bool.and_eq_true, decide_eq_true_eq] at h
    rw [char_eq_ofNat_of_toNat c 12 h.2]
    simp [json.readString]
  split
  · rename_i h
    have hc : c.toNat < 128 := by
      rcases h with h | h | h | h
      · omega
      · subst h; decide
      · subst h; decide
      · subst h; decide
    exact readString_u00 c hc tail
  split
  · rename_i h
    rcases h with h | h
    · rw [char_eq_ofNat_of_toNat c _ h]
      simp [json.readString, json.hexVal, json.hexDigit]
    · rw [char_eq_ofNat_of_toNat c _ h]
      simp [json.readString, json.hexVal, json.hexDigit]
  · rename_i h1 h2 _ _ _ _ _ h8 _
    have h32 : ¬ c.toNat < 32 := fun h => h8 (Or.inl h)
    simp [json.readString, h1, h2, h32]

theorem readString_escape (short : Bool) (s rest : List Char) :
    json.readString .plain (json.escape short s ++ '"' :: rest) = some (s, rest) := by
  induction s with
  | nil => simp [json.escape, json.readString]
  | cons c cs ih =>
    simp only [json.escape, List.append_assoc]
    rw [readString_escapeChar, ih]
    rfl

theorem skipSpace_quote (l : List Char) : json.skipSpace ('"' :: l) = '"' :: l := by
  simp [json.skipSpace, json.isSpace]

theorem parseValue_quote (short : Bool) (s : String) (fuel depth : Nat) (rest : List Char) :
    json.parseValue (fuel + 1) depth (json.quote short s ++ rest)
      = some (.string s.data, rest) := by
  simp only [json.quote, List.cons_append, List.append_assoc, List.singleton_append]
  rw [json.parseValue, skipSpace_quote]
  simp [readString_escape]

/-- The values a list of strings is read as. -/
theorem parseElems_strings (short : Bool) (s : String) (l : List String) (fuel depth : Nat)
    (rest : List Char) :
    json.parseElems (fuel + l.length + 2) depth
        (json.quote short s ++ (json.quoteRest short l ++ ']' :: rest))
      = some ((s :: l).map (fun x => json.Value.string x.data), rest) := by
  induction l generalizing s fuel with
  | nil =>
    simp only [json.quoteRest, List.append_nil, List.length_nil, Nat.add_zero]
    rw [json.parseElems, parseValue_quote]
    simp [json.skipSpace, json.isSpace]
  | cons t l ih =>
    simp only [json.quoteRest, List.length_cons, List.append_assoc, List.cons_append]
    rw [show fuel + (l.length + 1) + 2 = (fuel + l.length + 1) + 1 + 1 by omega,
      json.parseElems, parseValue_quote]
    have := ih t fuel
    simp only [List.append_assoc] at this
    simp only [json.skipSpace, json.isSpace]
    simp [this]

theorem quoteRest_length (short : Bool) (l : List String) :
    l.length ≤ (json.quoteRest short l).length := by
  induction l with
  | nil => simp
  | cons s l ih => simp only [json.quoteRest, List.length_cons, List.length_append]; omega

theorem skipSpace_of_not_space (c : Char) (l : List Char) (h : json.isSpace c = false) :
    json.skipSpace (c :: l) = c :: l := by
  simp [json.skipSpace, h]

/-- A member whose value is a quoted string, followed by more members. -/
theorem parseMembers_string_more (short : Bool) (key : List Char) (s : String)
    (fuel depth : Nat) (more : List Char)
    (hk : ∀ rest, json.readString .plain (key ++ '"' :: rest) = some (key, rest)) :
    json.parseMembers (fuel + 2) depth
        ('"' :: (key ++ '"' :: ':' :: (json.quote short s ++ ',' :: more)))
      = match json.parseMembers (fuel + 1) depth more with
        | none => none
        | some r => some ((key, .string s.data) :: r.1, r.2) := by
  rw [json.parseMembers, skipSpace_quote]
  simp only [if_true, hk]
  rw [skipSpace_of_not_space _ _ (by decide)]
  simp only [if_true]
  rw [parseValue_quote]
  simp only
  rw [skipSpace_of_not_space _ _ (by decide)]
  simp

/-- A last member whose value is a quoted string. -/
theorem parseMembers_string_last (short : Bool) (key : List Char) (s : String)
    (fuel depth : Nat) (rest : List Char)
    (hk : ∀ rest, json.readString .plain (key ++ '"' :: rest) = some (key, rest)) :
    json.parseMembers (fuel + 2) depth
        ('"' :: (key ++ '"' :: ':' :: (json.quote short s ++ '\x7d' :: rest)))
      = some ([(key, .string s.data)], rest) := by
  rw [json.parseMembers, skipSpace_quote]
  simp only [if_true, hk]
  rw [skipSpace_of_not_space _ _ (by decide)]
  simp only [if_true]
  rw [parseValue_quote]
  simp only
  rw [skipSpace_of_not_space _ _ (by decide)]
  simp

/-- An array of strings that is not empty, read as a value. -/
theorem parseValue_strings (short : Bool) (s : String) (l : List String) (fuel depth : Nat)
    (rest : List Char) (hd : depth < json.maxNestingDepth) :
    json.parseValue (fuel + l.length + 3) depth
        ('[' :: (json.quote short s ++ (json.quoteRest short l ++ ']' :: rest)))
      = some (.array ((s :: l).map (fun x => json.Value.string x.data)), rest) := by
  have hform : json.quote short s ++ (json.quoteRest short l ++ ']' :: rest)
      = '"' :: (json.escape short s.data ++ '"' :: (json.quoteRest short l ++ ']' :: rest)) := by
    simp [json.quote]
  have he := parseElems_strings short s l fuel (depth + 1) rest
  rw [hform] at he
  rw [show fuel + l.length + 3 = (fuel + l.length + 2) + 1 by omega, json.parseValue,
    skipSpace_of_not_space _ _ (by decide), hform]
  simp only [if_neg (show ¬ ('[' : Char) = '\x7b' by decide), if_true, not_le.mpr hd,
    ge_iff_le, if_false, skipSpace_quote, if_neg (show ¬ ('"' : Char) = ']' by decide), he]

/-- A last member whose value is an array of strings that is not empty. -/
theorem parseMembers_strings_last (short : Bool) (key : List Char) (s : String)
    (l : List String) (fuel depth : Nat) (rest : List Char)
    (hd : depth < json.maxNestingDepth)
    (hk : ∀ rest, json.readString .plain (key ++ '"' :: rest) = some (key, rest)) :
    json.parseMembers (fuel + l.length + 4) depth
        ('"' :: (key ++ '"' :: ':' :: '[' ::
          (json.quote short s ++ (json.quoteRest short l ++ ']' :: '\x7d' :: rest))))
      = some ([(key, .array ((s :: l).map (fun x => json.Value.string x.data)))], rest) := by
  rw [show fuel + l.length + 4 = (fuel + l.length + 3) + 1 by omega, json.parseMembers,
    skipSpace_quote]
  simp only [if_true, hk]
  rw [skipSpace_of_not_space _ _ (by decide)]
  simp only [if_true]
  rw [parseValue_strings short s l fuel depth _ hd]
  simp only
  rw [skipSpace_of_not_space _ _ (by decide)]
  simp

theorem readString_id (rest : List Char) :
    json.readString .plain ("id".data ++ '"' :: rest) = some ("id".data, rest) := by
  simp [json.readString, json.consChar]

theorem readString_displayName (rest : List Char) :
    json.readString .plain ("displayName".data ++ '"' :: rest)
      = some ("displayName".data, rest) := by
  simp [json.readString, json.consChar]

theorem readString_privileges (rest : List Char) :
    json.readString .plain ("privileges".data ++ '"' :: rest)
      = some ("privileges".data, rest) := by
  simp [json.readString, json.consChar]

theorem string_eq_empty_of_length (s : String) (h : s.data.length = 0) : s = "" := by
  apply String.ext
  exact List.length_eq_zero.mp h

/-- An object that is not empty, read as a value at the top. -/
theorem parseValue_object (fuel : Nat) (text : List Char)
    (ms : List (List Char × json.Value)) (rest : List Char)
    (h : json.parseMembers fuel 1 ('"' :: text) = some (ms, rest)) :
    json.parseValue (fuel + 1) 0 ('\x7b' :: '"' :: text) = some (.object ms, rest) := by
  rw [json.parseValue, skipSpace_of_not_space _ _ (by decide)]
  simp only [if_true, skipSpace_quote, if_neg (show ¬ ('"' : Char) = '\x7d' by decide),
    ge_iff_le, show ¬ (json.maxNestingDepth ≤ 0) by decide, if_false, h]

/-- What `json.Marshal` writes for a `Role` is read back as an object with
the members written, for each of the ways `omitempty` leaves members out. -/
theorem parseValue_MarshalRole (short : Bool) (id dn : String) (priv : Slice String)
    (hp : priv ≠ some []) (fuel : Nat) (hf : priv.len + 6 ≤ fuel) :
    ∃ ms, json.parseValue fuel 0 (json.MarshalRole short ⟨id, dn, priv⟩).data
        = some (.object ms, []) ∧
      json.decodeRoleMembers jamfpro.Role.zero ms = some ⟨id, dn, priv⟩ := by
  have hd : (1 : Nat) < json.maxNestingDepth := by decide
  have hfid : json.fieldOf json.roleFields "id".data = some (some 0) := by decide
  have hfdn : json.fieldOf json.roleFields "displayName".data = some (some 1) := by decide
  have hfpr : json.fieldOf json.roleFields "privileges".data = some (some 2) := by decide
  rcases priv with _ | _ | ⟨p, ps⟩
  · -- no privileges
    obtain ⟨k, rfl⟩ : ∃ k, fuel = k + 6 := ⟨fuel - 6, by simp [Slice.len] at hf; omega⟩
    by_cases hid : id.data.length = 0 <;> by_cases hdn : dn.data.length = 0
    · refine ⟨[], ?_, ?_⟩
      · simp only [json.MarshalRole, json.roleMembers, hid, hdn, Slice.len, if_true,
          List.append_nil, json.joinMembers]
        rw [json.parseValue, skipSpace_of_not_space _ _ (by decide)]
        simp [json.skipSpace, json.isSpace]
        decide
      · rw [string_eq_empty_of_length id hid, string_eq_empty_of_length dn hdn]
        rfl
    · refine ⟨[("displayName".data, .string dn.data)], ?_, ?_⟩
      · simp only [json.MarshalRole, json.roleMembers, hid, hdn, Slice.len, if_true,
          if_false, List.append_nil, List.nil_append, json.joinMembers, List.append_assoc,
          List.cons_append]
        show json.parseValue ((k + 5) + 1) 0 ('\x7b' :: '"' :: ("displayName".data ++ '"' ::
          ':' :: (json.quote short dn ++ '\x7d' :: []))) = _
        exact parseValue_object _ _ _ _
          (parseMembers_string_last short _ dn (k + 3) 1 [] readString_displayName)
      · rw [string_eq_empty_of_length id hid]
        simp [json.decodeRoleMembers, json.decodeRoleMember, hfdn, json.decodeString,
          jamfpro.Role.zero]
    · refine ⟨[("id".data, .string id.data)], ?_, ?_⟩
      · simp only [json.MarshalRole, json.roleMembers, hid, hdn, Slice.len, if_true,
          if_false, List.append_nil, List.nil_append, json.joinMembers, List.append_assoc,
          List.cons_append]
        show json.parseValue ((k + 5) + 1) 0 ('\x7b' :: '"' :: ("id".data ++ '"' ::
          ':' :: (json.quote short id ++ '\x7d' :: []))) = _
        exact parseValue_object _ _ _ _
          (parseMembers_string_last short _ id (k + 3) 1 [] readString_id)
      · rw [string_eq_empty_of_length dn hdn]
        simp [json.decodeRoleMembers, json.decodeRoleMember, hfid, json.decodeString,
          jamfpro.Role.zero]
    · refine ⟨[("id".data, .string id.data), ("displayName".data, .string dn.data)], ?_, ?_⟩
      · simp only [json.MarshalRole, json.roleMembers, hid, hdn, Slice.len, if_true,
          if_false, List.append_nil, List.nil_append, json.joinMembers, List.append_assoc,
          List.cons_append]
        show json.parseValue ((k + 5) + 1) 0 ('\x7b' :: '"' :: ("id".data ++ '"' ::
          ':' :: (json.quote short id ++ ',' :: ('"' :: ("displayName".data ++ '"' ::
          ':' :: (json.quote short dn ++ '\x7d' :: [])))))) = _
        apply parseValue_object
        rw [parseMembers_string_more short _ id (k + 3) 1 _ readString_id,
          parseMembers_string_last short _ dn (k + 2) 1 [] readString_displayName]
      · simp [json.decodeRoleMembers, json.decodeRoleMember, hfid, hfdn, json.decodeString,
          jamfpro.Role.zero]
  · exact absurd rfl hp
  · -- privileges p :: ps
    obtain ⟨k, rfl⟩ : ∃ k, fuel = k + ps.length + 7 :=
      ⟨fuel - ps.length - 7, by simp [Slice.len] at hf; omega⟩
    have hlen : ¬ (Slice.len (some (p :: ps)) = 0) := by simp [Slice.len]
    have hdec : json.decodeStringElems
        ((p :: ps).map (fun x => json.Value.string x.data)) = some (p :: ps) := by
      generalize p :: ps = l
      induction l with
      | nil => rfl
      | cons a l ih => simp [json.decodeStringElems, ih]
    by_cases hid : id.data.length = 0 <;> by_cases hdn : dn.data.length = 0
    · refine ⟨[("privileges".data,
        .array ((p :: ps).map (fun x => json.Value.string x.data)))], ?_, ?_⟩
      · simp only [json.MarshalRole, json.roleMembers, hid, hdn, hlen, if_true,
          if_false, List.append_nil, List.nil_append, json.joinMembers, json.marshalStrings,
          List.append_assoc, List.cons_append]
        rw [show k + ps.length + 7 = ((k + 2) + ps.length + 4) + 1 by omega]
        show json.parseValue (((k + 2) + ps.length + 4) + 1) 0 ('\x7b' :: '"' ::
          ("privileges".data ++ '"' :: ':' :: '[' :: (json.quote short p ++
            (json.quoteRest short ps ++ ']' :: '\x7d' :: [])))) = _
        exact parseValue_object _ _ _ _
          (parseMembers_strings_last short _ p ps (k + 2) 1 [] hd readString_privileges)
      · rw [string_eq_empty_of_length id hid, string_eq_empty_of_length dn hdn]
        simp only [json.decodeRoleMembers, json.decodeRoleMember, hfpr, json.decodeStrings,
          hdec]
        rfl
    · refine ⟨[("displayName".data, .string dn.data), ("privileges".data,
        .array ((p :: ps).map (fun x => json.Value.string x.data)))], ?_, ?_⟩
      · simp only [json.MarshalRole, json.roleMembers, hid, hdn, hlen, if_true,
          if_false, List.append_nil, List.nil_append, json.joinMembers, json.marshalStrings,
          List.append_assoc, List.cons_append]
        rw [show k + ps.length + 7 = ((k + ps.length + 4) + 2) + 1 by omega]
        show json.parseValue (((k + ps.length + 4) + 2) + 1) 0 ('\x7b' :: '"' ::
          ("displayName".data ++ '"' :: ':' :: (json.quote short dn ++ ',' :: ('"' ::
          ("privileges".data ++ '"' :: ':' :: '[' :: (json.quote short p ++
            (json.quoteRest short ps ++ ']' :: '\x7d' :: []))))))) = _
        apply parseValue_object
        rw [parseMembers_string_more short _ dn (k + ps.length + 4) 1 _
          readString_displayName,
          show k + ps.length + 4 + 1 = (k + 1) + ps.length + 4 by omega,
          parseMembers_strings_last short _ p ps (k + 1) 1 [] hd readString_privileges]
      · rw [string_eq_empty_of_length id hid]
        simp only [json.decodeRoleMembers, json.decodeRoleMember, hfdn, hfpr,
          json.decodeString, json.decodeStrings, hdec]
        rfl
    · refine ⟨[("id".data, .string id.data), ("privileges".data,
        .array ((p :: ps).map (fun x => json.Value.string x.data)))], ?_, ?_⟩
      · simp only [json.MarshalRole, json.roleMembers, hid, hdn, hlen, if_true,
          if_false, List.append_nil, List.nil_append, json.joinMembers, json.marshalStrings,
          List.append_assoc, List.cons_append]
        rw [show k + ps.length + 7 = ((k + ps.length + 4) + 2) + 1 by omega]
        show json.parseValue (((k + ps.length + 4) + 2) + 1) 0 ('\x7b' :: '"' ::
          ("id".data ++ '"' :: ':' :: (json.quote short id ++ ',' :: ('"' ::
          ("privileges".data ++ '"' :: ':' :: '[' :: (json.quote short p ++
            (json.quoteRest short ps ++ ']' :: '\x7d' :: []))))))) = _
        apply parseValue_object
        rw [parseMembers_string_more short _ id (k + ps.length + 4) 1 _ readString_id,
          show k + ps.length + 4 + 1 = (k + 1) + ps.length + 4 by omega,
          parseMembers_strings_last short _ p ps (k + 1) 1 [] hd readString_privileges]
      · rw [string_eq_empty_of_length dn hdn]
        simp only [json.decodeRoleMembers, json.decodeRoleMember, hfid, hfpr,
          json.decodeString, json.decodeStrings, hdec]
        rfl
    · refine ⟨[("id".data, .string id.data), ("displayName".data, .string dn.data),
        ("privileges".data, .array ((p :: ps).map (fun x => json.Value.string x.data)))],
        ?_, ?_⟩
      · simp only [json.MarshalRole, json.roleMembers, hid, hdn, hlen, if_true,
          if_false, List.append_nil, List.nil_append, json.joinMembers, json.marshalStrings,
          List.append_assoc, List.cons_append]
        rw [show k + ps.length + 7 = ((k + ps.length + 4) + 2) + 1 by omega]
        show json.parseValue (((k + ps.length + 4) + 2) + 1) 0 ('\x7b' :: '"' ::
          ("id".data ++ '"' :: ':' :: (json.quote short id ++ ',' :: ('"' ::
          ("displayName".data ++ '"' :: ':' :: (json.quote short dn ++ ',' :: ('"' ::
          ("privileges".data ++ '"' :: ':' :: '[' :: (json.quote short p ++
            (json.quoteRest short ps ++ ']' :: '\x7d' :: [])))))))))) = _
        apply parseValue_object
        rw [parseMembers_string_more short _ id (k + ps.length + 4) 1 _ readString_id,
          show k + ps.length + 4 + 1 = (k + ps.length + 3) + 2 by omega,
          parseMembers_string_more short _ dn (k + ps.length + 3) 1 _
            readString_displayName,
          show k + ps.length + 3 + 1 = k + ps.length + 4 by omega,
          parseMembers_strings_last short _ p ps k 1 [] hd readString_privileges]
      · simp only [json.decodeRoleMembers, json.decodeRoleMember, hfid, hfdn, hfpr,
          json.decodeString, json.decodeStrings, hdec]

theorem joinMembers_length (l : List (List Char)) (m : List Char) (h : m ∈ l) :
    m.length ≤ (json.joinMembers l).length := by
  induction l with
  | nil => simp at h
  | cons a l ih =>
    cases l with
    | nil =>
      simp only [List.mem_singleton] at h
      simp [json.joinMembers, h]
    | cons b l =>
      simp only [json.joinMembers, List.length_append, List.length_cons]
      rcases List.mem_cons.mp h with h | h
      · subst h; omega
      · have := ih h
        simp only [json.joinMembers] at this
        omega

theorem MarshalRole_length (short : Bool) (r : jamfpro.Role) :
    r.Privileges.len + 2 ≤ (json.MarshalRole short r).data.length := by
  rcases r with ⟨id, dn, priv⟩
  rcases priv with _ | _ | ⟨p, ps⟩
  · simp [json.MarshalRole, Slice.len]
  · simp [json.MarshalRole, Slice.len]
  · have hm : ("\"privileges\":".data ++ json.marshalStrings short (some (p :: ps)))
        ∈ json.roleMembers short ⟨id, dn, some (p :: ps)⟩ := by
      simp [json.roleMembers, Slice.len]
    have h1 := joinMembers_length _ _ hm
    have h2 := quoteRest_length short ps
    simp only [json.marshalStrings, List.length_append, List.length_cons] at h1
    simp only [json.MarshalRole, Slice.len, List.length_cons, List.length_append,
      List.length_singleton, List.length_nil]
    omega

/-- `json.Unmarshal` into a zero `Role` of what `json.Marshal` wrote for `r`
gives `r` back, unless the privileges of `r` are an empty slice that is not
nil. -/
theorem UnmarshalRole_MarshalRole (short : Bool) (r : jamfpro.Role)
    (h : r.Privileges ≠ some []) :
    json.UnmarshalRole (json.MarshalRole short r) jamfpro.Role.zero = some r := by
  have hl := MarshalRole_length short r
  rcases r with ⟨id, dn, priv⟩
  obtain ⟨ms, h1, h2⟩ := parseValue_MarshalRole short id dn priv h
    (2 * (json.MarshalRole short ⟨id, dn, priv⟩).data.length + 2) (by simp only at hl; omega)
  simp only [json.UnmarshalRole, json.parse]
  rw [h1]
  simp [json.skipSpace, json.decodeRole, h2]

/-- `json.Unmarshal` into a zero `Role` of what `json.Marshal` wrote for any
`r`: the role comes back, with privileges that were empty and not nil now
nil. -/
theorem UnmarshalRole_MarshalRole_any (short : Bool) (r : jamfpro.Role) :
    json.UnmarshalRole (json.MarshalRole short r) jamfpro.Role.zero
      = some ⟨r.ID, r.DisplayName, if r.Privileges = some [] then none else r.Privileges⟩ := by
  by_cases hp : r.Privileges = some []
  · have hsame : json.MarshalRole short r = json.MarshalRole short ⟨r.ID, r.DisplayName, none⟩ := by
      simp [json.MarshalRole, json.roleMembers, hp, Slice.len]
    rw [hsame, if_pos hp]
    exact UnmarshalRole_MarshalRole short ⟨r.ID, r.DisplayName, none⟩ (by simp)
  · rw [if_neg hp]
    exact UnmarshalRole_MarshalRole short r hp

/-! ## Lemmas on the XML model -/

theorem hasPrefixChars_append (p r : List Char) : hasPrefixChars (p ++ r) p = true := by
  induction p with
  | nil => cases r <;> rfl
  | cons a p ih => simp [hasPrefixChars, ih]

theorem xml_readText_escapeChar (c : Char) (tail : List Char) (hc : xml.isInCharacterRange c) :
    xml.readText none (xml.escapeChar c ++ tail) = xml.consChar c (xml.readText none tail) := by
  unfold xml.escapeChar
  split
  · subst_vars; rfl
  split
  · subst_vars; rfl
  split
  · subst_vars; rfl
  split
  · subst_vars; rfl
  split
  · subst_vars; rfl
  split
  · subst_vars; rfl
  split
  · subst_vars; rfl
  split
  · subst_vars; rfl
  · rename_i h1 h2 h3 h4 h5 h6 h7 h8
    simp [hc, xml.readText, h3, h4, h5, h8]

theorem xml_readText_escapeText (s rest : List Char)
    (hs : ∀ c ∈ s, xml.isInCharacterRange c = true) :
    xml.readText none (xml.escapeText s ++ '<' :: rest) = some (s, '<' :: rest) := by
  induction s with
  | nil => simp [xml.escapeText, xml.readText]
  | cons c cs ih =>
    simp only [xml.escapeText, List.append_assoc]
    rw [xml_readText_escapeChar c _ (hs c (by simp)), ih (fun x hx => hs x (by simp [hx]))]
    rfl

theorem xml_readLeaf_escapeText (name s rest : List Char)
    (hs : ∀ c ∈ s, xml.isInCharacterRange c = true) :
    xml.readLeaf name (xml.escapeText s ++ '<' :: '/' :: (name ++ '>' :: rest))
      = some (s, rest) := by
  unfold xml.readLeaf
  rw [xml_readText_escapeText s _ hs]
  simp only [xml.readEndTag]
  have h1 : name ++ '>' :: rest = (name ++ ['>']) ++ rest := by simp
  rw [h1, hasPrefixChars_append]
  simp

/-! ### Decimal numbers -/

theorem digitChar_toNat : ∀ k, k < 10 → (Nat.digitChar k).toNat = 48 + k := by
  decide

theorem toDigitsCore_append (fuel n : Nat) (ds : List Char) :
    Nat.toDigitsCore 10 fuel n ds = Nat.toDigitsCore 10 fuel n [] ++ ds := by
  induction fuel generalizing n ds with
  | zero => simp [Nat.toDigitsCore]
  | succ fuel ih =>
    simp only [Nat.toDigitsCore]
    split
    · simp
    · rw [ih (n / 10) (Nat.digitChar (n % 10) :: ds), ih (n / 10) [Nat.digitChar (n % 10)]]
      simp

/-- The step of `digitsValue`. -/
theorem digitsValue_step (base a : Nat) (c : Char) (d : Nat) (h : xml.hexVal c = some d)
    (hd : d < base) :
    (fun (acc : Option Nat) (c : Char) =>
      match acc, xml.hexVal c with
      | some a, some d => if d < base then some (a * base + d) else none
      | _, _ => none) (some a) c = some (a * base + d) := by
  simp [h, hd]

/-- The digits `Nat.repr` writes: there is one at least, all are decimal
digits, and their value is the number. -/
theorem toDigitsCore_spec (fuel n : Nat) (h : n < fuel) :
    Nat.toDigitsCore 10 fuel n [] ≠ [] ∧
    (∀ c ∈ Nat.toDigitsCore 10 fuel n [], 48 ≤ c.toNat ∧ c.toNat ≤ 57) ∧
    (Nat.toDigitsCore 10 fuel n []).foldl (fun (acc : Option Nat) (c : Char) =>
      match acc, xml.hexVal c with
      | some a, some d => if d < 10 then some (a * 10 + d) else none
      | _, _ => none) (some 0) = some n := by
  induction fuel generalizing n with
  | zero => omega
  | succ fuel ih =>
    have hk := digitChar_toNat (n % 10) (Nat.mod_lt _ (by decide))
    have hv : xml.hexVal (Nat.digitChar (n % 10)) = some (n % 10) := by
      have : n % 10 < 10 := Nat.mod_lt _ (by decide)
      simp only [xml.hexVal, hk]
      rw [if_pos (by omega)]
      congr 1
      omega
    simp only [Nat.toDigitsCore]
    split
    · rename_i h0
      refine ⟨by simp, ?_, ?_⟩
      · intro c hc
        simp only [List.mem_singleton] at hc
        subst hc
        have : n % 10 < 10 := Nat.mod_lt _ (by decide)
        omega
      · simp only [List.foldl, hv]
        have : n % 10 < 10 := Nat.mod_lt _ (by decide)
        simp only [this, if_true]
        congr 1
        omega
    · rename_i h0
      have hlt : n / 10 < fuel := by omega
      obtain ⟨_, i2, i3⟩ := ih (n / 10) hlt
      rw [toDigitsCore_append]
      refine ⟨by simp, ?_, ?_⟩
      · intro c hc
        rcases List.mem_append.mp hc with hc | hc
        · exact i2 c hc
        · simp only [List.mem_singleton] at hc
          subst hc
          have : n % 10 < 10 := Nat.mod_lt _ (by decide)
          omega
      · rw [List.foldl_append, i3]
        simp only [List.foldl, hv]
        have : n % 10 < 10 := Nat.mod_lt _ (by decide)
        simp only [this, if_true]
        congr 1
        omega

theorem digitsValue_repr (n : Nat) : xml.digitsValue 10 (Nat.repr n).data = some n := by
  obtain ⟨h1, _, h3⟩ := toDigitsCore_spec (n + 1) n (by omega)
  simp only [xml.digitsValue, Nat.repr, Nat.toDigits, List.asString]
  rw [if_neg (by simpa using h1)]
  exact h3

theorem repr_digits (n : Nat) : ∀ c ∈ (Nat.repr n).data, 48 ≤ c.toNat ∧ c.toNat ≤ 57 :=
  (toDigitsCore_spec (n + 1) n (by omega)).2.1

theorem repr_ne_nil (n : Nat) : (Nat.repr n).data ≠ [] :=
  (toDigitsCore_spec (n + 1) n (by omega)).1

theorem FormatInt_chars (n : Int) :
    ∀ c ∈ (xml.FormatInt n).data, (48 ≤ c.toNat ∧ c.toNat ≤ 57) ∨ c = '-' := by
  intro c hc
  cases n with
  | ofNat m => exact Or.inl (repr_digits m c hc)
  | negSucc m =>
    have : (xml.FormatInt (Int.negSucc m)).data = '-' :: (Nat.repr (m + 1)).data := rfl
    rw [this] at hc
    rcases List.mem_cons.mp hc with h | h
    · exact Or.inr h
    · exact Or.inl (repr_digits _ c h)

theorem escapeChar_of_digit (c : Char) (h : (48 ≤ c.toNat ∧ c.toNat ≤ 57) ∨ c = '-') :
    xml.escapeChar c = [c] ∧ xml.isInCharacterRange c = true := by
  rcases h with h | h
  · have hr : xml.isInCharacterRange c = true := by
      simp only [xml.isInCharacterRange, Bool.or_eq_true, Bool.and_eq_true, beq_iff_eq,
        decide_eq_true_eq]
      omega
    refine ⟨?_, hr⟩
    have hne : ∀ k : Char, (k.toNat < 48 ∨ 57 < k.toNat) → c ≠ k := by
      intro k hk hck
      subst hck
      omega
    simp [xml.escapeChar, hr, hne '"' (by decide), hne '\'' (by decide), hne '&' (by decide),
      hne '<' (by decide), hne '>' (by decide), hne '\t' (by decide), hne '\n' (by decide),
      hne '\r' (by decide)]
  · subst h
    exact ⟨by decide, by decide⟩

theorem escapeText_of_digits (l : List Char)
    (h : ∀ c ∈ l, (48 ≤ c.toNat ∧ c.toNat ≤ 57) ∨ c = '-') : xml.escapeText l = l := by
  induction l with
  | nil => rfl
  | cons c cs ih =>
    simp only [xml.escapeText, (escapeChar_of_digit c (h c (by simp))).1,
      ih (fun x hx => h x (by simp [hx]))]
    rfl

theorem parseIntText_FormatInt (n : Int) (h : jamfpro.isInt64 n) :
    xml.parseIntText (xml.FormatInt n).data = some n := by
  unfold jamfpro.isInt64 at h
  cases n with
  | ofNat m =>
    have hd : (xml.FormatInt (Int.ofNat m)).data = (Nat.repr m).data := rfl
    rw [hd]
    have hv := digitsValue_repr m
    have hne := repr_ne_nil m
    have hdig := repr_digits m
    rcases hl : (Nat.repr m).data with _ | ⟨c, cs⟩
    · exact absurd hl hne
    · rw [hl] at hv
      have hc : c ≠ '-' := by
        intro hc
        have := hdig c (by rw [hl]; simp)
        subst hc
        revert this
        decide
      have hm : m < 2 ^ 63 := by
        have := h.2
        simp only [Int.ofNat_eq_coe] at this
        exact_mod_cast this
      unfold xml.parseIntText
      split
      · rename_i heq; cases heq
      · rename_i ds heq
        have := (List.cons.inj heq).1
        exact absurd this hc
      · simp only [hv, hm, if_true]
        rfl
  | negSucc m =>
    have hd : (xml.FormatInt (Int.negSucc m)).data = '-' :: (Nat.repr (m + 1)).data := rfl
    rw [hd]
    have hv := digitsValue_repr (m + 1)
    have hm : m + 1 ≤ 2 ^ 63 := by
      have := h.1
      rw [Int.negSucc_eq] at this
      have h2 : ((m : Int) + 1) ≤ 2 ^ 63 := by linarith
      exact_mod_cast h2
    simp only [xml.parseIntText, hv, hm, if_true]
    rw [Int.negSucc_eq]
    push_cast
    rfl

/-! ### Documents -/

/-- One child element of the root that holds escaped text. -/
theorem readChildren_leaf (root : List Char) (c : Char) (nm : List Char) (fuel : Nat)
    (d : jamfpro.Department) (s rest : List Char)
    (hc : c ≠ '/')
    (htag : ∀ X, xml.readStartTag ('<' :: c :: (nm ++ '>' :: X)) = some (c :: nm, X))
    (hs : ∀ x ∈ s, xml.isInCharacterRange x = true) :
    xml.readChildren root (fuel + 1) d
        ('<' :: c :: (nm ++ '>' :: (xml.escapeText s ++ '<' :: '/' :: (c :: nm ++ '>' :: rest))))
      = match xml.storeChild d (c :: nm) s with
        | none => none
        | some d' => xml.readChildren root fuel d' rest := by
  have hl := xml_readLeaf_escapeText (c :: nm) s rest hs
  rw [xml.readChildren]
  have ht : ∀ X, xml.readText none ('<' :: X) = some ([], '<' :: X) := by
    intro X; simp [xml.readText]
  have he : ∀ X, xml.readEndTag root ('<' :: c :: X) = none := by
    intro X
    unfold xml.readEndTag
    split
    · rename_i heq
      have := (List.cons.inj (List.cons.inj heq).2).1
      exact absurd this hc
    · rfl
  simp only [ht, he, htag, hl]

/-- The end tag of the root ends the reading. -/
theorem readChildren_end (root : List Char) (fuel : Nat) (d : jamfpro.Department)
    (rest : List Char) :
    xml.readChildren root (fuel + 1) d ('<' :: '/' :: (root ++ '>' :: rest))
      = some (d, rest) := by
  rw [xml.readChildren]
  have ht : ∀ X, xml.readText none ('<' :: X) = some ([], '<' :: X) := by
    intro X; simp [xml.readText]
  have h1 : root ++ '>' :: rest = (root ++ ['>']) ++ rest := by simp
  simp only [ht, xml.readEndTag]
  rw [h1, hasPrefixChars_append]
  simp

/-- `xml.Unmarshal` into a zero `Department` of what `xml.Marshal` wrote for
`d` gives `d` back, if `Id` is a value of `int` and `Name` and `Href` hold
only characters XML allows. -/
theorem UnmarshalDepartment_MarshalDepartment (d : jamfpro.Department)
    (hId : jamfpro.isInt64 d.Id)
    (hName : ∀ c ∈ d.Name.data, xml.isInCharacterRange c = true)
    (hHref : ∀ c ∈ d.Href.data, xml.isInCharacterRange c = true) :
    xml.UnmarshalDepartment (xml.MarshalDepartment d) jamfpro.Department.zero = some d := by
  rcases d with ⟨id, name, href⟩
  simp only at hId hName hHref
  have hdig := FormatInt_chars id
  have hesc := escapeText_of_digits _ hdig
  have hrange : ∀ c ∈ (xml.FormatInt id).data, xml.isInCharacterRange c = true :=
    fun c hc => (escapeChar_of_digit c (hdig c hc)).2
  have hint := parseIntText_FormatInt id hId
  have tagId : ∀ X, xml.readStartTag ('<' :: 'i' :: ("d".data ++ '>' :: X))
      = some ('i' :: "d".data, X) := fun X => rfl
  have tagName : ∀ X, xml.readStartTag ('<' :: 'n' :: ("ame".data ++ '>' :: X))
      = some ('n' :: "ame".data, X) := fun X => rfl
  have tagHref : ∀ X, xml.readStartTag ('<' :: 'h' :: ("ref".data ++ '>' :: X))
      = some ('h' :: "ref".data, X) := fun X => rfl
  have tagRoot : ∀ X, xml.readStartTag ("<Department>".data ++ X)
      = some ("Department".data, X) := fun X => rfl
  have sId : ∀ dd : jamfpro.Department, xml.storeChild dd ('i' :: "d".data)
      (xml.FormatInt id).data = some { dd with Id := id } := by
    intro dd
    unfold xml.storeChild
    rw [if_pos rfl, hint]
  have sName : ∀ dd : jamfpro.Department, xml.storeChild dd ('n' :: "ame".data)
      name.data = some { dd with Name := name } := fun dd => rfl
  have sHref : ∀ dd : jamfpro.Department, xml.storeChild dd ('h' :: "ref".data)
      href.data = some { dd with Href := href } := fun dd => rfl
  unfold xml.UnmarshalDepartment
  by_cases hh : href.data.length = 0
  · have hdata : (xml.MarshalDepartment ⟨id, name, href⟩).data = "<Department>".data ++
        ('<' :: 'i' :: ("d".data ++ '>' :: (xml.escapeText (xml.FormatInt id).data ++ '<' ::
          '/' :: ('i' :: "d".data ++ '>' ::
        ('<' :: 'n' :: ("ame".data ++ '>' :: (xml.escapeText name.data ++ '<' ::
          '/' :: ('n' :: "ame".data ++ '>' ::
        ('<' :: '/' :: ("Department".data ++ '>' :: [])))))))))) := by
      rw [hesc]
      simp only [xml.MarshalDepartment, hh, if_true, List.append_assoc]
      rfl
    obtain ⟨k, hk⟩ : ∃ k, (xml.MarshalDepartment ⟨id, name, href⟩).data.length + 1 = k + 3 :=
      ⟨(xml.MarshalDepartment ⟨id, name, href⟩).data.length - 2, by
        rw [hdata]; simp only [List.length_append, List.length_cons]; omega⟩
    rw [hk, hdata, tagRoot]
    simp only
    rw [readChildren_leaf _ 'i' _ (k + 2) _ _ _ (by decide) tagId hrange, sId]
    simp only
    rw [readChildren_leaf _ 'n' _ (k + 1) _ _ _ (by decide) tagName hName, sName]
    simp only
    rw [readChildren_end]
    simp [jamfpro.Department.zero, string_eq_empty_of_length href hh]
  · have hdata : (xml.MarshalDepartment ⟨id, name, href⟩).data = "<Department>".data ++
        ('<' :: 'i' :: ("d".data ++ '>' :: (xml.escapeText (xml.FormatInt id).data ++ '<' ::
          '/' :: ('i' :: "d".data ++ '>' ::
        ('<' :: 'n' :: ("ame".data ++ '>' :: (xml.escapeText name.data ++ '<' ::
          '/' :: ('n' :: "ame".data ++ '>' ::
        ('<' :: 'h' :: ("ref".data ++ '>' :: (xml.escapeText href.data ++ '<' ::
          '/' :: ('h' :: "ref".data ++ '>' ::
        ('<' :: '/' :: ("Department".data ++ '>' :: [])))))))))))))) := by
      rw [hesc]
      simp only [xml.MarshalDepartment, hh, if_false, List.append_assoc]
      rfl
    obtain ⟨k, hk⟩ : ∃ k, (xml.MarshalDepartment ⟨id, name, href⟩).data.length + 1 = k + 4 :=
      ⟨(xml.MarshalDepartment ⟨id, name, href⟩).data.length - 3, by
        rw [hdata]; simp only [List.length_append, List.length_cons]; omega⟩
    rw [hk, hdata, tagRoot]
    simp only
    rw [readChildren_leaf _ 'i' _ (k + 3) _ _ _ (by decide) tagId hrange, sId]
    simp only
    rw [readChildren_leaf _ 'n' _ (k + 2) _ _ _ (by decide) tagName hName, sName]
    simp only
    rw [readChildren_leaf _ 'h' _ (k + 1) _ _ _ (by decide) tagHref hHref, sHref]
    simp only
    rw [readChildren_end]
    simp [jamfpro.Department.zero]

/-! ## C14, C16: JSON through the JamfPro handler -/

/-- C14 as stated fails. With the privileges an empty slice that is not nil,
`MarshalRequest` writes no "privileges" member, and decoding the bytes into a
zero `Role` leaves the privileges nil: no error, but not the role sent. -/
theorem JamfPro_round_trip_Role_empty_privileges :
    (sampleJamfPro.MarshalRequest roleEnv
        (⟨"1", "admin", some []⟩ : jamfpro.Role) "POST").data
      = some "\x7b\"id\":\"1\",\"displayName\":\"admin\"\x7d" ∧
    (sampleJamfPro.UnmarshalResponse roleEnv
        (sampleResponse "POST" 200 [("Content-Type", ["application/json"])]
          "\x7b\"id\":\"1\",\"displayName\":\"admin\"\x7d") jamfpro.Role.zero).err = none ∧
    (sampleJamfPro.UnmarshalResponse roleEnv
        (sampleResponse "POST" 200 [("Content-Type", ["application/json"])]
          "\x7b\"id\":\"1\",\"displayName\":\"admin\"\x7d") jamfpro.Role.zero).out
      = ⟨"1", "admin", none⟩ ∧
    (sampleJamfPro.UnmarshalResponse roleEnv
        (sampleResponse "POST" 200 [("Content-Type", ["application/json"])]
          "\x7b\"id\":\"1\",\"displayName\":\"admin\"\x7d") jamfpro.Role.zero).out
      ≠ ⟨"1", "admin", some []⟩ := by
  refine ⟨?_, ?_, ?_, ?_⟩ <;> decide

/-- C14, amended. For every `Role` `r` and every method,
`MarshalRequest(r, method)` of the JamfPro handler succeeds, and
`UnmarshalResponse` of a response to a request other than DELETE with status
200, Content-Type "application/json" and those bytes as body, decoding into a
zero `Role`, returns no error and yields a role with the `ID`, the
`DisplayName` and the elements of `Privileges` of `r`; it is `r` itself unless
the privileges of `r` are an empty slice that is not nil, which comes back
nil. -/
theorem JamfPro_round_trip_Role {L : Type} (short : Bool) (env : Env jamfpro.Role)
    (hlib : JsonRoleLibrary short env) (h : JamfProApiHandler L) (r : jamfpro.Role)
    (method : String) :
    ∃ bytes, (h.MarshalRequest env r method).data = some bytes ∧
      (h.MarshalRequest env r method).err = none ∧
      ∀ resp : Response, resp.Request.Method ≠ "DELETE" → resp.StatusCode = 200 →
        resp.Header.Get "Content-Type" = "application/json" → resp.Body = .ok bytes →
        (h.UnmarshalResponse env resp jamfpro.Role.zero).err = none ∧
        (h.UnmarshalResponse env resp jamfpro.Role.zero).out.ID = r.ID ∧
        (h.UnmarshalResponse env resp jamfpro.Role.zero).out.DisplayName = r.DisplayName ∧
        (h.UnmarshalResponse env resp jamfpro.Role.zero).out.Privileges.elems
          = r.Privileges.elems ∧
        (r.Privileges ≠ some [] →
          (h.UnmarshalResponse env resp jamfpro.Role.zero).out = r) ∧
        (r.Privileges = some [] →
          (h.UnmarshalResponse env resp jamfpro.Role.zero).out.Privileges = none) := by
  refine ⟨json.MarshalRole short r, ?_, ?_, ?_⟩
  · simp [JamfProApiHandler.MarshalRequest, hlib.1 r]
  · simp [JamfProApiHandler.MarshalRequest, hlib.1 r]
  · intro resp hm hs hct hb
    have hu := hlib.2 _ _ _ (UnmarshalRole_MarshalRole_any short r)
    have h1 : strings.Contains "application/json" "text/html" = false := by decide
    have h2 : strings.Contains "application/json" "application/json" = true := by decide
    simp only [JamfProApiHandler.UnmarshalResponse, if_neg hm, hb, hct, h1, h2, hs, hu]
    rcases r with ⟨id, dn, priv⟩
    by_cases hp : priv = some []
    · subst hp
      simp [Slice.elems]
    · simp [hp]

/-- C14, amended, on a role with two privileges and a display name that
needs escaping. -/
theorem JamfPro_round_trip_Role_witness :
    ∃ bytes, (sampleJamfPro.MarshalRequest roleEnv
        (⟨"7", "R&D \"ops\"", some ["Read Computers", "Update Computers"]⟩ : jamfpro.Role)
        "PUT").data = some bytes ∧
      (sampleJamfPro.MarshalRequest roleEnv
        (⟨"7", "R&D \"ops\"", some ["Read Computers", "Update Computers"]⟩ : jamfpro.Role)
        "PUT").err = none ∧
      ∀ resp : Response, resp.Request.Method ≠ "DELETE" → resp.StatusCode = 200 →
        resp.Header.Get "Content-Type" = "application/json" → resp.Body = .ok bytes →
        (sampleJamfPro.UnmarshalResponse roleEnv resp jamfpro.Role.zero).err = none ∧
        (sampleJamfPro.UnmarshalResponse roleEnv resp jamfpro.Role.zero).out
          = ⟨"7", "R&D \"ops\"", some ["Read Computers", "Update Computers"]⟩ :=
  have h := JamfPro_round_trip_Role false roleEnv
    ⟨fun _ => rfl, fun data out v hv => by simp [roleEnv, jsonModelEnv, hv]⟩
    sampleJamfPro
    (⟨"7", "R&D \"ops\"", some ["Read Computers", "Update Computers"]⟩ : jamfpro.Role) "PUT"
  h.imp fun _ hb => ⟨hb.1, hb.2.1, fun resp hm hs hct hbody =>
    ⟨(hb.2.2 resp hm hs hct hbody).1,
     (hb.2.2 resp hm hs hct hbody).2.2.2.2.1 (by decide)⟩⟩

/-- The body of an empty listing decodes to a count of 0 and an empty slice,
whatever the output held before. -/
theorem UnmarshalResponseApiRoles_empty (out : jamfpro.ResponseApiRoles) :
    json.UnmarshalResponseApiRoles "\x7b\"totalCount\":0,\"results\":[]\x7d" out
      = some ⟨0, some []⟩ := by
  rfl

/-- C16 as stated fails. A Content-Type that contains "application/json" and
"text/html" is taken for an HTML page: the handler returns an `APIError` and
does not decode the body. -/
theorem JamfPro_empty_listing_html :
    strings.Contains "application/json;text/html" "application/json" = true ∧
    (sampleJamfPro.UnmarshalResponse responseApiRolesEnv
        (sampleResponse "GET" 200 [("Content-Type", ["application/json;text/html"])]
          "\x7b\"totalCount\":0,\"results\":[]\x7d") ⟨5, none⟩).err
      = some (.apiError 200 "Unable to parse HTML content") ∧
    (sampleJamfPro.UnmarshalResponse responseApiRolesEnv
        (sampleResponse "GET" 200 [("Content-Type", ["application/json;text/html"])]
          "\x7b\"totalCount\":0,\"results\":[]\x7d") ⟨5, none⟩).out = ⟨5, none⟩ := by
  refine ⟨?_, ?_, ?_⟩ <;> decide

/-- C16, amended. For every response to a GET with a status code in 200..299,
a Content-Type that contains "application/json" and not "text/html", and the
body `{"totalCount":0,"results":[]}`, `JamfProApiHandler.UnmarshalResponse`
into a `ResponseApiRoles` returns no error and leaves `TotalCount` 0 and
`Results` an empty collection, of length 0. -/
theorem JamfPro_empty_listing {L : Type} (env : Env jamfpro.ResponseApiRoles)
    (hlib : JsonResponseApiRolesLibrary env) (h : JamfProApiHandler L) (resp : Response)
    (out : jamfpro.ResponseApiRoles)
    (hm : resp.Request.Method = "GET")
    (hs : 200 ≤ resp.StatusCode ∧ resp.StatusCode ≤ 299)
    (hct : Occurs "application/json" (resp.Header.Get "Content-Type"))
    (hhtml : ¬ Occurs "text/html" (resp.Header.Get "Content-Type"))
    (hb : resp.Body = .ok "\x7b\"totalCount\":0,\"results\":[]\x7d") :
    (h.UnmarshalResponse env resp out).err = none ∧
    (h.UnmarshalResponse env resp out).out.TotalCount = 0 ∧
    (h.UnmarshalResponse env resp out).out.Results = some [] ∧
    (h.UnmarshalResponse env resp out).out.Results.len = 0 := by
  have hu := hlib _ out _ (UnmarshalResponseApiRoles_empty out)
  have hct' := (strings_Contains_iff _ _).2 hct
  have hhtml' := (strings_Contains_eq_false_iff _ _).2 hhtml
  have hm' : resp.Request.Method ≠ "DELETE" := by rw [hm]; decide
  have hs' : ¬ (resp.StatusCode < 200 ∨ resp.StatusCode ≥ 300) := by omega
  simp only [JamfProApiHandler.UnmarshalResponse, if_neg hm', hb, hhtml', hct', if_neg hs', hu]
  simp [Slice.len]

/-- C16, amended, on a response with status 200 and the Content-Type
"application/json;charset=UTF-8", decoded into a listing that held a role. -/
theorem JamfPro_empty_listing_witness :
    (sampleJamfPro.UnmarshalResponse responseApiRolesEnv
        (sampleResponse "GET" 200 [("Content-Type", ["application/json;charset=UTF-8"])]
          "\x7b\"totalCount\":0,\"results\":[]\x7d") ⟨1, some [⟨"1", "admin", none⟩]⟩).err
      = none ∧
    (sampleJamfPro.UnmarshalResponse responseApiRolesEnv
        (sampleResponse "GET" 200 [("Content-Type", ["application/json;charset=UTF-8"])]
          "\x7b\"totalCount\":0,\"results\":[]\x7d")
        ⟨1, some [⟨"1", "admin", none⟩]⟩).out.Results.len = 0 :=
  have h := JamfPro_empty_listing responseApiRolesEnv
    (fun data out v hv => by simp [responseApiRolesEnv, jsonModelEnv, hv]) sampleJamfPro
    (sampleResponse "GET" 200 [("Content-Type", ["application/json;charset=UTF-8"])]
      "\x7b\"totalCount\":0,\"results\":[]\x7d") ⟨1, some [⟨"1", "admin", none⟩]⟩
    rfl (by decide) ((strings_Contains_iff _ _).1 (by decide))
    ((strings_Contains_eq_false_iff _ _).1 (by decide)) rfl
  ⟨h.1, h.2.2.2⟩

/-! ## C15, C17: XML through the Classic handler -/

/-- C15 as stated fails. A name with a character XML does not allow (here a
vertical tab) is written with U+FFFD in its place, so the department decoded
from the bytes has another name than the one sent. -/
theorem Classic_round_trip_Department_control_char :
    (sampleClassic.MarshalRequest departmentEnv
        (⟨3, "HR\x0b", ""⟩ : jamfpro.Department) "PUT").data
      = some "<Department><id>3</id><name>HR\uFFFD</name></Department>" ∧
    (sampleClassic.UnmarshalResponse departmentEnv
        (sampleResponse "PUT" 200 [("Content-Type", ["application/xml"])]
          "<Department><id>3</id><name>HR\uFFFD</name></Department>")
        jamfpro.Department.zero).err = none ∧
    (sampleClassic.UnmarshalResponse departmentEnv
        (sampleResponse "PUT" 200 [("Content-Type", ["application/xml"])]
          "<Department><id>3</id><name>HR\uFFFD</name></Department>")
        jamfpro.Department.zero).out = ⟨3, "HR\uFFFD", ""⟩ ∧
    (⟨3, "HR\uFFFD", ""⟩ : jamfpro.Department) ≠ ⟨3, "HR\x0b", ""⟩ := by
  refine ⟨?_, ?_, ?_, ?_⟩ <;> decide

/-- C15, amended. For every `Department` `d` whose `Id` is a value of `int`
and whose `Name` and `Href` hold only characters XML allows, and every method,
`MarshalRequest(d, method)` of the Classic handler succeeds, and
`UnmarshalResponse` of a response to a request other than DELETE with status
200, Content-Type "application/xml" and those bytes as body, decoding into a
zero `Department`, returns no error and yields `d`. -/
theorem Classic_round_trip_Department {L : Type} (env : Env jamfpro.Department)
    (hlib : XmlDepartmentLibrary env) (h : ClassicApiHandler L) (d : jamfpro.Department)
    (method : String) (hId : jamfpro.isInt64 d.Id)
    (hName : ∀ c ∈ d.Name.data, xml.isInCharacterRange c = true)
    (hHref : ∀ c ∈ d.Href.data, xml.isInCharacterRange c = true) :
    ∃ bytes, (h.MarshalRequest env d method).data = some bytes ∧
      (h.MarshalRequest env d method).err = none ∧
      ∀ resp : Response, resp.Request.Method ≠ "DELETE" → resp.StatusCode = 200 →
        resp.Header.Get "Content-Type" = "application/xml" → resp.Body = .ok bytes →
        (h.UnmarshalResponse env resp jamfpro.Department.zero).err = none ∧
        (h.UnmarshalResponse env resp jamfpro.Department.zero).out = d := by
  refine ⟨xml.MarshalDepartment d, ?_, ?_, ?_⟩
  · simp [ClassicApiHandler.MarshalRequest, hlib.1 d]
  · simp [ClassicApiHandler.MarshalRequest, hlib.1 d]
  · intro resp hm hs hct hb
    have hu := hlib.2 _ _ _ (UnmarshalDepartment_MarshalDepartment d hId hName hHref)
    have h1 : strings.Contains "application/xml" "text/html" = false := by decide
    have h2 : strings.Contains "application/xml" "application/xml" = true := by decide
    simp [ClassicApiHandler.UnmarshalResponse, hm, hs, hct, hb, hu, h1, h2]

/-- C15, amended, on a department with a negative id, a name that needs
escaping and a link. -/
theorem Classic_round_trip_Department_witness :
    ∃ bytes, (sampleClassic.MarshalRequest departmentEnv
        (⟨-12, "R&D <ops>\n", "https://x/y?a=1&b=2"⟩ : jamfpro.Department) "POST").data
        = some bytes ∧
      (sampleClassic.MarshalRequest departmentEnv
        (⟨-12, "R&D <ops>\n", "https://x/y?a=1&b=2"⟩ : jamfpro.Department) "POST").err
        = none ∧
      ∀ resp : Response, resp.Request.Method ≠ "DELETE" → resp.StatusCode = 200 →
        resp.Header.Get "Content-Type" = "application/xml" → resp.Body = .ok bytes →
        (sampleClassic.UnmarshalResponse departmentEnv resp jamfpro.Department.zero).err
          = none ∧
        (sampleClassic.UnmarshalResponse departmentEnv resp jamfpro.Department.zero).out
          = ⟨-12, "R&D <ops>\n", "https://x/y?a=1&b=2"⟩ :=
  Classic_round_trip_Department departmentEnv
    ⟨fun _ => rfl, fun data out v hv => by simp [departmentEnv, xmlModelEnv, hv]⟩
    sampleClassic _ "POST" (by decide) (by decide) (by decide)

/-- C17 as stated fails. A POST answered with status 201 and a department
document that the decoder accepts, but without a Content-Type header, is not
decoded: the handler returns "unexpected content type: " and leaves `out`. -/
theorem Classic_created_without_content_type :
    xml.UnmarshalDepartment "<department><id>7</id><name>IT</name></department>"
        jamfpro.Department.zero = some ⟨7, "IT", ""⟩ ∧
    (sampleClassic.UnmarshalResponse departmentEnv
        (sampleResponse "POST" 201 []
          "<department><id>7</id><name>IT</name></department>")
        jamfpro.Department.zero).err = some (.errorf "unexpected content type: ") ∧
    (sampleClassic.UnmarshalResponse departmentEnv
        (sampleResponse "POST" 201 []
          "<department><id>7</id><name>IT</name></department>")
        jamfpro.Department.zero).out = jamfpro.Department.zero := by
  refine ⟨?_, ?_, ?_⟩ <;> decide

/-- C17, amended. For every response to a POST with status 201 whose
Content-Type contains "application/xml" or "text/xml;charset=UTF-8" and not
"text/html", and whose body is a valid XML document for the output shape (the
decoder accepts it and stores `v`), `ClassicApiHandler.UnmarshalResponse`
returns no error and the output holds `v`, the values carried by the body. -/
theorem Classic_created {L α : Type} (env : Env α) (h : ClassicApiHandler L)
    (resp : Response) (out v : α) (body : String)
    (hm : resp.Request.Method = "POST") (hs : resp.StatusCode = 201)
    (hb : resp.Body = .ok body)
    (hx : Occurs "application/xml" (resp.Header.Get "Content-Type") ∨
      Occurs "text/xml;charset=UTF-8" (resp.Header.Get "Content-Type"))
    (hhtml : ¬ Occurs "text/html" (resp.Header.Get "Content-Type"))
    (hvalid : env.xmlUnmarshal body out = (v, none)) :
    (h.UnmarshalResponse env resp out).err = none ∧
    (h.UnmarshalResponse env resp out).out = v := by
  have hhtml' := (strings_Contains_eq_false_iff _ _).2 hhtml
  have hm' : resp.Request.Method ≠ "DELETE" := by rw [hm]; decide
  have hs' : ¬ (resp.StatusCode < 200 ∨ resp.StatusCode ≥ 300) := by omega
  have hx' : (strings.Contains (resp.Header.Get "Content-Type") "application/xml" ||
      strings.Contains (resp.Header.Get "Content-Type") "text/xml;charset=UTF-8") = true := by
    rcases hx with hx | hx
    · simp [(strings_Contains_iff _ _).2 hx]
    · simp [(strings_Contains_iff _ _).2 hx]
  simp only [ClassicApiHandler.UnmarshalResponse, if_neg hm', hb, hhtml', hx', if_neg hs',
    hvalid]
  simp

/-- C17, amended, on the answer to the creation of a department. -/
theorem Classic_created_witness :
    (sampleClassic.UnmarshalResponse departmentEnv
        (sampleResponse "POST" 201 [("Content-Type", ["text/xml;charset=UTF-8"])]
          "<department><id>7</id><name>IT</name></department>")
        jamfpro.Department.zero).err = none ∧
    (sampleClassic.UnmarshalResponse departmentEnv
        (sampleResponse "POST" 201 [("Content-Type", ["text/xml;charset=UTF-8"])]
          "<department><id>7</id><name>IT</name></department>")
        jamfpro.Department.zero).out = ⟨7, "IT", ""⟩ :=
  Classic_created departmentEnv sampleClassic
    (sampleResponse "POST" 201 [("Content-Type", ["text/xml;charset=UTF-8"])]
      "<department><id>7</id><name>IT</name></department>")
    jamfpro.Department.zero ⟨7, "IT", ""⟩
    "<department><id>7</id><name>IT</name></department>" rfl rfl rfl
    (Or.inr ((strings_Contains_iff _ _).1 (by decide)))
    ((strings_Contains_eq_false_iff _ _).1 (by decide)) (by decide)

/-! ## C19: the credentials of the client -/

/-- C19. For every client built by `NewClient` and every `OAuthCredentials`
value `c`, after `SetClientOAuthCredentials(c)` the client's
`GetOAuthCredentials` returns `c`, client id and client secret both, whatever
credentials the client was built with; the token state is reset. -/
theorem SetClientOAuthCredentials_get (config : jamfpro.Config) (c : OAuthCredentials) :
    ((jamfpro.NewClient config).SetClientOAuthCredentials c).HTTP.GetOAuthCredentials = c ∧
    ((jamfpro.NewClient config).SetClientOAuthCredentials c).HTTP.GetOAuthCredentials.ClientID
      = c.ClientID ∧
    ((jamfpro.NewClient config).SetClientOAuthCredentials
      c).HTTP.GetOAuthCredentials.ClientSecret = c.ClientSecret ∧
    ((jamfpro.NewClient config).SetClientOAuthCredentials c).HTTP.token = none :=
  ⟨rfl, rfl, rfl, rfl⟩

/-! ## C20: one refresh for concurrent callers -/

/-- Running two sequences of events one after the other. -/
theorem TokenManager_run_append (m : TokenManager) (es fs : List TokenEvent) :
    m.run (es ++ fs) = (m.run es).run fs := by
  induction es generalizing m with
  | nil => rfl
  | cons e es ih => simp [TokenManager.run, ih]

/-- Callers that enter `ensureValid` while the token is expiring: the token
stays, every caller has either not called or waits, a refresh is in flight
exactly when some caller waits, one refresh call was made exactly when a
refresh is in flight, a caller that waits keeps waiting, and every caller that
called waits. -/
theorem TokenManager_calls (calls : List (Nat × Int)) (m : TokenManager)
    (hexp : ∀ c ∈ calls, m.expiring c.2 = true)
    (hcall : ∀ (j : Nat) (x : CallerPhase), m.callers[j]? = some x → x = CallerPhase.idle ∨ x = CallerPhase.waiting)
    (hfl : m.inFlight = true ↔ ∃ j : Nat, m.callers[j]? = some CallerPhase.waiting)
    (hn : m.refreshCalls = if m.inFlight then 1 else 0) :
    (m.run (calls.map (fun c => TokenEvent.ensureValid c.1 c.2))).token = m.token ∧
    (m.run (calls.map (fun c => TokenEvent.ensureValid c.1 c.2))).callers.length =
      m.callers.length ∧
    (∀ (j : Nat) (x : CallerPhase), (m.run (calls.map (fun c => TokenEvent.ensureValid c.1 c.2))).callers[j]? = some x →
      x = CallerPhase.idle ∨ x = CallerPhase.waiting) ∧
    ((m.run (calls.map (fun c => TokenEvent.ensureValid c.1 c.2))).inFlight = true ↔
      ∃ j : Nat, (m.run (calls.map (fun c => TokenEvent.ensureValid c.1 c.2))).callers[j]? =
        some CallerPhase.waiting) ∧
    (m.run (calls.map (fun c => TokenEvent.ensureValid c.1 c.2))).refreshCalls =
      (if (m.run (calls.map (fun c => TokenEvent.ensureValid c.1 c.2))).inFlight then 1
        else 0) ∧
    (∀ j : Nat, m.callers[j]? = some CallerPhase.waiting →
      (m.run (calls.map (fun c => TokenEvent.ensureValid c.1 c.2))).callers[j]? =
        some CallerPhase.waiting) ∧
    (∀ c ∈ calls, c.1 < m.callers.length →
      (m.run (calls.map (fun c => TokenEvent.ensureValid c.1 c.2))).callers[c.1]? =
        some CallerPhase.waiting) := by
  induction calls generalizing m with
  | nil =>
    refine ⟨rfl, rfl, hcall, hfl, hn, fun j h => h, ?_⟩
    intro c hc
    simp at hc
  | cons c calls ih =>
    obtain ⟨i, now⟩ := c
    have hnow : m.expiring now = true := hexp (i, now) (by simp)
    -- the state after the first call
    have key : ∃ m', m.step (.ensureValid i now) = m' ∧ m'.token = m.token ∧
        m'.bufferPeriod = m.bufferPeriod ∧
        m'.callers.length = m.callers.length ∧
        (∀ (j : Nat) (x : CallerPhase), m'.callers[j]? = some x → x = CallerPhase.idle ∨ x = CallerPhase.waiting) ∧
        (m'.inFlight = true ↔ ∃ j : Nat, m'.callers[j]? = some CallerPhase.waiting) ∧
        (m'.refreshCalls = if m'.inFlight then 1 else 0) ∧
        (∀ j : Nat, m.callers[j]? = some CallerPhase.waiting → m'.callers[j]? = some CallerPhase.waiting) ∧
        (i < m.callers.length → m'.callers[i]? = some CallerPhase.waiting) := by
      by_cases hi : i < m.callers.length
      · have hget : m.callers[i]? = some (m.callers.get ⟨i, hi⟩) := by
          simp [List.getElem?_eq_getElem hi]
        rcases hcall i _ hget with h | h
        · -- the caller has not called yet
          rw [h] at hget
          have hself : (m.callers.set i CallerPhase.waiting)[i]? =
              some CallerPhase.waiting := by
            simp [hi]
          have hset : ∀ (j : Nat) (x : CallerPhase),
              (m.callers.set i CallerPhase.waiting)[j]? = some x →
              x = CallerPhase.idle ∨ x = CallerPhase.waiting := by
            intro j x hj
            by_cases hij : i = j
            · subst hij
              rw [hself] at hj
              cases hj
              exact Or.inr rfl
            · rw [List.getElem?_set_ne hij] at hj
              exact hcall j x hj
          have hkeep : ∀ j : Nat, m.callers[j]? = some CallerPhase.waiting →
              (m.callers.set i CallerPhase.waiting)[j]? = some CallerPhase.waiting := by
            intro j hj
            by_cases hij : i = j
            · subst hij
              exact hself
            · rw [List.getElem?_set_ne hij]
              exact hj
          by_cases hf : m.inFlight = true
          · refine ⟨{ m with callers := m.callers.set i .waiting }, ?_, rfl, rfl, by simp, hset,
              ?_, ?_, hkeep, fun _ => hself⟩
            · simp only [TokenManager.step, hget, hnow, hf, if_true]
            · simp only [hf, true_iff]
              exact ⟨i, hself⟩
            · simp only [hf, if_true]
              rw [hn, hf]; rfl
          · have hf' : m.inFlight = false := by simpa using hf
            refine ⟨{ m with inFlight := true, refreshCalls := m.refreshCalls + 1,
                             callers := m.callers.set i .waiting }, ?_, rfl, rfl, by simp, hset,
              ?_, ?_, hkeep, fun _ => hself⟩
            · simp only [TokenManager.step, hget, hnow, hf', Bool.false_eq_true, if_false,
                if_true]
            · simp only [true_iff]
              exact ⟨i, hself⟩
            · simp only [if_true]
              rw [hn, hf']; rfl
        · -- the caller waits already
          rw [h] at hget
          refine ⟨m, ?_, rfl, rfl, rfl, hcall, hfl, hn, fun j h => h, fun _ => hget⟩
          simp only [TokenManager.step, hget]
      · -- there is no such caller
        have hget : m.callers[i]? = none := List.getElem?_eq_none (by omega)
        refine ⟨m, ?_, rfl, rfl, rfl, hcall, hfl, hn, fun j h => h, fun h => absurd h hi⟩
        simp only [TokenManager.step, hget]
    obtain ⟨m', hstep, ht, hb, hlen, hcall', hfl', hn', hkeep, hself⟩ := key
    have hexp' : ∀ c ∈ calls, m'.expiring c.2 = true := by
      intro c hc
      have := hexp c (by simp [hc])
      simpa [TokenManager.expiring, ht, hb] using this
    obtain ⟨a1, a2, a3, a4, a5, a6, a7⟩ := ih m' hexp' hcall' hfl' hn'
    simp only [List.map_cons, TokenManager.run, hstep]
    refine ⟨a1.trans ht, a2.trans hlen, a3, a4, a5, fun j hj => a6 j (hkeep j hj), ?_⟩
    intro c hc hlt
    rcases List.mem_cons.1 hc with rfl | hc'
    · exact a6 _ (hself hlt)
    · exact a7 c hc' (by rw [hlen]; exact hlt)

/-- C20. For every token, buffer period and number of callers, and every
sequence of calls of `ensureValid`, each made at a time at which the token is
within the buffer period of its expiry, all made before the refresh ends: once
the refresh has ended with a result, every caller that called has returned with
that one result (the new token, or the error); when at least one caller called,
exactly one refresh network call was made; in no case more than one; and no
refresh is left in flight. -/
theorem TokenManager_single_flight (token : Token) (bufferPeriod : Int) (n : Nat)
    (calls : List (Nat × Int)) (r : RefreshResult)
    (hexp : ∀ c ∈ calls, token.expiresAt - bufferPeriod ≤ c.2) :
    (∀ c ∈ calls, c.1 < n →
      ((TokenManager.start token bufferPeriod n).run
        (TokenManager.concurrentCalls calls r)).callers[c.1]? = some (.returned r)) ∧
    ((∃ c ∈ calls, c.1 < n) →
      ((TokenManager.start token bufferPeriod n).run
        (TokenManager.concurrentCalls calls r)).refreshCalls = 1) ∧
    ((TokenManager.start token bufferPeriod n).run
        (TokenManager.concurrentCalls calls r)).refreshCalls ≤ 1 ∧
    ((TokenManager.start token bufferPeriod n).run
        (TokenManager.concurrentCalls calls r)).inFlight = false := by
  have h0 := TokenManager_calls calls (TokenManager.start token bufferPeriod n)
    (by
      intro c hc
      simpa [TokenManager.expiring, TokenManager.start] using hexp c hc)
    (by
      intro j x hj
      simp only [TokenManager.start] at hj
      rw [List.getElem?_replicate] at hj
      split at hj
      · cases hj; exact Or.inl rfl
      · cases hj)
    (by
      simp only [TokenManager.start, Bool.false_eq_true, false_iff, not_exists]
      intro j hj
      rw [List.getElem?_replicate] at hj
      split at hj <;> cases hj)
    (by simp [TokenManager.start])
  obtain ⟨a1, a2, a3, a4, a5, a6, a7⟩ := h0
  simp only [TokenManager.concurrentCalls, TokenManager_run_append]
  generalize (TokenManager.start token bufferPeriod n).run
    (calls.map (fun c => TokenEvent.ensureValid c.1 c.2)) = m at a1 a2 a3 a4 a5 a6 a7
  have hlen : (TokenManager.start token bufferPeriod n).callers.length = n := by
    simp [TokenManager.start]
  rw [hlen] at a7
  have hw : ∀ c ∈ calls, c.1 < n → m.inFlight = true := fun c hc hlt =>
    a4.2 ⟨c.1, a7 c hc hlt⟩
  simp only [TokenManager.run, TokenManager.step]
  refine ⟨?_, ?_, ?_, ?_⟩
  · intro c hc hlt
    simp only [hw c hc hlt, if_true]
    rw [List.getElem?_map, a7 c hc hlt]
    rfl
  · rintro ⟨c, hc, hlt⟩
    have := hw c hc hlt
    simp only [this, if_true]
    rw [a5, this]; rfl
  · by_cases hf : m.inFlight = true
    · simp only [hf, if_true]
      rw [a5, hf]; simp
    · have hf' : m.inFlight = false := by simpa using hf
      simp only [hf', Bool.false_eq_true, if_false]
      rw [a5, hf']; simp
  · by_cases hf : m.inFlight = true
    · simp only [hf, if_true]
    · have hf' : m.inFlight = false := by simpa using hf
      simp only [hf', Bool.false_eq_true, if_false]

/-- C20 on three callers of which the first and the third call, the first one
twice, while the token that expires at 100 is within its buffer period of 10:
one refresh call, and both receive the new token. -/
theorem TokenManager_single_flight_witness :
    ((TokenManager.start ⟨"old", 0, 100⟩ 10 3).run
      (TokenManager.concurrentCalls [(0, 95), (2, 96), (0, 97)]
        (.token ⟨"new", 97, 200⟩))).refreshCalls = 1 ∧
    ((TokenManager.start ⟨"old", 0, 100⟩ 10 3).run
      (TokenManager.concurrentCalls [(0, 95), (2, 96), (0, 97)]
        (.token ⟨"new", 97, 200⟩))).callers =
      [.returned (.token ⟨"new", 97, 200⟩), .idle, .returned (.token ⟨"new", 97, 200⟩)] :=
  ⟨(TokenManager_single_flight ⟨"old", 0, 100⟩ 10 3 [(0, 95), (2, 96), (0, 97)]
      (.token ⟨"new", 97, 200⟩) (by decide)).2.1 ⟨(0, 95), by simp, by decide⟩,
   by decide⟩

/-! ## C21: the concurrency gate -/
/-- Replacing one request changes the number of holders by what the old and
the new phase of that request contribute. -/
theorem countP_set_holds (l : List DispatchPhase) (i : Nat) (x a : DispatchPhase)
    (h : l[i]? = some x) :
    (l.set i a).countP DispatchPhase.holds + (if x.holds then 1 else 0) =
      l.countP DispatchPhase.holds + (if a.holds then 1 else 0) := by
  induction l generalizing i with
  | nil => simp at h
  | cons b l ih =>
    cases i with
    | zero =>
      simp only [List.getElem?_cons_zero, Option.some.injEq] at h
      subst h
      simp only [List.set_cons_zero, List.countP_cons]
      omega
    | succ i =>
      simp only [List.getElem?_cons_succ] at h
      have := ih i h
      simp only [List.set_cons_succ, List.countP_cons]
      omega

/-- A step keeps the limit, keeps the slots in use within the limit, and keeps
the count of slots in use equal to the number of requests holding a permit. -/
theorem RequestDispatcher_step_inv (d : RequestDispatcher) (i : Nat) (fails : Bool)
    (h1 : d.gate.inUse ≤ d.gate.MaxConcurrentRequests)
    (h2 : d.gate.inUse = d.requests.countP DispatchPhase.holds) :
    (d.step i fails).gate.MaxConcurrentRequests = d.gate.MaxConcurrentRequests ∧
    (d.step i fails).gate.inUse ≤ d.gate.MaxConcurrentRequests ∧
    (d.step i fails).gate.inUse = (d.step i fails).requests.countP DispatchPhase.holds := by
  unfold RequestDispatcher.step
  cases hx : d.requests[i]? with
  | none => exact ⟨rfl, h1, h2⟩
  | some x =>
    cases x with
    | waiting =>
      simp only
      by_cases hfree : d.gate.inUse < d.gate.MaxConcurrentRequests
      · have hc := countP_set_holds d.requests i _ (.holding .ensureValid) hx
        simp only [DispatchPhase.holds] at hc
        simp only [ConcurrencyGate.acquire, if_pos hfree]
        refine ⟨trivial, hfree, ?_⟩
        simp only [Bool.false_eq_true, if_false, if_true] at hc
        omega
      · simp only [ConcurrencyGate.acquire, if_neg hfree]
        exact ⟨trivial, h1, h2⟩
    | holding stage =>
      have hr : ∀ e, (d.requests.set i (.returned e)).countP DispatchPhase.holds + 1 =
          d.requests.countP DispatchPhase.holds := by
        intro e
        have hc := countP_set_holds d.requests i _ (.returned e) hx
        simpa [DispatchPhase.holds] using hc
      have hh : ∀ s, (d.requests.set i (.holding s)).countP DispatchPhase.holds =
          d.requests.countP DispatchPhase.holds := by
        intro s
        have hc := countP_set_holds d.requests i _ (.holding s) hx
        simpa [DispatchPhase.holds] using hc
      simp only
      by_cases hf : fails = true
      · simp only [if_pos hf, ConcurrencyGate.release]
        have := hr (some stage)
        refine ⟨trivial, by omega, by omega⟩
      · simp only [if_neg hf]
        cases hn : stage.next with
        | none =>
          simp only [ConcurrencyGate.release]
          have := hr none
          refine ⟨trivial, by omega, by omega⟩
        | some s =>
          simp only
          exact ⟨trivial, h1, by rw [hh s]; exact h2⟩
    | returned e => exact ⟨rfl, h1, h2⟩

/-- The same along a schedule. -/
theorem RequestDispatcher_run_inv (schedule : List (Nat × Bool)) (d : RequestDispatcher)
    (h1 : d.gate.inUse ≤ d.gate.MaxConcurrentRequests)
    (h2 : d.gate.inUse = d.requests.countP DispatchPhase.holds) :
    (d.run schedule).gate.MaxConcurrentRequests = d.gate.MaxConcurrentRequests ∧
    (d.run schedule).gate.inUse ≤ d.gate.MaxConcurrentRequests ∧
    (d.run schedule).gate.inUse = (d.run schedule).requests.countP DispatchPhase.holds := by
  induction schedule generalizing d with
  | nil => exact ⟨rfl, h1, h2⟩
  | cons s schedule ih =>
    obtain ⟨i, fails⟩ := s
    obtain ⟨a, b, c⟩ := RequestDispatcher_step_inv d i fails h1 h2
    have := ih (d.step i fails) (by rw [a]; exact b) c
    simp only [RequestDispatcher.run]
    rw [a] at this
    exact this

theorem countP_pos_of_holding (l : List DispatchPhase) (i : Nat) (stage : DispatchStage)
    (h : l[i]? = some (.holding stage)) : 0 < l.countP DispatchPhase.holds := by
  rw [List.countP_pos_iff]
  exact ⟨_, List.mem_iff_getElem?.2 ⟨i, h⟩, rfl⟩

/-- C21. For every limit `N`, every number of requests and every schedule of
their steps, with any stage failing: in the state reached the limit is still
`N`, the number of permits outstanding is at most `N`, and it equals the number
of requests that have acquired a permit and not yet returned, so a request that
has returned holds none. A request that holds a permit and takes its last step,
because its stage fails (at `ensureValid`, `encode`, the exchange or `decode`)
or because the last stage went well, has returned after that step and the
number of permits outstanding is one less. -/
theorem ConcurrencyGate_bounded (N n : Nat) (schedule : List (Nat × Bool)) :
    ((RequestDispatcher.start N n).run schedule).gate.MaxConcurrentRequests = N ∧
    ((RequestDispatcher.start N n).run schedule).gate.inUse ≤ N ∧
    ((RequestDispatcher.start N n).run schedule).gate.inUse =
      ((RequestDispatcher.start N n).run schedule).requests.countP DispatchPhase.holds ∧
    (∀ i stage fails,
      ((RequestDispatcher.start N n).run schedule).requests[i]? = some (.holding stage) →
      fails = true ∨ stage.next = none →
      ∃ failedAt,
        (((RequestDispatcher.start N n).run schedule).step i fails).requests[i]? =
          some (.returned failedAt) ∧
        (((RequestDispatcher.start N n).run schedule).step i fails).gate.inUse + 1 =
          ((RequestDispatcher.start N n).run schedule).gate.inUse) := by
  have h0 : (RequestDispatcher.start N n).gate.inUse =
      (RequestDispatcher.start N n).requests.countP DispatchPhase.holds := by
    simp [RequestDispatcher.start, List.countP_replicate, DispatchPhase.holds]
  obtain ⟨a, b, c⟩ := RequestDispatcher_run_inv schedule (RequestDispatcher.start N n)
    (Nat.zero_le _) h0
  refine ⟨a, b, c, ?_⟩
  intro i stage fails hx hexit
  have hpos := countP_pos_of_holding _ i stage hx
  have hlt : i < ((RequestDispatcher.start N n).run schedule).requests.length := by
    by_contra hge
    rw [List.getElem?_eq_none (by omega)] at hx
    cases hx
  unfold RequestDispatcher.step
  rw [hx]
  simp only
  by_cases hf : fails = true
  · simp only [if_pos hf, ConcurrencyGate.release]
    exact ⟨some stage, by simp [hlt], by omega⟩
  · have hn : stage.next = none := by
      rcases hexit with h | h
      · exact absurd h hf
      · exact h
    simp only [if_neg hf, hn, ConcurrencyGate.release]
    exact ⟨none, by simp [hlt], by omega⟩

/-! ## C22: a multipart body -/

/-- The loop of `String.intercalate` on a list with one more text at its end. -/
theorem intercalate_go_append (acc s : String) (l : List String) (a : String) :
    String.intercalate.go acc s (l ++ [a]) = String.intercalate.go acc s l ++ s ++ a := by
  induction l generalizing acc with
  | nil => simp [String.intercalate.go]
  | cons b l ih => simp [String.intercalate.go, ih]

/-- Joining a list with one more text at its end. -/
theorem intercalate_append_one (s : String) (l : List String) (a : String) :
    s.intercalate (l ++ [a]) = if l.isEmpty then a else s.intercalate l ++ s ++ a := by
  cases l with
  | nil => simp [String.intercalate, String.intercalate.go]
  | cons b l => simp [String.intercalate, intercalate_go_append]

/-- A writer that has written the parts `ps` and nothing else has, after
`CreatePart` and `Write`, written `ps` and the new part and nothing else. -/
theorem Writer_CreatePart_Write (B : String) (w : multipart.Writer)
    (ps : List (String × String)) (header content : String)
    (hB : w.boundary = B) (hl : w.lastpart = !ps.isEmpty)
    (hbuf : w.buf = "\r\n".intercalate
      (ps.map (fun p => "--" ++ B ++ "\r\n" ++ p.1 ++ "\r\n" ++ p.2))) :
    ((w.CreatePart header).Write content).boundary = B ∧
    ((w.CreatePart header).Write content).lastpart = !(ps ++ [(header, content)]).isEmpty ∧
    ((w.CreatePart header).Write content).buf = "\r\n".intercalate
      ((ps ++ [(header, content)]).map (fun p => "--" ++ B ++ "\r\n" ++ p.1 ++ "\r\n" ++ p.2)) := by
  refine ⟨hB, by simp [multipart.Writer.CreatePart, multipart.Writer.Write], ?_⟩
  rw [List.map_append, List.map_singleton, intercalate_append_one]
  simp only [multipart.Writer.CreatePart, multipart.Writer.Write, hB, hl, hbuf]
  cases ps with
  | nil => simp [String.intercalate, String.ext_iff, String.data_append]
  | cons p ps => simp [String.ext_iff, String.data_append]

/-- The first loop writes one part for each field, in the order visited. -/
theorem MarshalMultipartFormData_fields_spec (lib : multipart.Lib)
    (fields : List (String × String)) (w : multipart.Writer) (ps : List (String × String))
    (hB : w.boundary = lib.boundary) (hl : w.lastpart = !ps.isEmpty)
    (hbuf : w.buf = "\r\n".intercalate
      (ps.map (fun p => "--" ++ lib.boundary ++ "\r\n" ++ p.1 ++ "\r\n" ++ p.2))) :
    (MarshalMultipartFormData.fields lib w fields).boundary = lib.boundary ∧
    (MarshalMultipartFormData.fields lib w fields).lastpart =
      !(ps ++ fields.map (fun f => (lib.formFieldHeader f.1, f.2))).isEmpty ∧
    (MarshalMultipartFormData.fields lib w fields).buf = "\r\n".intercalate
      ((ps ++ fields.map (fun f => (lib.formFieldHeader f.1, f.2))).map
        (fun p => "--" ++ lib.boundary ++ "\r\n" ++ p.1 ++ "\r\n" ++ p.2)) := by
  induction fields generalizing w ps with
  | nil => simpa [MarshalMultipartFormData.fields] using ⟨hB, hl, hbuf⟩
  | cons f fields ih =>
    obtain ⟨field, value⟩ := f
    obtain ⟨h1, h2, h3⟩ := Writer_CreatePart_Write lib.boundary w ps
      (lib.formFieldHeader field) value hB hl hbuf
    have := ih ((w.CreatePart (lib.formFieldHeader field)).Write value)
      (ps ++ [(lib.formFieldHeader field, value)]) h1 h2 h3
    simpa [MarshalMultipartFormData.fields, multipart.Writer.WriteField] using this

/-- The second loop, when every file can be opened and read, writes one part
for each file and opens each path once, in the order visited. -/
theorem MarshalMultipartFormData_files_spec (lib : multipart.Lib) (fs : String → File)
    (files : List (String × String)) (w : multipart.Writer) (opened : List String)
    (ps : List (String × String))
    (hf : ∀ f ∈ files, ∃ bytes, fs f.2 = .content bytes)
    (hB : w.boundary = lib.boundary) (hl : w.lastpart = !ps.isEmpty)
    (hbuf : w.buf = "\r\n".intercalate
      (ps.map (fun p => "--" ++ lib.boundary ++ "\r\n" ++ p.1 ++ "\r\n" ++ p.2))) :
    ∃ w', MarshalMultipartFormData.files lib fs w opened files =
        (.ok w', opened ++ files.map Prod.snd) ∧
      w'.boundary = lib.boundary ∧
      w'.buf = "\r\n".intercalate
        ((ps ++ files.map (fun f : String × String => (lib.formFileHeader f.1 f.2,
            match fs f.2 with
            | .content bytes => bytes
            | _ => ""))).map
          (fun p : String × String =>
            "--" ++ lib.boundary ++ "\r\n" ++ p.1 ++ "\r\n" ++ p.2)) := by
  induction files generalizing w opened ps with
  | nil => exact ⟨w, by simp [MarshalMultipartFormData.files], hB, by simpa using hbuf⟩
  | cons f files ih =>
    obtain ⟨formField, filepath⟩ := f
    obtain ⟨bytes, hbytes⟩ := hf (formField, filepath) (by simp)
    have hbytes' : fs filepath = .content bytes := hbytes
    obtain ⟨h1, h2, h3⟩ := Writer_CreatePart_Write lib.boundary w ps
      (lib.formFileHeader formField filepath) bytes hB hl hbuf
    obtain ⟨w', e1, e2, e3⟩ := ih ((w.CreatePart (lib.formFileHeader formField filepath)).Write bytes)
      (opened ++ [filepath]) (ps ++ [(lib.formFileHeader formField filepath, bytes)])
      (fun x hx => hf x (by simp [hx])) h1 h2 h3
    refine ⟨w', ?_, e2, ?_⟩
    · simp only [MarshalMultipartFormData.files, hbytes', multipart.Writer.CreateFormFile, e1]
      simp
    · rw [e3]
      simp [hbytes']

/-- No hexadecimal digit is among the characters that need quoting. -/
theorem isLowerHex_not_tspecial (c : Char) (h : multipart.isLowerHex c = true) :
    multipart.tspecials.contains c = false := by
  by_contra hc
  have hm : c ∈ multipart.tspecials := by simpa using hc
  simp only [multipart.tspecials, List.mem_cons, List.mem_singleton, List.not_mem_nil,
    or_false] at hm
  rcases hm with rfl | rfl | rfl | rfl | rfl | rfl | rfl | rfl | rfl | rfl | rfl | rfl | rfl |
    rfl | rfl | rfl <;> exact absurd h (by decide)

/-- A boundary as `randomBoundary()` draws it is not quoted. -/
theorem FormDataContentType_of_random (w : multipart.Writer)
    (h : multipart.isRandomBoundary w.boundary = true) :
    w.FormDataContentType = "multipart/form-data; boundary=" ++ w.boundary := by
  have hall : ∀ c ∈ w.boundary.data, multipart.isLowerHex c = true := by
    simp only [multipart.isRandomBoundary, Bool.and_eq_true, List.all_eq_true] at h
    exact h.2
  have hany : w.boundary.data.any (fun c => multipart.tspecials.contains c) = false := by
    rw [List.any_eq_false]
    intro c hc
    simpa using isLowerHex_not_tspecial c (hall c hc)
  simp only [multipart.Writer.FormDataContentType, hany]
  simp


/-- C22. For every fields map and every files map, in whatever order their
entries are visited, when the boundary is one that `randomBoundary()` draws
(sixty hexadecimal digits) and every path can be opened and read:
`MarshalMultipartFormData` returns no error; the content type is
"multipart/form-data; boundary=B" for the boundary B of the writer; the body is
`multipartBody` of B and of one part for each field (with its value) followed
by one part for each file (with the bytes of the file), each behind the
delimiter line of B, with the closing delimiter of B at the end; there are as
many parts as fields and files; and `JamfProApiHandler.MarshalMultipartRequest`
returns the same body, content type and error. -/
theorem MarshalMultipartFormData_success {L : Type} (h : JamfProApiHandler L)
    (lib : multipart.Lib) (fs : String → File) (fields files : List (String × String))
    (hb : multipart.isRandomBoundary lib.boundary = true)
    (hf : ∀ f ∈ files, ∃ bytes, fs f.2 = .content bytes) :
    ((MarshalMultipartFormData lib fs fields files).err = none ∧
      (MarshalMultipartFormData lib fs fields files).contentType =
        "multipart/form-data; boundary=" ++ lib.boundary ∧
      (MarshalMultipartFormData lib fs fields files).body =
        some (multipartBody lib.boundary (multipartParts lib fs fields files)) ∧
      (multipartParts lib fs fields files).length = fields.length + files.length) ∧
    ((h.MarshalMultipartRequest lib fs fields files).body =
        (MarshalMultipartFormData lib fs fields files).body ∧
      (h.MarshalMultipartRequest lib fs fields files).contentType =
        (MarshalMultipartFormData lib fs fields files).contentType ∧
      (h.MarshalMultipartRequest lib fs fields files).err =
        (MarshalMultipartFormData lib fs fields files).err) := by
  refine ⟨?_, rfl, rfl, rfl⟩
  obtain ⟨h1, h2, h3⟩ := MarshalMultipartFormData_fields_spec lib fields
    (multipart.NewWriter lib) [] rfl rfl rfl
  obtain ⟨w', e1, e2, e3⟩ := MarshalMultipartFormData_files_spec lib fs files
    (MarshalMultipartFormData.fields lib (multipart.NewWriter lib) fields) []
    ([] ++ fields.map (fun f => (lib.formFieldHeader f.1, f.2))) hf h1 h2 h3
  have hct := FormDataContentType_of_random w' (by rw [e2]; exact hb)
  have hr : MarshalMultipartFormData lib fs fields files =
      { body := some w'.Close.buf, contentType := w'.FormDataContentType, err := none,
        opened := [] ++ files.map Prod.snd, logs := [] } := by
    simp only [MarshalMultipartFormData, e1]
  rw [hr]
  refine ⟨rfl, by rw [hct, e2], ?_, by simp [multipartParts]⟩
  simp only [multipart.Writer.Close, e3, e2, multipartBody, multipartParts, List.nil_append]

set_option maxRecDepth 100000 in
/-- C22 on one field and one file: the body, byte for byte, and the content
type. -/
theorem MarshalMultipartFormData_success_witness :
    (MarshalMultipartFormData sampleLib sampleFiles [("name", "icon")]
        [("file", "/tmp/icon.png")]).body =
      some ("--0123456789abcdef0123456789abcdef0123456789abcdef0123456789ab\r\n" ++
        "Content-Disposition: form-data; name=\"name\"\r\n\r\nicon\r\n" ++
        "--0123456789abcdef0123456789abcdef0123456789abcdef0123456789ab\r\n" ++
        "Content-Disposition: form-data; name=\"file\"; filename=\"/tmp/icon.png\"\r\n" ++
        "Content-Type: application/octet-stream\r\n\r\nPNG\r\n" ++
        "--0123456789abcdef0123456789abcdef0123456789abcdef0123456789ab--\r\n") ∧
    (MarshalMultipartFormData sampleLib sampleFiles [("name", "icon")]
        [("file", "/tmp/icon.png")]).contentType =
      "multipart/form-data; boundary=0123456789abcdef0123456789abcdef0123456789abcdef0123456789ab" :=
  ⟨((MarshalMultipartFormData_success sampleJamfPro sampleLib sampleFiles [("name", "icon")]
      [("file", "/tmp/icon.png")] (by decide)
      (by intro f hf; simp at hf; subst hf; exact ⟨"PNG", rfl⟩)).1.2.2.1).trans (by decide),
   (MarshalMultipartFormData_success sampleJamfPro sampleLib sampleFiles [("name", "icon")]
      [("file", "/tmp/icon.png")] (by decide)
      (by intro f hf; simp at hf; subst hf; exact ⟨"PNG", rfl⟩)).1.2.1⟩

/-! ## C23: a body that does not decode -/

/-- C23. For every response to a request other than DELETE whose body reads as
`body`, whose status code is in 200..299 and whose Content-Type is the
structured type of the handler (Classic: contains "application/xml" or
"text/xml;charset=UTF-8"; JamfPro: contains "application/json") and does not
contain "text/html": when the decoder fails on the body with the parser error
`perr`, then, if the body does not contain "<html>", `UnmarshalResponse`
returns the error "failed to unmarshal XML response: <perr>" (Classic) or
"failed to unmarshal JSON response: <perr>" (JamfPro); if it does, the error is
the one made from the text taken from the page; the warning of the HTML
fallback is logged if and only if the body contains "<html>"; and for the empty
body the error is the decode error. -/
theorem UnmarshalResponse_decode_error {L α : Type} (env : Env α) (hc : ClassicApiHandler L)
    (hj : JamfProApiHandler L) (resp : Response) (out : α) (body : String)
    (hm : resp.Request.Method ≠ "DELETE") (hb : resp.Body = .ok body)
    (hhtml : ¬ Occurs "text/html" (resp.Header.Get "Content-Type"))
    (hs : 200 ≤ resp.StatusCode ∧ resp.StatusCode < 300) :
    (Occurs "application/xml" (resp.Header.Get "Content-Type") ∨
        Occurs "text/xml;charset=UTF-8" (resp.Header.Get "Content-Type") →
      ∀ out' perr, env.xmlUnmarshal body out = (out', some perr) →
        (¬ Occurs "<html>" body →
          (hc.UnmarshalResponse env resp out).err =
            some (.errorf ("failed to unmarshal XML response: " ++ perr))) ∧
        (Occurs "<html>" body →
          (hc.UnmarshalResponse env resp out).err =
            some (fmt.Errorf0 (env.extractErrorMessageFromHTML body))) ∧
        (Occurs "<html>" body ↔
          ⟨.Warn, "Received HTML content instead of expected XML",
            [.str "error_message", .str (env.extractErrorMessageFromHTML body),
             .str "status_code", .int resp.StatusCode]⟩ ∈
            (hc.UnmarshalResponse env resp out).logs) ∧
        (body = "" →
          (hc.UnmarshalResponse env resp out).err =
            some (.errorf ("failed to unmarshal XML response: " ++ perr)))) ∧
    (Occurs "application/json" (resp.Header.Get "Content-Type") →
      ∀ out' perr, env.jsonUnmarshal body out = (out', some perr) →
        (¬ Occurs "<html>" body →
          (hj.UnmarshalResponse env resp out).err =
            some (.errorf ("failed to unmarshal JSON response: " ++ perr))) ∧
        (Occurs "<html>" body →
          (hj.UnmarshalResponse env resp out).err =
            some (fmt.Errorf0 (env.extractErrorMessageFromHTML body))) ∧
        (Occurs "<html>" body ↔
          ⟨.Warn, "Received HTML content instead of expected JSON",
            [.str "error_message", .str (env.extractErrorMessageFromHTML body),
             .str "status_code", .int resp.StatusCode]⟩ ∈
            (hj.UnmarshalResponse env resp out).logs) ∧
        (body = "" →
          (hj.UnmarshalResponse env resp out).err =
            some (.errorf ("failed to unmarshal JSON response: " ++ perr)))) := by
  have hhtml' := (strings_Contains_eq_false_iff _ _).2 hhtml
  have hs' : ¬ (resp.StatusCode < 200 ∨ resp.StatusCode ≥ 300) := by omega
  have hempty : ¬ Occurs "<html>" "" := (strings_Contains_eq_false_iff _ _).1 (by decide)
  constructor
  · intro hx out' perr hu
    have hx' : (strings.Contains (resp.Header.Get "Content-Type") "application/xml" ||
        strings.Contains (resp.Header.Get "Content-Type") "text/xml;charset=UTF-8") = true := by
      rcases hx with h | h
      · simp [(strings_Contains_iff _ _).2 h]
      · simp [(strings_Contains_iff _ _).2 h]
    have key : ∀ b : Bool, strings.Contains body "<html>" = b →
        ((hc.UnmarshalResponse env resp out).err =
          if b then some (fmt.Errorf0 (env.extractErrorMessageFromHTML body))
          else some (.errorf ("failed to unmarshal XML response: " ++ perr))) ∧
        (⟨.Warn, "Received HTML content instead of expected XML",
            [.str "error_message", .str (env.extractErrorMessageFromHTML body),
             .str "status_code", .int resp.StatusCode]⟩ ∈
            (hc.UnmarshalResponse env resp out).logs ↔ b = true) := by
      intro b hbb
      simp only [ClassicApiHandler.UnmarshalResponse, if_neg hm, hb, hhtml', hx', if_neg hs', hu,
        hbb]
      cases b <;> simp [readLogs]
    refine ⟨fun hn => ?_, fun hy => ?_, ?_, fun he => ?_⟩
    · simpa using (key false ((strings_Contains_eq_false_iff _ _).2 hn)).1
    · simpa using (key true ((strings_Contains_iff _ _).2 hy)).1
    · rw [(key _ rfl).2, strings_Contains_iff]
    · subst he
      simpa using (key false ((strings_Contains_eq_false_iff _ _).2 hempty)).1
  · intro hx out' perr hu
    have hx' := (strings_Contains_iff _ _).2 hx
    have key : ∀ b : Bool, strings.Contains body "<html>" = b →
        ((hj.UnmarshalResponse env resp out).err =
          if b then some (fmt.Errorf0 (env.extractErrorMessageFromHTML body))
          else some (.errorf ("failed to unmarshal JSON response: " ++ perr))) ∧
        (⟨.Warn, "Received HTML content instead of expected JSON",
            [.str "error_message", .str (env.extractErrorMessageFromHTML body),
             .str "status_code", .int resp.StatusCode]⟩ ∈
            (hj.UnmarshalResponse env resp out).logs ↔ b = true) := by
      intro b hbb
      simp only [JamfProApiHandler.UnmarshalResponse, if_neg hm, hb, hhtml', hx', if_neg hs', hu,
        hbb]
      cases b <;> simp [readLogs]
    refine ⟨fun hn => ?_, fun hy => ?_, ?_, fun he => ?_⟩
    · simpa using (key false ((strings_Contains_eq_false_iff _ _).2 hn)).1
    · simpa using (key true ((strings_Contains_iff _ _).2 hy)).1
    · rw [(key _ rfl).2, strings_Contains_iff]
    · subst he
      simpa using (key false ((strings_Contains_eq_false_iff _ _).2 hempty)).1

/-- C23 on an empty body for the Classic handler and on a body that is no JSON
for the JamfPro handler, both answered with status 200. -/
theorem UnmarshalResponse_decode_error_witness :
    (sampleClassic.UnmarshalResponse sampleEnv
        (sampleResponse "GET" 200 [("Content-Type", ["application/xml"])] "") "x").err =
      some (.errorf ("failed to unmarshal XML response: " ++ "EOF")) ∧
    (sampleJamfPro.UnmarshalResponse sampleEnv
        (sampleResponse "GET" 200 [("Content-Type", ["application/json"])] "oops") "x").err =
      some (.errorf ("failed to unmarshal JSON response: " ++
        "invalid character 'o' looking for beginning of value")) :=
  ⟨((UnmarshalResponse_decode_error sampleEnv sampleClassic sampleJamfPro
      (sampleResponse "GET" 200 [("Content-Type", ["application/xml"])] "") "x" ""
      (by decide) rfl ((strings_Contains_eq_false_iff _ _).1 (by decide)) (by decide)).1
      (Or.inl ((strings_Contains_iff _ _).1 (by decide))) "x" _ rfl).2.2.2 rfl,
   ((UnmarshalResponse_decode_error sampleEnv sampleClassic sampleJamfPro
      (sampleResponse "GET" 200 [("Content-Type", ["application/json"])] "oops") "x" "oops"
      (by decide) rfl ((strings_Contains_eq_false_iff _ _).1 (by decide)) (by decide)).2
      ((strings_Contains_iff _ _).1 (by decide)) "x" _ rfl).1
      ((strings_Contains_eq_false_iff _ _).1 (by decide))⟩

/-! ## C24: logging does not alter results -/

/-- C24. For any two handlers of the same kind, whatever their loggers, log
levels and debug modes, and for every library, body, response and `out`:
`MarshalRequest` returns the same bytes and the same error, also for two
different method strings, and `UnmarshalResponse` returns the same error and
leaves the same value in `out`. -/
theorem logging_does_not_alter_results {L α : Type} (env : Env α)
    (handler handler' : APIHandler L) (body : α) (method method' : String)
    (resp : Response) (out : α) (hk : handler.kind = handler'.kind) :
    ((handler.MarshalRequest env body method).data =
        (handler'.MarshalRequest env body method').data ∧
      (handler.MarshalRequest env body method).err =
        (handler'.MarshalRequest env body method').err) ∧
    ((handler.UnmarshalResponse env resp out).err =
        (handler'.UnmarshalResponse env resp out).err ∧
      (handler.UnmarshalResponse env resp out).out =
        (handler'.UnmarshalResponse env resp out).out) := by
  cases handler <;> cases handler' <;> simp [APIHandler.kind] at hk
  · refine ⟨?_, rfl, rfl⟩
    simp only [APIHandler.MarshalRequest, ClassicApiHandler.MarshalRequest]
    cases env.xmlMarshal body <;> simp
  · refine ⟨?_, rfl, rfl⟩
    simp only [APIHandler.MarshalRequest, JamfProApiHandler.MarshalRequest]
    cases env.jsonMarshal body <;> simp
  · exact ⟨⟨rfl, rfl⟩, rfl, rfl⟩

/-- C24 on two JamfPro handlers, one silent and one in debug mode, and the
methods GET and POST: the same bytes and error, while the logs differ. -/
theorem logging_does_not_alter_results_witness :
    (((APIHandler.jamfPro ⟨⟨0⟩, false⟩ : APIHandler Nat).MarshalRequest sampleEnv "x" "GET").data =
        ((APIHandler.jamfPro ⟨⟨5⟩, true⟩ : APIHandler Nat).MarshalRequest sampleEnv "x" "POST").data ∧
      ((APIHandler.jamfPro ⟨⟨0⟩, false⟩ : APIHandler Nat).MarshalRequest sampleEnv "x" "GET").err =
        ((APIHandler.jamfPro ⟨⟨5⟩, true⟩ : APIHandler Nat).MarshalRequest sampleEnv "x" "POST").err) ∧
    ((APIHandler.jamfPro ⟨⟨0⟩, false⟩ : APIHandler Nat).MarshalRequest sampleEnv "x" "GET").logs ≠
      ((APIHandler.jamfPro ⟨⟨5⟩, true⟩ : APIHandler Nat).MarshalRequest sampleEnv "x" "POST").logs :=
  ⟨(logging_does_not_alter_results sampleEnv (.jamfPro ⟨⟨0⟩, false⟩) (.jamfPro ⟨⟨5⟩, true⟩)
      "x" "GET" "POST" (sampleResponse "GET" 200 [] "") "x" rfl).1, by decide⟩

/-! ## C25: the ID of a department by its name -/

/-- The loop returns at the first department of the name. -/
theorem GetDepartmentIdByName_loop_found (name : String) (pre : List jamfpro.Department)
    (d : jamfpro.Department) (post : List jamfpro.Department)
    (hpre : ∀ x ∈ pre, x.Name ≠ name) (hd : d.Name = name) :
    jamfpro.GetDepartmentIdByName.loop name (pre ++ d :: post) = (d.Id, none) := by
  induction pre with
  | nil => simp [jamfpro.GetDepartmentIdByName.loop, hd]
  | cons a pre ih =>
    have ha : a.Name ≠ name := hpre a (by simp)
    simp only [List.cons_append, jamfpro.GetDepartmentIdByName.loop, if_neg ha]
    exact ih (fun x hx => hpre x (by simp [hx]))

/-- The loop ends with the error exactly when no department has the name. -/
theorem GetDepartmentIdByName_loop_none (name : String) (l : List jamfpro.Department) :
    jamfpro.GetDepartmentIdByName.loop name l =
        (0, some (.errorf ("department with name " ++ name ++ " not found"))) ↔
      ∀ d ∈ l, d.Name ≠ name := by
  induction l with
  | nil => simp [jamfpro.GetDepartmentIdByName.loop]
  | cons a l ih =>
    by_cases ha : a.Name = name
    · simp [jamfpro.GetDepartmentIdByName.loop, ha]
    · simp [jamfpro.GetDepartmentIdByName.loop, ha, ih]

/-- C25. For every name: when `GetDepartments` succeeds with a list,
`GetDepartmentIdByName` returns `(Id, nil)` for the first entry of the list
whose `Name` equals the name, and it returns `(0, error "department with name
<name> not found")` if and only if no entry has the name; when the request of
`GetDepartments` fails, `GetDepartments` returns "failed to fetch departments:
<text of the error>" and `GetDepartmentIdByName` returns 0 and that same
error. -/
theorem GetDepartmentIdByName_spec (t : jamfpro.Transport) (name : String) :
    (∀ departmentsList, t.departments "GET" jamfpro.uriDepartments = .ok departmentsList →
      (∀ pre d post, departmentsList.Results.elems = pre ++ d :: post →
        (∀ x ∈ pre, x.Name ≠ name) → d.Name = name →
        jamfpro.GetDepartmentIdByName t name = (d.Id, none)) ∧
      (jamfpro.GetDepartmentIdByName t name =
          (0, some (.errorf ("department with name " ++ name ++ " not found"))) ↔
        ∀ d ∈ departmentsList.Results.elems, d.Name ≠ name)) ∧
    (∀ err, t.departments "GET" jamfpro.uriDepartments = .error err →
      (jamfpro.GetDepartments t).err =
          some (.errorf ("failed to fetch departments: " ++ t.errorText err)) ∧
        jamfpro.GetDepartmentIdByName t name = (0, (jamfpro.GetDepartments t).err)) := by
  constructor
  · intro l hl
    have h : jamfpro.GetDepartmentIdByName t name =
        jamfpro.GetDepartmentIdByName.loop name l.Results.elems := by
      simp [jamfpro.GetDepartmentIdByName, jamfpro.GetDepartments, hl]
    rw [h]
    refine ⟨fun pre d post hsplit hpre hd => ?_, GetDepartmentIdByName_loop_none name _⟩
    rw [hsplit]
    exact GetDepartmentIdByName_loop_found name pre d post hpre hd
  · intro err he
    simp [jamfpro.GetDepartmentIdByName, jamfpro.GetDepartments, he]


/-! ## C26: roles by their name -/

/-- The loop of `GetJamfApiRolesNameById` stops at the first role of the name
and returns what `GetJamfApiRolesByID` returns for its ID. -/
theorem GetJamfApiRolesNameById_loop_found (t : jamfpro.Transport) (name : String)
    (pre : List jamfpro.Role) (r : jamfpro.Role) (post : List jamfpro.Role)
    (hpre : ∀ x ∈ pre, x.DisplayName ≠ name) (hr : r.DisplayName = name) :
    (jamfpro.GetJamfApiRolesNameById.loop t name (pre ++ r :: post)).calls =
        (jamfpro.GetJamfApiRolesByID t r.ID).calls ∧
      (jamfpro.GetJamfApiRolesNameById.loop t name (pre ++ r :: post)).value =
        (jamfpro.GetJamfApiRolesByID t r.ID).value ∧
      (jamfpro.GetJamfApiRolesNameById.loop t name (pre ++ r :: post)).err =
        (jamfpro.GetJamfApiRolesByID t r.ID).err := by
  induction pre with
  | nil => simp [jamfpro.GetJamfApiRolesNameById.loop, hr]
  | cons a pre ih =>
    have ha : a.DisplayName ≠ name := hpre a (by simp)
    simp only [List.cons_append, jamfpro.GetJamfApiRolesNameById.loop, if_neg ha]
    exact ih (fun x hx => hpre x (by simp [hx]))

/-- The loop of `GetJamfApiRolesNameById` makes no call when no role has the
name. -/
theorem GetJamfApiRolesNameById_loop_none (t : jamfpro.Transport) (name : String)
    (l : List jamfpro.Role) (h : ∀ x ∈ l, x.DisplayName ≠ name) :
    (jamfpro.GetJamfApiRolesNameById.loop t name l).calls = [] ∧
      (jamfpro.GetJamfApiRolesNameById.loop t name l).value = none ∧
      (jamfpro.GetJamfApiRolesNameById.loop t name l).err =
        some (.errorf ("no Jamf API role found with the name " ++ name)) := by
  induction l with
  | nil => simp [jamfpro.GetJamfApiRolesNameById.loop]
  | cons a l ih =>
    have ha : a.DisplayName ≠ name := h a (by simp)
    simp only [jamfpro.GetJamfApiRolesNameById.loop, if_neg ha]
    exact ih (fun x hx => h x (by simp [hx]))

/-- The loop of `UpdateJamfApiRoleByName` stops at the first role of the name. -/
theorem UpdateJamfApiRoleByName_loop_found (t : jamfpro.Transport) (name : String)
    (u : jamfpro.Role) (pre : List jamfpro.Role) (r : jamfpro.Role) (post : List jamfpro.Role)
    (hpre : ∀ x ∈ pre, x.DisplayName ≠ name) (hr : r.DisplayName = name) :
    jamfpro.UpdateJamfApiRoleByName.loop t name u (pre ++ r :: post) =
      jamfpro.UpdateJamfApiRoleByID t r.ID u := by
  induction pre with
  | nil => simp [jamfpro.UpdateJamfApiRoleByName.loop, hr]
  | cons a pre ih =>
    have ha : a.DisplayName ≠ name := hpre a (by simp)
    simp only [List.cons_append, jamfpro.UpdateJamfApiRoleByName.loop, if_neg ha]
    exact ih (fun x hx => hpre x (by simp [hx]))

/-- The loop of `UpdateJamfApiRoleByName` makes no call when no role has the
name. -/
theorem UpdateJamfApiRoleByName_loop_none (t : jamfpro.Transport) (name : String)
    (u : jamfpro.Role) (l : List jamfpro.Role) (h : ∀ x ∈ l, x.DisplayName ≠ name) :
    jamfpro.UpdateJamfApiRoleByName.loop t name u l =
      { value := none,
        err := some (.errorf ("no Jamf API role found with the name " ++ name)),
        calls := [], stdout := [] } := by
  induction l with
  | nil => simp [jamfpro.UpdateJamfApiRoleByName.loop]
  | cons a l ih =>
    have ha : a.DisplayName ≠ name := h a (by simp)
    simp only [jamfpro.UpdateJamfApiRoleByName.loop, if_neg ha]
    exact ih (fun x hx => h x (by simp [hx]))

/-- The loop of `DeleteJamfApiRoleByName` stops at the first role of the name. -/
theorem DeleteJamfApiRoleByName_loop_found (t : jamfpro.Transport) (name : String)
    (pre : List jamfpro.Role) (r : jamfpro.Role) (post : List jamfpro.Role)
    (hpre : ∀ x ∈ pre, x.DisplayName ≠ name) (hr : r.DisplayName = name) :
    jamfpro.DeleteJamfApiRoleByName.loop t name (pre ++ r :: post) =
      jamfpro.DeleteJamfApiRoleByID t r.ID := by
  induction pre with
  | nil => simp [jamfpro.DeleteJamfApiRoleByName.loop, hr]
  | cons a pre ih =>
    have ha : a.DisplayName ≠ name := hpre a (by simp)
    simp only [List.cons_append, jamfpro.DeleteJamfApiRoleByName.loop, if_neg ha]
    exact ih (fun x hx => hpre x (by simp [hx]))

/-- The loop of `DeleteJamfApiRoleByName` makes no call when no role has the
name. -/
theorem DeleteJamfApiRoleByName_loop_none (t : jamfpro.Transport) (name : String)
    (l : List jamfpro.Role) (h : ∀ x ∈ l, x.DisplayName ≠ name) :
    jamfpro.DeleteJamfApiRoleByName.loop t name l =
      { value := none,
        err := some (.errorf ("no Jamf API role found with the name " ++ name)),
        calls := [], stdout := [] } := by
  induction l with
  | nil => simp [jamfpro.DeleteJamfApiRoleByName.loop]
  | cons a l ih =>
    have ha : a.DisplayName ≠ name := h a (by simp)
    simp only [jamfpro.DeleteJamfApiRoleByName.loop, if_neg ha]
    exact ih (fun x hx => h x (by simp [hx]))

/-- Each operation by ID makes one call, to "/api/v1/api-roles/" followed by
the ID. -/
theorem byID_calls (t : jamfpro.Transport) (id : String) (u : jamfpro.Role) :
    (jamfpro.GetJamfApiRolesByID t id).calls = [⟨"GET", "/api/v1/api-roles/" ++ id⟩] ∧
    (jamfpro.UpdateJamfApiRoleByID t id u).calls = [⟨"PUT", "/api/v1/api-roles/" ++ id⟩] ∧
    (jamfpro.DeleteJamfApiRoleByID t id).calls = [⟨"DELETE", "/api/v1/api-roles/" ++ id⟩] := by
  have he : jamfpro.roleEndpoint id = "/api/v1/api-roles/" ++ id := by
    simp [jamfpro.roleEndpoint, jamfpro.uriApiRoles, String.ext_iff, String.data_append]
  refine ⟨?_, ?_, ?_⟩
  · simp only [jamfpro.GetJamfApiRolesByID, he]; split <;> rfl
  · simp only [jamfpro.UpdateJamfApiRoleByID, he]; split <;> rfl
  · simp only [jamfpro.DeleteJamfApiRoleByID, he]; split <;> rfl

/-- C26. Given a successful listing of the roles, for
`GetJamfApiRolesNameById`, `UpdateJamfApiRoleByName` and
`DeleteJamfApiRoleByName`: when some listed role has the display name, the calls
of `DoRequest` are the listing and then exactly one call by ID (GET, PUT or
DELETE), to "/api/v1/api-roles/<ID>" for the ID of the first listed role whose
`DisplayName` equals the name, and what is returned is what the operation by ID
returns; when no listed role has the name, the listing is the only call and the
error "no Jamf API role found with the name <name>" is returned. -/
theorem role_by_name_operations (t : jamfpro.Transport) (name : String)
    (updatedRole : jamfpro.Role) (rolesList : jamfpro.ResponseApiRoles)
    (hl : t.roles "GET" jamfpro.uriApiRoles = .ok rolesList) :
    (∀ pre r post, rolesList.Results.elems = pre ++ r :: post →
      (∀ x ∈ pre, x.DisplayName ≠ name) → r.DisplayName = name →
      ((jamfpro.GetJamfApiRolesNameById t name).calls =
          [⟨"GET", "/api/v1/api-roles"⟩, ⟨"GET", "/api/v1/api-roles/" ++ r.ID⟩] ∧
        (jamfpro.GetJamfApiRolesNameById t name).value =
          (jamfpro.GetJamfApiRolesByID t r.ID).value ∧
        (jamfpro.GetJamfApiRolesNameById t name).err =
          (jamfpro.GetJamfApiRolesByID t r.ID).err) ∧
      ((jamfpro.UpdateJamfApiRoleByName t name updatedRole).calls =
          [⟨"GET", "/api/v1/api-roles"⟩, ⟨"PUT", "/api/v1/api-roles/" ++ r.ID⟩] ∧
        (jamfpro.UpdateJamfApiRoleByName t name updatedRole).value =
          (jamfpro.UpdateJamfApiRoleByID t r.ID updatedRole).value ∧
        (jamfpro.UpdateJamfApiRoleByName t name updatedRole).err =
          (jamfpro.UpdateJamfApiRoleByID t r.ID updatedRole).err) ∧
      ((jamfpro.DeleteJamfApiRoleByName t name).calls =
          [⟨"GET", "/api/v1/api-roles"⟩, ⟨"DELETE", "/api/v1/api-roles/" ++ r.ID⟩] ∧
        (jamfpro.DeleteJamfApiRoleByName t name).err =
          (jamfpro.DeleteJamfApiRoleByID t r.ID).err)) ∧
    ((∀ x ∈ rolesList.Results.elems, x.DisplayName ≠ name) →
      ((jamfpro.GetJamfApiRolesNameById t name).calls = [⟨"GET", "/api/v1/api-roles"⟩] ∧
        (jamfpro.GetJamfApiRolesNameById t name).value = none ∧
        (jamfpro.GetJamfApiRolesNameById t name).err =
          some (.errorf ("no Jamf API role found with the name " ++ name))) ∧
      ((jamfpro.UpdateJamfApiRoleByName t name updatedRole).calls =
          [⟨"GET", "/api/v1/api-roles"⟩] ∧
        (jamfpro.UpdateJamfApiRoleByName t name updatedRole).value = none ∧
        (jamfpro.UpdateJamfApiRoleByName t name updatedRole).err =
          some (.errorf ("no Jamf API role found with the name " ++ name))) ∧
      ((jamfpro.DeleteJamfApiRoleByName t name).calls = [⟨"GET", "/api/v1/api-roles"⟩] ∧
        (jamfpro.DeleteJamfApiRoleByName t name).err =
          some (.errorf ("no Jamf API role found with the name " ++ name)))) := by
  have hg : jamfpro.GetJamfAPIRoles t =
      { value := some rolesList, err := none, calls := [⟨"GET", "/api/v1/api-roles"⟩],
        stdout := [] } := by
    simp only [jamfpro.GetJamfAPIRoles, hl]
    rfl
  constructor
  · intro pre r post hsplit hpre hr
    obtain ⟨c1, c2, c3⟩ := byID_calls t r.ID updatedRole
    obtain ⟨g1, g2, g3⟩ := GetJamfApiRolesNameById_loop_found t name pre r post hpre hr
    have hu := UpdateJamfApiRoleByName_loop_found t name updatedRole pre r post hpre hr
    have hd := DeleteJamfApiRoleByName_loop_found t name pre r post hpre hr
    refine ⟨⟨?_, ?_, ?_⟩, ⟨?_, ?_, ?_⟩, ?_, ?_⟩
    · simp [jamfpro.GetJamfApiRolesNameById, hg, hsplit, g1, c1]
    · simp [jamfpro.GetJamfApiRolesNameById, hg, hsplit, g2]
    · simp [jamfpro.GetJamfApiRolesNameById, hg, hsplit, g3]
    · simp [jamfpro.UpdateJamfApiRoleByName, hg, hsplit, hu, c2]
    · simp [jamfpro.UpdateJamfApiRoleByName, hg, hsplit, hu]
    · simp [jamfpro.UpdateJamfApiRoleByName, hg, hsplit, hu]
    · simp [jamfpro.DeleteJamfApiRoleByName, hg, hsplit, hd, c3]
    · simp [jamfpro.DeleteJamfApiRoleByName, hg, hsplit, hd]
  · intro hnone
    obtain ⟨g1, g2, g3⟩ := GetJamfApiRolesNameById_loop_none t name _ hnone
    have hu := UpdateJamfApiRoleByName_loop_none t name updatedRole _ hnone
    have hd := DeleteJamfApiRoleByName_loop_none t name _ hnone
    refine ⟨⟨?_, ?_, ?_⟩, ⟨?_, ?_, ?_⟩, ?_, ?_⟩
    · simp [jamfpro.GetJamfApiRolesNameById, hg, g1]
    · simp [jamfpro.GetJamfApiRolesNameById, hg, g2]
    · simp [jamfpro.GetJamfApiRolesNameById, hg, g3]
    · simp [jamfpro.UpdateJamfApiRoleByName, hg, hu]
    · simp [jamfpro.UpdateJamfApiRoleByName, hg, hu]
    · simp [jamfpro.UpdateJamfApiRoleByName, hg, hu]
    · simp [jamfpro.DeleteJamfApiRoleByName, hg, hd]
    · simp [jamfpro.DeleteJamfApiRoleByName, hg, hd]

/-- C26 on a listing in which the roles "7" and "9" are both named "Admin": one
call by ID, for "7"; and on a name no role has: no call by ID. -/
theorem role_by_name_operations_witness :
    (jamfpro.DeleteJamfApiRoleByName sampleTransport "Admin").calls =
      [⟨"GET", "/api/v1/api-roles"⟩, ⟨"DELETE", "/api/v1/api-roles/" ++ "7"⟩] ∧
    (jamfpro.GetJamfApiRolesNameById sampleTransport "Nobody").calls =
      [⟨"GET", "/api/v1/api-roles"⟩] :=
  ⟨((role_by_name_operations sampleTransport "Admin" ⟨"", "Admin", none⟩ _ rfl).1
      [] ⟨"7", "Admin", none⟩ [⟨"8", "Ops", none⟩, ⟨"9", "Admin", none⟩] rfl
      (by simp) rfl).2.2.1,
   ((role_by_name_operations sampleTransport "Nobody" ⟨"", "Admin", none⟩ _ rfl).2
      (by decide)).1.1⟩

/-! ## C27: the endpoints of the roles and of the SSO failover -/

/-- The kind of handler `GetAPIHandler` returns. -/
theorem GetAPIHandler_kind {L : Type} (endpoint : String) (logLevel : L) :
    (GetAPIHandler endpoint logLevel).kind =
      if strings.Contains endpoint "/JSSResource" then .Classic
      else if strings.Contains endpoint "/api" then .JamfPro else .Unknown := by
  simp only [GetAPIHandler]
  split
  · rfl
  · split <;> rfl

/-- What occurs in a text occurs in the text followed by more. -/
theorem occurs_append_right (sub s t : String) (h : Occurs sub s) : Occurs sub (s ++ t) := by
  obtain ⟨pre, post, rfl⟩ := h
  exact ⟨pre, post ++ t, by simp [String.append_assoc]⟩

/-- The endpoint of a role contains "/JSSResource" exactly when the ID starts
with "JSSResource" or contains "/JSSResource". -/
theorem roleEndpoint_Contains_JSSResource (id : String) :
    strings.Contains (jamfpro.roleEndpoint id) "/JSSResource" =
      (hasPrefixChars id.data "JSSResource".data || strings.Contains id "/JSSResource") := by
  have h : (jamfpro.roleEndpoint id).data = "/api/v1/api-roles/".data ++ id.data := by
    simp [jamfpro.roleEndpoint, jamfpro.uriApiRoles, String.data_append]
  simp only [strings.Contains, h]
  show containsChars (['/', 'a', 'p', 'i', '/', 'v', '1', '/', 'a', 'p', 'i', '-', 'r', 'o',
      'l', 'e', 's', '/'] ++ id.data)
    ['/', 'J', 'S', 'S', 'R', 'e', 's', 'o', 'u', 'r', 'c', 'e'] =
    (hasPrefixChars id.data ['J', 'S', 'S', 'R', 'e', 's', 'o', 'u', 'r', 'c', 'e'] ||
      containsChars id.data ['/', 'J', 'S', 'S', 'R', 'e', 's', 'o', 'u', 'r', 'c', 'e'])
  simp [containsChars, hasPrefixChars]

/-- The endpoint of a role contains "/api". -/
theorem roleEndpoint_Contains_api (id : String) :
    strings.Contains (jamfpro.roleEndpoint id) "/api" = true := by
  rw [strings_Contains_iff]
  exact ⟨"", "/v1/api-roles/" ++ id, by
    simp [jamfpro.roleEndpoint, jamfpro.uriApiRoles, String.ext_iff, String.data_append]⟩

/-- C27 as stated fails. For the ID "JSSResource", and for the ID
"7/JSSResource", the endpoint of the role contains "/JSSResource", and
`GetAPIHandler` returns the Classic handler for it. -/
theorem roleEndpoint_not_always_JamfPro :
    (GetAPIHandler (jamfpro.roleEndpoint "JSSResource") (0 : Nat)).kind = .Classic ∧
    (GetAPIHandler (jamfpro.roleEndpoint "7/JSSResource") (0 : Nat)).kind = .Classic := by
  constructor <;> rw [GetAPIHandler_kind] <;> decide

/-- C27, amended. For every ID, the endpoint "/api/v1/api-roles/" ++ id that
`GetJamfApiRolesByID`, `UpdateJamfApiRoleByID` and `DeleteJamfApiRoleByID` build
gets the JamfPro handler if and only if the ID neither starts with
"JSSResource" nor contains "/JSSResource", and the Classic handler otherwise;
`uriSSOFailover` and `uriSSOFailover` ++ "/generate" get the JamfPro handler. -/
theorem roleEndpoint_selects {L : Type} (id : String) (logLevel : L) :
    ((GetAPIHandler (jamfpro.roleEndpoint id) logLevel).kind = .JamfPro ↔
      ¬ ((∃ rest : String, id = "JSSResource" ++ rest) ∨ Occurs "/JSSResource" id)) ∧
    ((GetAPIHandler (jamfpro.roleEndpoint id) logLevel).kind = .Classic ↔
      ((∃ rest : String, id = "JSSResource" ++ rest) ∨ Occurs "/JSSResource" id)) ∧
    (GetAPIHandler jamfpro.uriSSOFailover logLevel).kind = .JamfPro ∧
    (GetAPIHandler jamfpro.UpdateFailoverUrl.endpoint logLevel).kind = .JamfPro := by
  have hp : hasPrefixChars id.data "JSSResource".data = true ↔
      ∃ rest : String, id = "JSSResource" ++ rest := by
    rw [hasPrefixChars_iff]
    constructor
    · rintro ⟨r, hr⟩
      exact ⟨⟨r⟩, String.ext (by simp [String.data_append, hr])⟩
    · rintro ⟨rest, rfl⟩
      exact ⟨rest.data, by simp [String.data_append]⟩
  have hc : strings.Contains (jamfpro.roleEndpoint id) "/JSSResource" = true ↔
      ((∃ rest : String, id = "JSSResource" ++ rest) ∨ Occurs "/JSSResource" id) := by
    rw [roleEndpoint_Contains_JSSResource, Bool.or_eq_true, hp, strings_Contains_iff]
  refine ⟨?_, ?_, ?_, ?_⟩
  · rw [GetAPIHandler_kind, roleEndpoint_Contains_api, ← hc]
    cases strings.Contains (jamfpro.roleEndpoint id) "/JSSResource" <;> simp
  · rw [GetAPIHandler_kind, roleEndpoint_Contains_api, ← hc]
    cases strings.Contains (jamfpro.roleEndpoint id) "/JSSResource" <;> simp
  · rw [GetAPIHandler_kind]; decide
  · rw [GetAPIHandler_kind]; decide

/-- C27, amended, on the ID "42". -/
theorem roleEndpoint_selects_witness :
    (GetAPIHandler (jamfpro.roleEndpoint "42") (0 : Nat)).kind = .JamfPro :=
  (roleEndpoint_selects "42" (0 : Nat)).1.2
    (fun h => absurd ((roleEndpoint_selects "42" (0 : Nat)).2.1.2 h) (by decide))

/-! ## C28: the endpoints of the Classic resources -/

/-- C28. For each of the URIs of the departments, the computer groups and the
user extension attributes, for every integer ID and every name: the URI, the
endpoint by ID (the URI, "/id/" and the ID in decimal), the endpoint of
creation (the URI and "/id/0") and the endpoint by name (the URI, "/name/" and
the name as it is) all get the Classic handler from `GetAPIHandler`. -/
theorem classic_endpoints_select_Classic {L : Type} (id : Int) (name : String) (logLevel : L)
    (uri : String)
    (hu : uri = jamfpro.uriDepartments ∨ uri = jamfpro.uriComputerGroups ∨
      uri = jamfpro.uriUserExtensionAttributes) :
    (GetAPIHandler uri logLevel).kind = .Classic ∧
    (GetAPIHandler (fmt.idEndpoint uri id) logLevel).kind = .Classic ∧
    (GetAPIHandler (fmt.createEndpoint uri) logLevel).kind = .Classic ∧
    (GetAPIHandler (fmt.nameEndpoint uri name) logLevel).kind = .Classic ∧
    fmt.idEndpoint uri id = uri ++ "/id/" ++ toString id ∧
    fmt.nameEndpoint uri name = uri ++ "/name/" ++ name := by
  have h : Occurs "/JSSResource" uri := by
    rcases hu with h | h | h <;> subst h <;> exact (strings_Contains_iff _ _).1 (by decide)
  have key : ∀ t : String, (GetAPIHandler (uri ++ t) logLevel).kind = .Classic := by
    intro t
    rw [GetAPIHandler_kind, (strings_Contains_iff _ _).2 (occurs_append_right _ _ t h)]
    rfl
  refine ⟨?_, ?_, ?_, ?_, rfl, rfl⟩
  · rw [GetAPIHandler_kind, (strings_Contains_iff _ _).2 h]; rfl
  · simpa [fmt.idEndpoint, String.append_assoc] using key ("/id/" ++ fmt.verbD id)
  · exact key "/id/0"
  · simpa [fmt.nameEndpoint, String.append_assoc] using key ("/name/" ++ name)

/-- C28 on a computer group whose name contains "/api", and on a negative ID. -/
theorem classic_endpoints_select_Classic_witness :
    (GetAPIHandler (fmt.nameEndpoint jamfpro.uriComputerGroups "a/api/b") (0 : Nat)).kind =
      .Classic ∧
    (GetAPIHandler (fmt.idEndpoint jamfpro.uriComputerGroups (-3)) (0 : Nat)).kind = .Classic :=
  ⟨(classic_endpoints_select_Classic (-3) "a/api/b" (0 : Nat) jamfpro.uriComputerGroups
      (Or.inr (Or.inl rfl))).2.2.2.1,
   (classic_endpoints_select_Classic (-3) "a/api/b" (0 : Nat) jamfpro.uriComputerGroups
      (Or.inr (Or.inl rfl))).2.1⟩

/-! ## C29: the default site of a computer group -/

/-- C29. `CreateComputerGroup`, `UpdateComputerGroupByID` and
`UpdateComputerGroupByName` leave the caller with the group `defaultSite` makes
of the one passed in, and this is the group sent in the one request. In it,
`Site` is (ID = -1, Name = "none") when `Site.ID == 0` and `Site.Name == ""` on
entry, and `Site` is unchanged in every other case; `Site` differs from what it
was if and only if `Site.ID == 0` and `Site.Name == ""` on entry; every other
field of the group, and what else the site holds, is unchanged; and applying
the rule a second time changes nothing. -/
theorem defaultSite_spec {S C : Type} (group : jamfpro.ResourceComputerGroup S C)
    (DoRequest : String → String → jamfpro.ResourceComputerGroup S C →
      Except GoError (jamfpro.ResourceComputerGroup S C))
    (errorText : GoError → String) (id : Int) (name : String) :
    ((jamfpro.CreateComputerGroup DoRequest errorText group).group = jamfpro.defaultSite group ∧
      (jamfpro.UpdateComputerGroupByID DoRequest errorText id group).group =
        jamfpro.defaultSite group ∧
      (jamfpro.UpdateComputerGroupByName DoRequest errorText name group).group =
        jamfpro.defaultSite group) ∧
    ((jamfpro.CreateComputerGroup DoRequest errorText group).calls =
        [(⟨"POST", "/JSSResource/computergroups/id/0"⟩, jamfpro.defaultSite group)] ∧
      (jamfpro.UpdateComputerGroupByID DoRequest errorText id group).calls =
        [(⟨"PUT", "/JSSResource/computergroups/id/" ++ toString id⟩,
          jamfpro.defaultSite group)] ∧
      (jamfpro.UpdateComputerGroupByName DoRequest errorText name group).calls =
        [(⟨"PUT", "/JSSResource/computergroups/name/" ++ name⟩, jamfpro.defaultSite group)]) ∧
    (group.Site.ID = 0 ∧ group.Site.Name = "" →
      (jamfpro.defaultSite group).Site.ID = -1 ∧ (jamfpro.defaultSite group).Site.Name = "none") ∧
    (¬ (group.Site.ID = 0 ∧ group.Site.Name = "") →
      (jamfpro.defaultSite group).Site = group.Site) ∧
    ((jamfpro.defaultSite group).Site ≠ group.Site ↔
      (group.Site.ID = 0 ∧ group.Site.Name = "")) ∧
    ((jamfpro.defaultSite group).ID = group.ID ∧
      (jamfpro.defaultSite group).Name = group.Name ∧
      (jamfpro.defaultSite group).IsSmart = group.IsSmart ∧
      (jamfpro.defaultSite group).Criteria = group.Criteria ∧
      (jamfpro.defaultSite group).Computers = group.Computers ∧
      (jamfpro.defaultSite group).Site.rest = group.Site.rest) ∧
    jamfpro.defaultSite (jamfpro.defaultSite group) = jamfpro.defaultSite group := by
  refine ⟨⟨?_, ?_, ?_⟩, ⟨?_, ?_, ?_⟩, ?_, ?_, ?_, ?_, ?_⟩
  · simp only [jamfpro.CreateComputerGroup]; split <;> rfl
  · simp only [jamfpro.UpdateComputerGroupByID]; split <;> rfl
  · simp only [jamfpro.UpdateComputerGroupByName]; split <;> rfl
  · simp only [jamfpro.CreateComputerGroup]; split <;> rfl
  · simp only [jamfpro.UpdateComputerGroupByID]
    split <;> simp [fmt.idEndpoint, fmt.verbD, jamfpro.uriComputerGroups, String.append_assoc]
  · simp only [jamfpro.UpdateComputerGroupByName]
    split <;> simp [fmt.nameEndpoint, jamfpro.uriComputerGroups, String.append_assoc]
  · intro h
    simp [jamfpro.defaultSite, h]
  · intro h
    simp [jamfpro.defaultSite, h]
  · by_cases h : group.Site.ID = 0 ∧ group.Site.Name = ""
    · simp only [jamfpro.defaultSite, if_pos h, h, and_self, iff_true]
      intro hc
      have := congrArg jamfpro.SharedResourceSite.ID hc
      rw [h.1] at this
      simp at this
    · simp [jamfpro.defaultSite, h]
  · by_cases h : group.Site.ID = 0 ∧ group.Site.Name = "" <;> simp [jamfpro.defaultSite, h]
  · by_cases h : group.Site.ID = 0 ∧ group.Site.Name = ""
    · simp [jamfpro.defaultSite, h]
    · simp [jamfpro.defaultSite, h]

/-! ## C30: a file that cannot be opened -/

/-- The second loop returns at the first file that cannot be opened or cannot
be read, with the error of that file. -/
theorem MarshalMultipartFormData_files_error (lib : multipart.Lib) (fs : String → File)
    (pre : List (String × String)) (f : String × String) (post : List (String × String))
    (w : multipart.Writer) (opened : List String) (e : String)
    (hpre : ∀ x ∈ pre, ∃ bytes, fs x.2 = .content bytes)
    (hf : fs f.2 = .openFails e ∨ fs f.2 = .readFails e) :
    MarshalMultipartFormData.files lib fs w opened (pre ++ f :: post) =
      (.error (.lib e), opened ++ (pre ++ [f]).map Prod.snd) := by
  induction pre generalizing w opened with
  | nil =>
    obtain ⟨formField, filepath⟩ := f
    rcases hf with h | h
    · have h' : fs filepath = .openFails e := h
      simp [MarshalMultipartFormData.files, h']
    · have h' : fs filepath = .readFails e := h
      simp [MarshalMultipartFormData.files, h']
  | cons a pre ih =>
    obtain ⟨formField, filepath⟩ := a
    obtain ⟨bytes, hbytes⟩ := hpre (formField, filepath) (by simp)
    have hbytes' : fs filepath = .content bytes := hbytes
    have hr := ih ((w.CreateFormFile lib formField filepath).Write bytes) (opened ++ [filepath])
      (fun x hx => hpre x (by simp [hx]))
    simpa [MarshalMultipartFormData.files, hbytes'] using hr

/-- The second loop returns an error when some path cannot be opened. -/
theorem MarshalMultipartFormData_files_fails (lib : multipart.Lib) (fs : String → File)
    (files : List (String × String)) (w : multipart.Writer) (opened : List String)
    (h : ∃ f ∈ files, ∃ e, fs f.2 = .openFails e) :
    ∃ err opened', MarshalMultipartFormData.files lib fs w opened files =
      (.error err, opened') := by
  induction files generalizing w opened with
  | nil => simp at h
  | cons a files ih =>
    obtain ⟨formField, filepath⟩ := a
    cases hfs : fs filepath with
    | openFails e =>
      exact ⟨.lib e, opened ++ [filepath], by simp [MarshalMultipartFormData.files, hfs]⟩
    | readFails e =>
      exact ⟨.lib e, opened ++ [filepath], by simp [MarshalMultipartFormData.files, hfs]⟩
    | content bytes =>
      obtain ⟨f, hf, e, he⟩ := h
      have hf' : f ∈ files := by
        rcases List.mem_cons.1 hf with rfl | h'
        · rw [hfs] at he; cases he
        · exact h'
      obtain ⟨err, opened', hr⟩ := ih
        ((w.CreateFormFile lib formField filepath).Write bytes) (opened ++ [filepath])
        ⟨f, hf', e, he⟩
      exact ⟨err, opened', by simp [MarshalMultipartFormData.files, hfs, hr]⟩

/-- C30 as stated fails. With a files map of two entries, the path "/tmp" that
opens and then fails to be read (a directory) and the path "/missing" that
cannot be opened, visited in this order, the error returned is the read error
of "/tmp" and not the open error: "/missing" was never handed to `os.Open`. -/
theorem MarshalMultipartFormData_read_error_first :
    sampleFiles "/missing" = .openFails "open /missing: no such file or directory" ∧
    (MarshalMultipartFormData sampleLib sampleFiles [] [("a", "/tmp"), ("b", "/missing")]).err =
      some (.lib "read /tmp: is a directory") ∧
    (MarshalMultipartFormData sampleLib sampleFiles [] [("a", "/tmp"), ("b", "/missing")]).err ≠
      some (.lib "open /missing: no such file or directory") ∧
    (MarshalMultipartFormData sampleLib sampleFiles [] [("a", "/tmp"), ("b", "/missing")]).opened =
      ["/tmp"] := by
  decide

/-- C30, amended. For every fields map and files map: whenever
`MarshalMultipartFormData` returns an error, the body is nil and the content
type is empty; when at least one path cannot be opened, an error is returned;
the error is that of the first file, in the order visited, that cannot be
opened or cannot be read, all files before it having been read, and the paths
handed to `os.Open` are those up to and including it; and
`JamfProApiHandler.MarshalMultipartRequest` returns the same body, content type
and error. -/
theorem MarshalMultipartFormData_failure {L : Type} (h : JamfProApiHandler L)
    (lib : multipart.Lib) (fs : String → File) (fields files : List (String × String)) :
    ((MarshalMultipartFormData lib fs fields files).err ≠ none →
      (MarshalMultipartFormData lib fs fields files).body = none ∧
        (MarshalMultipartFormData lib fs fields files).contentType = "") ∧
    ((∃ f ∈ files, ∃ e, fs f.2 = .openFails e) →
      (MarshalMultipartFormData lib fs fields files).err ≠ none) ∧
    (∀ pre f post e, files = pre ++ f :: post →
      (∀ x ∈ pre, ∃ bytes, fs x.2 = .content bytes) →
      (fs f.2 = .openFails e ∨ fs f.2 = .readFails e) →
      (MarshalMultipartFormData lib fs fields files).err = some (.lib e) ∧
        (MarshalMultipartFormData lib fs fields files).opened = (pre ++ [f]).map Prod.snd) ∧
    ((h.MarshalMultipartRequest lib fs fields files).body =
        (MarshalMultipartFormData lib fs fields files).body ∧
      (h.MarshalMultipartRequest lib fs fields files).contentType =
        (MarshalMultipartFormData lib fs fields files).contentType ∧
      (h.MarshalMultipartRequest lib fs fields files).err =
        (MarshalMultipartFormData lib fs fields files).err) := by
  refine ⟨?_, ?_, ?_, rfl, rfl, rfl⟩
  · simp only [MarshalMultipartFormData]
    split
    · intro _; exact ⟨rfl, rfl⟩
    · intro hc; exact absurd rfl hc
  · intro hex
    obtain ⟨err, opened', hr⟩ := MarshalMultipartFormData_files_fails lib fs files
      (MarshalMultipartFormData.fields lib (multipart.NewWriter lib) fields) [] hex
    simp [MarshalMultipartFormData, hr]
  · intro pre f post e hsplit hpre hfe
    subst hsplit
    have hr := MarshalMultipartFormData_files_error lib fs pre f post
      (MarshalMultipartFormData.fields lib (multipart.NewWriter lib) fields) [] e hpre hfe
    simp [MarshalMultipartFormData, hr]

/-- C30, amended, on a file that is read followed by a path that cannot be
opened: the open error of that path, and no body. -/
theorem MarshalMultipartFormData_failure_witness :
    (MarshalMultipartFormData sampleLib sampleFiles [("name", "icon")]
        [("file", "/tmp/icon.png"), ("b", "/missing")]).err =
      some (.lib "open /missing: no such file or directory") ∧
    (MarshalMultipartFormData sampleLib sampleFiles [("name", "icon")]
        [("file", "/tmp/icon.png"), ("b", "/missing")]).body = none :=
  ⟨((MarshalMultipartFormData_failure sampleJamfPro sampleLib sampleFiles [("name", "icon")]
      [("file", "/tmp/icon.png"), ("b", "/missing")]).2.2.1
      [("file", "/tmp/icon.png")] ("b", "/missing") [] _ rfl
      (by intro x hx; simp at hx; subst hx; exact ⟨"PNG", rfl⟩) (Or.inl rfl)).1,
   ((MarshalMultipartFormData_failure sampleJamfPro sampleLib sampleFiles [("name", "icon")]
      [("file", "/tmp/icon.png"), ("b", "/missing")]).1 (by decide)).1⟩

end http_client
